import Mathlib

/-!
# applauncherd supervisor (`src/launcherlib/daemon.cpp`)

A shallow embedding of the `Daemon` class: the supervisor state, the state
file written by `Daemon::reExec` and read back by `Daemon::restoreState`,
the booster lifecycle (`forkBooster`, `readFromBoosterSocket`,
`reapZombies`), the mode commands and `parseArgs`.

Conventions.
* `pid_t` and `int` are 32-bit signed; they are embedded as `Int`, and
  `IntRange` says that a value is representable.
* The state file is a sequence of characters (`List Char`); the stream
  extractions `ss >> token`, `ss >> int`, `ss >> bool` work on the unread
  rest of that sequence and return `none` where the stream sets `failbit`
  (the stream was put in throwing mode by `ss.exceptions(failbit | badbit)`).
* System calls are not executed: operations return the list of calls they
  make (`Effect`), and take the results of `fork` and `waitpid` as inputs.
-/

namespace Applauncherd

/-! ## Machine integers -/

/-- Smallest value of a 32-bit `int`. -/
def INT_MIN : Int := -2147483648

/-- Largest value of a 32-bit `int`. -/
def INT_MAX : Int := 2147483647

/-- The value fits a 32-bit signed `int` (`pid_t`, `int`). -/
def IntRange (v : Int) : Prop := INT_MIN ≤ v ∧ v ≤ INT_MAX

instance (v : Int) : Decidable (IntRange v) := by
  unfold IntRange; exact inferInstance

/-! ## Stream output: what `operator<<` appends to the file -/

/-- The character of a decimal digit `n < 10`. -/
def digitChar (n : Nat) : Char := Char.ofNat (48 + n)

/-- Decimal digits of `n`, most significant first, prepended to `acc`.
The first argument bounds the number of digits. -/
def showNatAux : Nat → Nat → List Char → List Char
  | 0, _, acc => acc
  | fuel + 1, n, acc =>
    if n / 10 = 0 then digitChar (n % 10) :: acc
    else showNatAux fuel (n / 10) (digitChar (n % 10) :: acc)

/-- Text of `ss << n` for a non-negative number. -/
def showNat (n : Nat) : List Char := showNatAux (n + 1) n []

/-- Text of `ss << v` for an `int` or `pid_t`. -/
def showInt (v : Int) : List Char :=
  if v < 0 then '-' :: showNat (-v).toNat else showNat v.toNat

/-- Text of `ss << b` for a `bool` (no `boolalpha`): `1` or `0`. -/
def showBool (b : Bool) : List Char := if b then ['1'] else ['0']

/-- Text of `std::endl`. -/
def endl : List Char := ['\n']

/-! ## Stream input: `operator>>` on the unread rest of the file -/

/-- The `isspace` of the C locale. -/
def isSpace (c : Char) : Bool :=
  c = ' ' || c = '\n' || c = '\t' || c = '\r' || c = Char.ofNat 11 || c = Char.ofNat 12

/-- Decimal digit test. -/
def isDigit (c : Char) : Bool := 48 ≤ c.toNat && c.toNat ≤ 57

/-- Value of a decimal digit character. -/
def digitVal (c : Char) : Nat := c.toNat - 48

/-- Skipping of leading white space done by every formatted extraction. -/
def skipWs (s : List Char) : List Char := s.dropWhile isSpace

/-- The extraction `ss >> token` into a `std::string`: skip white space, then take
the characters up to the next white space. With nothing left to take the
stream fails (`none`). Returns the token and the unread rest. -/
def readToken (s : List Char) : Option (String × List Char) :=
  match skipWs s with
  | [] => none
  | c :: r =>
    some (String.mk ((c :: r).takeWhile (fun x => !isSpace x)),
          (c :: r).dropWhile (fun x => !isSpace x))

/-- Value of a run of decimal digits. -/
def natOfDigits (ds : List Char) : Nat :=
  ds.foldl (fun acc c => 10 * acc + digitVal c) 0

/-- The digits of a number behind its sign: the longest run of digits, negated
for `neg`. No digit means failure. Returns the value and the unread rest. -/
def readDigits (neg : Bool) (t : List Char) : Option (Int × List Char) :=
  let ds := t.takeWhile isDigit
  if ds = [] then none
  else
    let v : Int := (natOfDigits ds : Nat)
    some (if neg then -v else v, t.dropWhile isDigit)

/-- The integer extraction common to `ss >> int` and `ss >> bool`: skip white
space, accept one optional sign, then read the digits. Returns the
(unbounded) value and the unread rest. -/
def readNumber (s : List Char) : Option (Int × List Char) :=
  match skipWs s with
  | [] => none
  | c :: t =>
    if c = '-' then readDigits true t
    else if c = '+' then readDigits false t
    else readDigits false (c :: t)

/-- The extraction `ss >> arg` into an `int`: a value outside the range of `int` sets
`failbit`. -/
def readInt (s : List Char) : Option (Int × List Char) :=
  match readNumber s with
  | none => none
  | some (v, r) => if INT_MIN ≤ v ∧ v ≤ INT_MAX then some (v, r) else none

/-- The extraction `ss >> arg` into a `bool` (no `boolalpha`): the number read must be
0 or 1, anything else sets `failbit`. -/
def readBool (s : List Char) : Option (Bool × List Char) :=
  match readNumber s with
  | none => none
  | some (v, r) =>
    if v = 0 then some (false, r)
    else if v = 1 then some (true, r)
    else none

/-! ## Containers -/

/-- Modelled from the spec: the types `PidMap` and `FdMap` of the two invoker
mappings ("mapping booster pid → invoker pid", "booster pid → fd"), which are
declared in daemon.h, not among the sources. daemon.cpp uses them as a
`std::map` with `pid_t` keys (`find`, `erase`, `operator[]`, iteration): the
entries in ascending key order, as the map's iterators visit them. -/
abbrev PidMap := List (Int × Int)

/-- The lookup `m.find(k)`: the mapped value, `none` for `m.end()`. -/
def mapFind : PidMap → Int → Option Int
  | [], _ => none
  | (k', v') :: m, k => if k = k' then some v' else mapFind m k

/-- The assignment `m[k] = v`: overwrite the entry of `k` or insert one at its place
in key order. -/
def mapSet : PidMap → Int → Int → PidMap
  | [], k, v => [(k, v)]
  | (k', v') :: m, k, v =>
    if k < k' then (k, v) :: (k', v') :: m
    else if k = k' then (k, v) :: m
    else (k', v') :: mapSet m k v

/-- The removal `m.erase(m.find(k))` for a key that was found. -/
def mapErase : PidMap → Int → PidMap
  | [], _ => []
  | (k', v') :: m, k => if k = k' then m else (k', v') :: mapErase m k

/-- The keys of a map, in iteration order. -/
def mapKeys (m : PidMap) : List Int := m.map Prod.fst

/-- Class invariant of `std::map`: keys strictly ascending (hence unique). -/
def MapOrdered (m : PidMap) : Prop := (mapKeys m).Pairwise (fun a b => a < b)

instance (m : PidMap) : Decidable (MapOrdered m) := by
  unfold MapOrdered; exact inferInstance

/-- Modelled from the spec: `SocketManager` (socketmanager.h and
socketmanager.cpp are not among the sources), of which the supervisor uses
"a serializable name→fd mapping for re-exec": the entries of the mapping,
one per name, in the order `getState` enumerates them. -/
structure SocketManager where
  m_socketHash : List (String × Int)
deriving DecidableEq, Repr

/-- Modelled from the spec: `SocketManager::getState`, the name→fd mapping
handed to the serializer. -/
def SocketManager.getState (sm : SocketManager) : List (String × Int) :=
  sm.m_socketHash

/-- Insert or overwrite the entry of `name` in a name→fd list. -/
def hashSet : List (String × Int) → String → Int → List (String × Int)
  | [], name, fd => [(name, fd)]
  | (n', f') :: m, name, fd =>
    if name = n' then (name, fd) :: m else (n', f') :: hashSet m name fd

/-- Modelled from the spec: `SocketManager::addMapping`, which records
`name → fd` in the mapping (one entry per name). -/
def SocketManager.addMapping (sm : SocketManager) (socketId : String) (fd : Int) :
    SocketManager :=
  { m_socketHash := hashSet sm.m_socketHash socketId fd }

/-- Modelled from the spec: `SocketManager::findSocket`, the fd recorded for
a name, if any. -/
def SocketManager.findSocket (sm : SocketManager) (socketId : String) : Option Int :=
  (sm.m_socketHash.find? (fun e => e.1 = socketId)).map Prod.snd

/-! ## Supervisor state -/

/-- The data members of `Daemon` that the operations below read or write (the
class is declared in daemon.h, not among the sources; the members are taken
from the constructor and the methods of daemon.cpp). -/
structure Daemon where
  /-- Run as a daemon (`--daemon`). -/
  m_daemon : Bool
  /-- Debug mode (`--debug`, `debug-mode` record). -/
  m_debugMode : Bool
  /-- Boot mode (`--boot-mode`, SIGUSR2). -/
  m_bootMode : Bool
  /-- Pid of the current booster, 0 for none. -/
  m_boosterPid : Int
  /-- Pids of the forked children, in `push_back` order. -/
  m_children : List Int
  /-- Booster pid → invoker pid. -/
  m_boosterPidToInvokerPid : PidMap
  /-- Booster pid → fd of the socket to the invoker. -/
  m_boosterPidToInvokerFd : PidMap
  /-- The socket pair shared with the boosters: `[0]`, `[1]`. -/
  m_boosterLauncherSocket : Int × Int
  /-- The signal pipe: `[0]`, `[1]`. -/
  m_sigPipeFd : Int × Int
  /-- The socket manager the daemon owns. -/
  m_socketManager : SocketManager
  /-- Started by `--re-exec`. -/
  m_reExec : Bool
  /-- Notify systemd (`--systemd`). -/
  m_notifySystemd : Bool
  /-- Whether the pointer `m_booster` is non-null. -/
  m_booster : Bool
deriving DecidableEq, Repr

/-- The members as the constructor's initializer list leaves them. The two
fd arrays are not initialized there: their content is what the memory held. -/
def Daemon.init (launcherSocket sigPipe : Int × Int) : Daemon :=
  { m_daemon := false
    m_debugMode := false
    m_bootMode := false
    m_boosterPid := 0
    m_children := []
    m_boosterPidToInvokerPid := []
    m_boosterPidToInvokerFd := []
    m_boosterLauncherSocket := launcherSocket
    m_sigPipeFd := sigPipe
    m_socketManager := { m_socketHash := [] }
    m_reExec := false
    m_notifySystemd := false
    m_booster := false }

/-! ## The state file: `reExec` writes, `restoreState` reads -/

/-- The text that the `try` block of `Daemon::reExec` writes to the state
file, for the process id `myPid` returned by `getpid()`. -/
def saveState (myPid : Int) (d : Daemon) : List Char :=
  "my-pid ".toList ++ showInt myPid ++ endl
  ++ ("debug-mode ".toList ++ showBool d.m_debugMode ++ endl)
  ++ (d.m_children.map fun c => "child ".toList ++ showInt c ++ endl).flatten
  ++ (d.m_boosterPidToInvokerPid.map fun e =>
        "booster-invoker-pid ".toList ++ showInt e.1 ++ " ".toList ++ showInt e.2 ++ endl).flatten
  ++ (d.m_boosterPidToInvokerFd.map fun e =>
        "booster-invoker-fd ".toList ++ showInt e.1 ++ " ".toList ++ showInt e.2 ++ endl).flatten
  ++ ("booster-pid ".toList ++ showInt d.m_boosterPid ++ endl)
  ++ ("launcher-socket ".toList ++ showInt d.m_boosterLauncherSocket.1 ++ " ".toList
        ++ showInt d.m_boosterLauncherSocket.2 ++ endl)
  ++ ("sigpipe-fd ".toList ++ showInt d.m_sigPipeFd.1 ++ " ".toList
        ++ showInt d.m_sigPipeFd.2 ++ endl)
  ++ ("boot-mode ".toList ++ showBool d.m_bootMode ++ endl)
  ++ (d.m_socketManager.getState.map fun e =>
        "socket-hash ".toList ++ e.1.data ++ " ".toList ++ showInt e.2 ++ endl).flatten
  ++ ("end".toList ++ endl)

/-- The types of the exceptions met in `restoreState`, thrown or named by a
handler. -/
inductive ExnType
  /-- The exception `std::ios_base::failure`, thrown by the stream on `failbit`. -/
  | iosFailure
  /-- The type `const char *`, the type of a thrown string literal. -/
  | constCharPtr
  /-- The type `char *`. -/
  | charPtr
deriving DecidableEq, Repr

/-- Whether a `catch` clause for type `handler` catches an exception of type
`thrown`: the same type, or a pointer that converts to the handler's type by
adding `const`. Dropping `const` is no such conversion. -/
def ExnType.catches (handler thrown : ExnType) : Bool :=
  match handler, thrown with
  | .iosFailure, .iosFailure => true
  | .constCharPtr, .constCharPtr => true
  | .constCharPtr, .charPtr => true
  | .charPtr, .charPtr => true
  | _, _ => false

/-- How the `try` block of `restoreState` ends. -/
inductive TryResult
  /-- The `return` after the `end` token, with the members as restored;
  `removed` tells whether `remove(m_stateFile)` was called. -/
  | returned (d : Daemon) (removed : Bool)
  /-- An exception of type `ty` left the block, the members being `d`. -/
  | threw (ty : ExnType) (msg : String) (d : Daemon)
deriving DecidableEq, Repr

/-- How one pass through the body of the loop `while (true)` ends. -/
inductive LoopStep
  /-- The `try` block is left, by the `return` or by an exception. -/
  | leave (r : TryResult)
  /-- The body ran to its end: the loop goes on with the unread rest `ss` and the
  members `d`. -/
  | next (ss : List Char) (d : Daemon)
deriving DecidableEq, Repr

/-- An extraction inside the `try` block. Where the stream fails (`none`), the
exception `std::ios_base::failure` leaves the block, the members being `d`;
otherwise the body goes on with the value read and the unread rest. -/
def extract {α : Type} (r : Option (α × List Char)) (d : Daemon)
    (k : α → List Char → LoopStep) : LoopStep :=
  match r with
  | none => .leave (.threw .iosFailure "" d)
  | some (a, ss) => k a ss

/-- The body of the loop `while (true)` of `restoreState` on the unread rest `ss` of the
file. A token that matches none of the comparisons is passed over. -/
def restoreStep (ss : List Char) (d : Daemon) : LoopStep :=
  extract (readToken ss) d fun token ss =>
    if token = "end" then
      .leave (.returned d (!d.m_debugMode))
    else if token = "child" then
      extract (readInt ss) d fun arg1 ss =>
      .next ss { d with m_children := d.m_children ++ [arg1] }
    else if token = "booster-invoker-pid" then
      extract (readInt ss) d fun arg1 ss =>
      extract (readInt ss) d fun arg2 ss =>
      .next ss
        { d with m_boosterPidToInvokerPid := mapSet d.m_boosterPidToInvokerPid arg1 arg2 }
    else if token = "booster-invoker-fd" then
      extract (readInt ss) d fun arg1 ss =>
      extract (readInt ss) d fun arg2 ss =>
      .next ss
        { d with m_boosterPidToInvokerFd := mapSet d.m_boosterPidToInvokerFd arg1 arg2 }
    else if token = "booster-pid" then
      extract (readInt ss) d fun arg1 ss =>
      .next ss { d with m_boosterPid := arg1 }
    else if token = "launcher-socket" then
      extract (readInt ss) d fun arg1 ss =>
      extract (readInt ss) d fun arg2 ss =>
      .next ss { d with m_boosterLauncherSocket := (arg1, arg2) }
    else if token = "sigpipe-fd" then
      extract (readInt ss) d fun arg1 ss =>
      extract (readInt ss) d fun arg2 ss =>
      .next ss { d with m_sigPipeFd := (arg1, arg2) }
    else if token = "socket-hash" then
      extract (readToken ss) d fun arg1 ss =>
      extract (readInt ss) d fun arg2 ss =>
      .next ss { d with m_socketManager := d.m_socketManager.addMapping arg1 arg2 }
    else if token = "debug-mode" then
      extract (readBool ss) d fun arg1 ss =>
      .next ss { d with m_debugMode := arg1 }
    else if token = "boot-mode" then
      extract (readBool ss) d fun arg1 ss =>
      .next ss { d with m_bootMode := arg1 }
    else
      .next ss d

/-- The loop `while (true)` of `restoreState`. The first argument bounds the number of
iterations (`none` when it is used up). -/
def restoreLoop : Nat → List Char → Daemon → Option TryResult
  | 0, _, _ => none
  | fuel + 1, ss, d =>
    match restoreStep ss d with
    | .leave r => some r
    | .next ss d => restoreLoop fuel ss d

/-- The `try` block of `restoreState`: the `my-pid` header, then the loop. Every
iteration of the loop takes at least one character, so the length of the
unread rest bounds the iterations. -/
def restoreTry (myPid : Int) (file : List Char) (d : Daemon) : Option TryResult :=
  match readToken file with
  | none => some (.threw .iosFailure "" d)
  | some (token, ss) =>
    if token ≠ "my-pid" then
      some (.threw .constCharPtr "Daemon: malformed state file, exiting." d)
    else
      match readInt ss with
      | none => some (.threw .iosFailure "" d)
      | some (pid, ss) =>
        if pid ≠ myPid then
          some (.threw .constCharPtr "Daemon: stale state file, exiting." d)
        else
          restoreLoop (ss.length + 1) ss d

/-- How a call of `Daemon::restoreState` ends. -/
inductive RestoreResult
  /-- Normal return to the constructor, the members as restored. -/
  | returned (d : Daemon) (removed : Bool)
  /-- The process ended by `_exit(status)`; `removed` tells whether
  `remove(m_stateFile)` was called before. -/
  | exited (status : Int) (removed : Bool)
  /-- An exception that neither handler catches leaves `restoreState`: no
  `remove`, no `_exit`. -/
  | uncaught (ty : ExnType) (msg : String)
deriving DecidableEq, Repr

/-- The method `Daemon::restoreState` for process id `myPid` (`getpid()`) on the
content `file` of the state file, starting from the members `d`. The two
handlers are `catch (std::ifstream::failure e)` and `catch (char *err)`;
behind them come the `remove` (unless in debug mode) and `_exit(1)`. -/
def restoreState (myPid : Int) (file : List Char) (d : Daemon) : Option RestoreResult :=
  match restoreTry myPid file d with
  | none => none
  | some (.returned d removed) => some (.returned d removed)
  | some (.threw ty msg d) =>
    if ExnType.catches .iosFailure ty || ExnType.catches .charPtr ty then
      some (.exited 1 (!d.m_debugMode))
    else
      some (.uncaught ty msg)

/-! ## Constants and system calls -/

/-- The constant `EXIT_SUCCESS`. -/
def EXIT_SUCCESS : Int := 0

/-- The constant `EXIT_FAILURE`. -/
def EXIT_FAILURE : Int := 1

/-- Signal number of SIGHUP. -/
def SIGHUP : Int := 1

/-- Signal number of SIGTERM. -/
def SIGTERM : Int := 15

/-- The constant `Daemon::m_boosterSleepTime`. -/
def m_boosterSleepTime : Int := 2

/-- A 32-bit word written to an invoker socket. -/
inductive Word
  /-- The constant `INVOKER_MSG_EXIT` (declared in a header that is not among
  the sources; its value is not needed). -/
  | invokerMsgExit
  /-- An `int`. -/
  | int (v : Int)
deriving DecidableEq, Repr

/-- What the forked child does in `forkBooster` before and while it is the
booster. -/
inductive ChildEffect
  /-- The call `restoreUnixSignalHandlers()`. -/
  | restoreUnixSignalHandlers
  /-- The call `prctl(PR_SET_PDEATHSIG, SIGHUP)`. -/
  | prctlPdeathsig
  /-- The call `close(fd)`. -/
  | close (fd : Int)
  /-- The call `setsid()`. -/
  | setsid
  /-- The call `sleep(seconds)`; the parameter of `sleep` is an `unsigned int`. -/
  | sleep (seconds : Nat)
  /-- The call `m_booster->initialize(...)`, of whose arguments the launcher socket
  `m_boosterLauncherSocket[1]` and the boot mode flag are kept. -/
  | boosterInit (launcherFd : Int) (bootMode : Bool)
  /-- The call `m_booster->run(m_socketManager)` followed by `_exit(retval)`. -/
  | runAndExit
deriving DecidableEq, Repr

/-- A system call the supervisor makes. -/
inductive Effect
  /-- The call `write(fd, &w, 4)`. -/
  | write (fd : Int) (w : Word)
  /-- The call `close(fd)`. -/
  | close (fd : Int)
  /-- The call `kill(pid, signal)`. -/
  | kill (pid : Int) (signal : Int)
  /-- A `fork()` that returned `newPid` here, with what the child does. -/
  | fork (newPid : Int) (child : List ChildEffect)
  /-- The state file written and closed with this content. -/
  | writeStateFile (text : List Char)
  /-- The call `signal(SIGHUP, SIG_IGN)`. -/
  | ignoreSighup
  /-- The call `execve(argv[0], argv, environ)`. -/
  | execve (argv : List String)
deriving DecidableEq, Repr

/-- How an operation of the supervisor ends in the process that runs it. -/
inductive Result
  /-- It returns, the members being `d`. -/
  | returned (d : Daemon)
  /-- The process ended by `_exit(status)` or `exit(status)`. -/
  | exited (status : Int)
  /-- A `std::runtime_error` propagates to the caller. -/
  | threw (what : String)
  /-- The call `fork()` returned 0: this process is the child and goes on as the booster,
  doing `child`; it never returns to the supervisor code. -/
  | booster (child : List ChildEffect)
deriving DecidableEq, Repr

/-- The system calls made by an operation, in order, and how it ended. -/
structure Outcome where
  effects : List Effect
  result : Result
deriving DecidableEq, Repr

/-- The same outcome after the calls `es` were made first. -/
def Outcome.after (es : List Effect) (o : Outcome) : Outcome :=
  { o with effects := es ++ o.effects }

/-! ## Booster lifecycle -/

/-- The method `Daemon::killProcess`: `kill(pid, signal)` only for `pid > 0`. -/
def killProcess (pid signal : Int) : List Effect :=
  if pid > 0 then [.kill pid signal] else []

/-- The conversion of an `int` argument to `unsigned int`. -/
def toUnsigned (v : Int) : Nat := (v % 4294967296).toNat

/-- The child's branch of `forkBooster` (`newPid == 0`). -/
def forkBoosterChild (d : Daemon) (sleepTime : Int) : List ChildEffect :=
  [.restoreUnixSignalHandlers, .prctlPdeathsig,
   .close d.m_boosterLauncherSocket.1,
   .close d.m_sigPipeFd.1, .close d.m_sigPipeFd.2]
  ++ ((d.m_boosterPidToInvokerFd.filter fun e => e.2 ≠ -1).map fun e => .close e.2)
  ++ [.setsid]
  ++ (if !d.m_bootMode && sleepTime ≠ 0 then [.sleep (toUnsigned sleepTime)] else [])
  ++ [.boosterInit d.m_boosterLauncherSocket.2 d.m_bootMode, .runAndExit]

/-- The method `Daemon::forkBooster(sleepTime)`, where `newPid` is what `fork()` returns in
the process that runs it. -/
def forkBooster (d : Daemon) (sleepTime : Int) (newPid : Int) : Outcome :=
  if !d.m_booster then
    { effects := [], result := .exited EXIT_FAILURE }
  else
    let d := { d with m_boosterPid := 0 }
    if newPid = -1 then
      { effects := [], result := .threw "Daemon: Forking while invoking" }
    else if newPid = 0 then
      { effects := [], result := .booster (forkBoosterChild d sleepTime) }
    else
      { effects := [.fork newPid (forkBoosterChild d sleepTime)]
        result := .returned
          { d with m_children := d.m_children ++ [newPid], m_boosterPid := newPid } }

/-- What `recvmsg` delivered: the two integers and the descriptor passed as
ancillary data. -/
structure Datagram where
  invokerPid : Int
  delay : Int
  newFd : Int
deriving DecidableEq, Repr

/-- The method `Daemon::readFromBoosterSocket`; `msg` is `none` when `recvmsg` returned a
negative value, `newPid` is what `fork()` returns. -/
def readFromBoosterSocket (d : Daemon) (msg : Option Datagram) (newPid : Int) : Outcome :=
  match msg with
  | none => { effects := [], result := .exited EXIT_FAILURE }
  | some m =>
    let d :=
      if m.invokerPid ≠ 0 then
        if d.m_boosterPid ≠ 0 then
          { d with
            m_boosterPidToInvokerPid :=
              mapSet d.m_boosterPidToInvokerPid d.m_boosterPid m.invokerPid
            m_boosterPidToInvokerFd :=
              mapSet d.m_boosterPidToInvokerFd d.m_boosterPid m.newFd }
        else d
      else d
    forkBooster d m.delay newPid

/-- The decoded `status` of `waitpid`. -/
inductive WaitStatus
  /-- The case `WIFEXITED(status)`, with `WEXITSTATUS(status)`. -/
  | exited (code : Int)
  /-- The case `WIFSIGNALED(status)`, with `WTERMSIG(status)`. -/
  | signaled (signal : Int)
  /-- Neither of the two. -/
  | other
deriving DecidableEq, Repr

/-- What one call `waitpid(*i, &status, WNOHANG)` did: the value it returned (the
pid of the child that has exited, 0 when the child has not changed state,
-1 on error) and the variable `status` after it (which the call leaves alone
unless it reports a child). -/
structure WaitResult where
  pid : Int
  status : WaitStatus
deriving DecidableEq, Repr

/-- The part of the `if (pid)` branch of `reapZombies` that deals with the invoker of
the pid: the lookup in `m_boosterPidToInvokerPid` and what follows from it. -/
def reapInvoker (d : Daemon) (pid : Int) (status : WaitStatus) : Daemon × List Effect :=
  match mapFind d.m_boosterPidToInvokerPid pid with
  | none => (d, [])
  | some invokerPid =>
    let r : Daemon × List Effect :=
      match status with
      | .exited exitStatus =>
        match mapFind d.m_boosterPidToInvokerFd pid with
        | some fd =>
          ({ d with m_boosterPidToInvokerFd := mapErase d.m_boosterPidToInvokerFd pid },
           [.write fd .invokerMsgExit, .write fd (.int exitStatus), .close fd])
        | none => (d, [])
      | .signaled signal =>
        let r : Daemon × List Effect :=
          match mapFind d.m_boosterPidToInvokerFd pid with
          | some fd =>
            ({ d with m_boosterPidToInvokerFd := mapErase d.m_boosterPidToInvokerFd pid },
             [.close fd])
          | none => (d, [])
        (r.1, r.2 ++ killProcess invokerPid signal)
      | .other => (d, [])
    ({ r.1 with m_boosterPidToInvokerPid := mapErase r.1.m_boosterPidToInvokerPid pid }, r.2)

/-- Sequencing in the supervisor process: when the operation that ended as `o`
returned, the process goes on with `k` on the members it left, and the
calls of both add up; otherwise it has ended as `o` tells. -/
def Outcome.andThen (o : Outcome) (k : Daemon → Option Outcome) : Option Outcome :=
  match o.result with
  | .returned d => (k d).map (Outcome.after o.effects)
  | .exited _ => some o
  | .threw _ => some o
  | .booster _ => some o

/-- The loop of `Daemon::reapZombies` from the iterator position `i` on (`m_children[i]` is
`*i`, and `i` at the length of the vector is `m_children.end()`; after the
`erase` and after the `push_back` of `forkBooster` the iterator stands at the
same index). `waits` gives
the outcomes of the successive `waitpid` calls and `forks` what the successive
`fork()` calls return; the result is `none` when one of the two lists is used
up before the loop ends. -/
def reapLoop : List WaitResult → List Int → Nat → Daemon → Option Outcome
  | [], _, i, d =>
    if i < d.m_children.length then none else some { effects := [], result := .returned d }
  | w :: waits, forks, i, d =>
    if i < d.m_children.length then
      let pid := w.pid
      if pid ≠ 0 then
        let d := { d with m_children := d.m_children.eraseIdx i }
        let r := reapInvoker d pid w.status
        if pid = r.1.m_boosterPid then
          match forks with
          | [] => none
          | newPid :: forks =>
            ((forkBooster r.1 m_boosterSleepTime newPid).andThen
              (reapLoop waits forks i)).map (Outcome.after r.2)
        else
          (reapLoop waits forks i r.1).map (Outcome.after r.2)
      else
        reapLoop waits forks (i + 1) d
    else
      some { effects := [], result := .returned d }

/-- The method `Daemon::reapZombies`. -/
def reapZombies (d : Daemon) (waits : List WaitResult) (forks : List Int) : Option Outcome :=
  reapLoop waits forks 0 d

/-! ## Mode controller -/

/-- The method `Daemon::killBoosters`. -/
def killBoosters (d : Daemon) : List Effect :=
  if d.m_boosterPid ≠ 0 then killProcess d.m_boosterPid SIGTERM else []

/-- The method `Daemon::enterNormalMode`. -/
def enterNormalMode (d : Daemon) : Daemon × List Effect :=
  if d.m_bootMode then
    let d := { d with m_bootMode := false }
    (d, killBoosters d)
  else (d, [])

/-- The method `Daemon::enterBootMode`. -/
def enterBootMode (d : Daemon) : Daemon × List Effect :=
  if !d.m_bootMode then
    let d := { d with m_bootMode := true }
    (d, killBoosters d)
  else (d, [])

/-! ## Command line -/

/-- How `parseArgs` ends. -/
inductive ParseResult
  /-- It returns, the members being `d`. -/
  | returned (d : Daemon)
  /-- The call `usage(name, status)`: the usage text printed for `name`, then
  `exit(status)`. -/
  | usage (name : String) (status : Int)
deriving DecidableEq, Repr

/-- The loop of `parseArgs` over the arguments behind `args[0]`, which is `name`. -/
def parseArgsLoop (name : String) : List String → Daemon → ParseResult
  | [], d => .returned d
  | arg :: rest, d =>
    if arg = "--boot-mode" || arg = "-b" then
      parseArgsLoop name rest { d with m_bootMode := true }
    else if arg = "--daemon" || arg = "-d" then
      parseArgsLoop name rest { d with m_daemon := true }
    else if arg = "--debug" then
      parseArgsLoop name rest { d with m_debugMode := true }
    else if arg = "--help" || arg = "-h" then
      .usage name EXIT_SUCCESS
    else if arg = "--re-exec" then
      parseArgsLoop name rest { d with m_reExec := true }
    else if arg = "--systemd" then
      parseArgsLoop name rest { d with m_notifySystemd := true }
    else if arg.data.any (fun c => c ≠ ' ') then
      .usage name EXIT_FAILURE
    else
      parseArgsLoop name rest d

/-- The method `Daemon::parseArgs`. An argument vector holds at least `args[0]`; for an
empty one the start `args.begin() + 1` of the loop is not defined (`none`). -/
def parseArgs (d : Daemon) (args : List String) : Option ParseResult :=
  match args with
  | [] => none
  | name :: rest => some (parseArgsLoop name rest d)

/-! ## Re-exec -/

/-- The argument vector `argv` that `reExec` hands to `execve`. -/
def reExecArgv : List String :=
  ["/usr/bin/applauncherd.bin", "--re-exec",
   "                                                  "]

/-- The method `Daemon::reExec` for process id `myPid`. `dirOk` tells whether the state
directory exists (or was created) and is a directory, `writeOk` whether
writing the state file raised no stream failure. The function returns only if
`execve` does, and then the process exits. -/
def reExec (myPid : Int) (d : Daemon) (dirOk writeOk : Bool) : Outcome :=
  if !dirOk then { effects := [], result := .exited 1 }
  else if !writeOk then { effects := [], result := .exited 1 }
  else
    { effects :=
        [.writeStateFile (saveState myPid d)] ++ killBoosters d
          ++ [.ignoreSighup, .execve reExecArgv]
      result := .exited 1 }

/-! ## Construction -/

/-- The steps of the constructor `Daemon::Daemon` behind `parseArgs` that depend on the
flags. -/
inductive ConstructStep
  /-- The call `restoreState()`. -/
  | restoreState
  /-- The call `socketpair(AF_UNIX, SOCK_DGRAM, 0, m_boosterLauncherSocket)`. -/
  | socketpair
  /-- The call `pipe(m_sigPipeFd)`. -/
  | pipe
  /-- The call `daemonize()`. -/
  | daemonize
deriving DecidableEq, Repr

/-- How the constructor ends. -/
inductive ConstructResult
  /-- The object is constructed with the members `d`, after the steps `steps`. -/
  | constructed (d : Daemon) (steps : List ConstructStep)
  /-- The process ended with `status`, in `usage` or in `restoreState`. -/
  | exited (status : Int)
  /-- An exception leaves the constructor. -/
  | threw (what : String)
deriving DecidableEq, Repr

/-- The constructor behind a returning `parseArgs` and, where it was called, a
returning `restoreState`: the socket pair and the pipe are created unless
`m_reExec` is set (`newSocket` and `newPipe` are what the two calls deliver,
`none` for a failure), and `daemonize()` is called when `m_daemon` is set. -/
def constructRest (d : Daemon) (steps : List ConstructStep)
    (newSocket newPipe : Option (Int × Int)) : ConstructResult :=
  if !d.m_reExec then
    match newSocket with
    | none => .threw "Daemon: Creating a socket pair for boosters failed!\n"
    | some s =>
      match newPipe with
      | none => .threw "Daemon: Creating a pipe for Unix signals failed!\n"
      | some q =>
        let d := { d with m_boosterLauncherSocket := s, m_sigPipeFd := q }
        if d.m_daemon then .constructed d (steps ++ [.socketpair, .pipe, .daemonize])
        else .constructed d (steps ++ [.socketpair, .pipe])
  else if d.m_daemon then .constructed d (steps ++ [.daemonize])
  else .constructed d steps

/-- The constructor `Daemon::Daemon(argc, argv)` of the process `myPid`, from `parseArgs`
on: the members start as the initializer list leaves them, the arguments
are parsed, `restoreState()` runs on the state file `file` when `m_reExec` is
set, then come the socket pair, the pipe and `daemonize()`. -/
def construct (myPid : Int) (args : List String) (file : List Char)
    (launcherSocket sigPipe : Int × Int) (newSocket newPipe : Option (Int × Int)) :
    Option ConstructResult :=
  match parseArgs (Daemon.init launcherSocket sigPipe) args with
  | none => none
  | some (.usage _ status) => some (.exited status)
  | some (.returned d) =>
    if d.m_reExec then
      match restoreState myPid file d with
      | none => none
      | some (.returned d _) => some (constructRest d [.restoreState] newSocket newPipe)
      | some (.exited status _) => some (.exited status)
      | some (.uncaught _ msg) => some (.threw msg)
    else some (constructRest d [] newSocket newPipe)

/-! ## Record-keyword positions of a state file -/

/-- The arguments that follow a record keyword in the state file, passed over:
one `int` behind `child` and `booster-pid`, two behind the two invoker
records and the two fd-pair records, a name and an `int` behind `socket-hash`,
a `bool` behind the two mode records, nothing behind any other token. The
result is the text behind the arguments, `none` if they cannot be read. -/
def skipRecordArgs (token : String) (ss : List Char) : Option (List Char) :=
  if token = "child" ∨ token = "booster-pid" then
    match readInt ss with
    | none => none
    | some (_, ss) => some ss
  else if token = "booster-invoker-pid" ∨ token = "booster-invoker-fd"
      ∨ token = "launcher-socket" ∨ token = "sigpipe-fd" then
    match readInt ss with
    | none => none
    | some (_, ss) =>
      match readInt ss with
      | none => none
      | some (_, ss) => some ss
  else if token = "socket-hash" then
    match readToken ss with
    | none => none
    | some (_, ss) =>
      match readInt ss with
      | none => none
      | some (_, ss) => some ss
  else if token = "debug-mode" ∨ token = "boot-mode" then
    match readBool ss with
    | none => none
    | some (_, ss) => some ss
  else some ss

/-- Whether the text presents the token `end` at a record-keyword position: at
its first token, or at the first token behind a record (a keyword with its
arguments). The first argument bounds the number of records looked at. -/
def scanForEnd : Nat → List Char → Bool
  | 0, _ => false
  | fuel + 1, ss =>
    match readToken ss with
    | none => false
    | some (token, ss) =>
      if token = "end" then true
      else
        match skipRecordArgs token ss with
        | none => false
        | some ss => scanForEnd fuel ss

/-- Whether the text presents the token `end` at a record-keyword position (every
record takes at least one character, which bounds their number). -/
def presentsEnd (ss : List Char) : Bool := scanForEnd (ss.length + 1) ss

/-! ## Well-formed states -/

/-- A name that the stream writes and reads back as one token: not empty and
free of white space. -/
def TokenName (name : String) : Prop :=
  name.data ≠ [] ∧ ∀ c ∈ name.data, isSpace c = false

instance (name : String) : Decidable (TokenName name) := by
  unfold TokenName; exact inferInstance

/-- What the types of the members say about a supervisor state: every `pid_t`
and `int` is a 32-bit value, the two `std::map`s hold their keys in ascending
order, and the socket manager has one entry per name, the names being
tokens. -/
def Daemon.WellFormed (d : Daemon) : Prop :=
  (∀ c ∈ d.m_children, IntRange c)
  ∧ IntRange d.m_boosterPid
  ∧ (∀ e ∈ d.m_boosterPidToInvokerPid, IntRange e.1 ∧ IntRange e.2)
  ∧ MapOrdered d.m_boosterPidToInvokerPid
  ∧ (∀ e ∈ d.m_boosterPidToInvokerFd, IntRange e.1 ∧ IntRange e.2)
  ∧ MapOrdered d.m_boosterPidToInvokerFd
  ∧ (IntRange d.m_boosterLauncherSocket.1 ∧ IntRange d.m_boosterLauncherSocket.2)
  ∧ (IntRange d.m_sigPipeFd.1 ∧ IntRange d.m_sigPipeFd.2)
  ∧ (∀ e ∈ d.m_socketManager.getState, TokenName e.1 ∧ IntRange e.2)
  ∧ (d.m_socketManager.getState.map Prod.fst).Nodup

instance (d : Daemon) : Decidable d.WellFormed := by
  unfold Daemon.WellFormed; exact inferInstance

/-- The containers of a supervisor that has just been constructed: no child, no
invoker mapping, no socket recorded. -/
def Daemon.Fresh (d : Daemon) : Prop :=
  d.m_children = [] ∧ d.m_boosterPidToInvokerPid = [] ∧ d.m_boosterPidToInvokerFd = []
  ∧ d.m_socketManager.getState = []

instance (d : Daemon) : Decidable d.Fresh := by
  unfold Daemon.Fresh; exact inferInstance

/-! ## Auxiliary definitions for the statements -/

/-- The records that `reExec` writes behind the `my-pid` line, with the appends
nested to the right. -/
def saveStateBody (d : Daemon) : List Char :=
  "debug-mode ".toList
  ++ (showBool d.m_debugMode
  ++ (endl
  ++ ((d.m_children.map fun c => "child ".toList ++ (showInt c ++ endl)).flatten
  ++ ((d.m_boosterPidToInvokerPid.map fun e =>
      "booster-invoker-pid ".toList
        ++ (showInt e.1 ++ (" ".toList ++ (showInt e.2 ++ endl)))).flatten
  ++ ((d.m_boosterPidToInvokerFd.map fun e =>
      "booster-invoker-fd ".toList
        ++ (showInt e.1 ++ (" ".toList ++ (showInt e.2 ++ endl)))).flatten
  ++ ("booster-pid ".toList
  ++ (showInt d.m_boosterPid
  ++ (endl
  ++ ("launcher-socket ".toList
  ++ (showInt d.m_boosterLauncherSocket.1
  ++ (" ".toList
  ++ (showInt d.m_boosterLauncherSocket.2
  ++ (endl
  ++ ("sigpipe-fd ".toList
  ++ (showInt d.m_sigPipeFd.1
  ++ (" ".toList
  ++ (showInt d.m_sigPipeFd.2
  ++ (endl
  ++ ("boot-mode ".toList
  ++ (showBool d.m_bootMode
  ++ (endl
  ++ ((d.m_socketManager.getState.map fun e =>
      "socket-hash ".toList
        ++ (e.1.data ++ (" ".toList ++ (showInt e.2 ++ endl)))).flatten
  ++ ("end".toList
  ++ (endl
  ++ []))))))))))))))))))))))))

/-- The state of scenario 4: children 10 and 11, booster 11, invoker mappings
`11 → 2000` and `11 → fd 7`, one listening socket. -/
def scenarioState : Daemon :=
  { m_daemon := false
    m_debugMode := false
    m_bootMode := false
    m_boosterPid := 11
    m_children := [10, 11]
    m_boosterPidToInvokerPid := [(11, 2000)]
    m_boosterPidToInvokerFd := [(11, 7)]
    m_boosterLauncherSocket := (3, 4)
    m_sigPipeFd := (5, 6)
    m_socketManager := { m_socketHash := [("generic", 8)] }
    m_reExec := false
    m_notifySystemd := false
    m_booster := true }

/-- The property that the loop of `reapZombies` keeps once a pid `p` has lost its
entries: `p` is a key of neither map, and, under the condition `U` (that `f`
was the descriptor of `p` alone), no entry of the fd map holds `f`. -/
def Dropped (U : Prop) (p f : Int) (d : Daemon) : Prop :=
  (p ∉ mapKeys d.m_boosterPidToInvokerPid ∧ p ∉ mapKeys d.m_boosterPidToInvokerFd)
  ∧ (U → ∀ e ∈ d.m_boosterPidToInvokerFd, e.2 ≠ f)

/-- The state of scenario 1 after the launch: the booster 11 has accepted the
request of the invoker 1000, whose socket is the descriptor 9, and the
replacement booster 12 is running. -/
def launchedState : Daemon :=
  { m_daemon := false
    m_debugMode := false
    m_bootMode := false
    m_boosterPid := 12
    m_children := [11, 12]
    m_boosterPidToInvokerPid := [(11, 1000)]
    m_boosterPidToInvokerFd := [(11, 9)]
    m_boosterLauncherSocket := (3, 4)
    m_sigPipeFd := (5, 6)
    m_socketManager := { m_socketHash := [("generic", 8)] }
    m_reExec := false
    m_notifySystemd := false
    m_booster := true }

/-- The members that no record of the state file touches are the same in `d` and
`d'`. -/
def SameFlags (d d' : Daemon) : Prop :=
  d'.m_daemon = d.m_daemon ∧ d'.m_reExec = d.m_reExec
  ∧ d'.m_notifySystemd = d.m_notifySystemd ∧ d'.m_booster = d.m_booster

/-- The tokens that the loop of `restoreState` compares with. -/
def isKeyword (token : String) : Bool :=
  token = "end" || token = "child" || token = "booster-invoker-pid"
    || token = "booster-invoker-fd" || token = "booster-pid" || token = "launcher-socket"
    || token = "sigpipe-fd" || token = "socket-hash" || token = "debug-mode"
    || token = "boot-mode"

/-- The two invoker maps have the same key set. -/
def SameKeys (d : Daemon) : Prop :=
  ∀ k, k ∈ mapKeys d.m_boosterPidToInvokerPid ↔ k ∈ mapKeys d.m_boosterPidToInvokerFd

/-- Every key of the invoker pid map is one of the children. -/
def KeysInChildren (d : Daemon) : Prop :=
  ∀ k ∈ mapKeys d.m_boosterPidToInvokerPid, k ∈ d.m_children

instance (d : Daemon) : Decidable (KeysInChildren d) := by
  unfold KeysInChildren; exact inferInstance

/-- The current booster pid is 0 or the pid forked last (the children stand in
the order of their `push_back`), which is then one of the children. -/
def BoosterCurrent (d : Daemon) : Prop :=
  d.m_boosterPid = 0 ∨ d.m_children.getLast? = some d.m_boosterPid

instance (d : Daemon) : Decidable (BoosterCurrent d) := by
  unfold BoosterCurrent; exact inferInstance

/-- In the run of the loop of `reapZombies` on `waits` and `forks` from the position `i`,
every call of `waitpid` returned 0 or the pid of the child it was called
for: none failed. The recursion follows the loop from pass to pass. -/
def WaitsReport : List WaitResult → List Int → Nat → Daemon → Prop
  | [], _, _, _ => True
  | w :: waits, forks, i, d =>
    if i < d.m_children.length then
      (w.pid = 0 ∨ d.m_children[i]? = some w.pid)
      ∧ (if w.pid ≠ 0 then
          let r := reapInvoker { d with m_children := d.m_children.eraseIdx i } w.pid w.status
          if w.pid = r.1.m_boosterPid then
            match forks with
            | [] => True
            | newPid :: forks =>
              match (forkBooster r.1 m_boosterSleepTime newPid).result with
              | .returned d2 => WaitsReport waits forks i d2
              | .exited _ => True
              | .threw _ => True
              | .booster _ => True
          else WaitsReport waits forks i r.1
        else WaitsReport waits forks (i + 1) d)
    else True

/-- The invariants of the booster lifecycle taken together: the pid map is a map (its
keys ascend), its keys are children, and the current booster pid is 0 or the
child forked last. -/
def LifecycleInv (d : Daemon) : Prop :=
  MapOrdered d.m_boosterPidToInvokerPid ∧ KeysInChildren d ∧ BoosterCurrent d

/-- Modelled from the spec: a record of the state file between the `my-pid` header and
the `end` trailer, after the record grammar of §6. -/
inductive Record
  /-- The record `debug-mode <0|1>`. -/
  | debugMode (b : Bool)
  /-- The record `child <pid>`. -/
  | child (pid : Int)
  /-- The record `booster-invoker-pid <booster_pid> <invoker_pid>`. -/
  | boosterInvokerPid (boosterPid invokerPid : Int)
  /-- The record `booster-invoker-fd <booster_pid> <fd>`. -/
  | boosterInvokerFd (boosterPid fd : Int)
  /-- The record `booster-pid <pid>`. -/
  | boosterPid (pid : Int)
  /-- The record `launcher-socket <fd_read> <fd_write>`. -/
  | launcherSocket (fdRead fdWrite : Int)
  /-- The record `sigpipe-fd <fd_read> <fd_write>`. -/
  | sigpipeFd (fdRead fdWrite : Int)
  /-- The record `boot-mode <0|1>`. -/
  | bootMode (b : Bool)
  /-- The record `socket-hash <booster_type> <fd>`. -/
  | socketHash (boosterType : String) (fd : Int)
deriving DecidableEq, Repr

/-- Modelled from the spec: the line of a record, "whitespace-separated tokens, one
record per line, lines terminated by `\n`" (the text that `reExec` writes for it). -/
def Record.line : Record → List Char
  | .debugMode b => "debug-mode ".toList ++ (showBool b ++ endl)
  | .child pid => "child ".toList ++ (showInt pid ++ endl)
  | .boosterInvokerPid a b =>
    "booster-invoker-pid ".toList ++ (showInt a ++ (" ".toList ++ (showInt b ++ endl)))
  | .boosterInvokerFd a b =>
    "booster-invoker-fd ".toList ++ (showInt a ++ (" ".toList ++ (showInt b ++ endl)))
  | .boosterPid pid => "booster-pid ".toList ++ (showInt pid ++ endl)
  | .launcherSocket a b =>
    "launcher-socket ".toList ++ (showInt a ++ (" ".toList ++ (showInt b ++ endl)))
  | .sigpipeFd a b =>
    "sigpipe-fd ".toList ++ (showInt a ++ (" ".toList ++ (showInt b ++ endl)))
  | .bootMode b => "boot-mode ".toList ++ (showBool b ++ endl)
  | .socketHash name fd =>
    "socket-hash ".toList ++ (name.data ++ (" ".toList ++ (showInt fd ++ endl)))

/-- Modelled from the spec: a record conforms to the grammar when its pids and
descriptors are 32-bit values and its booster type is one token. -/
def Record.Conforms : Record → Prop
  | .debugMode _ => True
  | .child pid => IntRange pid
  | .boosterInvokerPid a b => IntRange a ∧ IntRange b
  | .boosterInvokerFd a b => IntRange a ∧ IntRange b
  | .boosterPid pid => IntRange pid
  | .launcherSocket a b => IntRange a ∧ IntRange b
  | .sigpipeFd a b => IntRange a ∧ IntRange b
  | .bootMode _ => True
  | .socketHash name fd => TokenName name ∧ IntRange fd

instance (r : Record) : Decidable r.Conforms := by
  cases r <;> unfold Record.Conforms <;> exact inferInstance

/-- Modelled from the spec: the records behind the header, one line each, and the
`end` trailer. -/
def recordLines : List Record → List Char
  | [] => "end".toList ++ endl
  | r :: rs => r.line ++ recordLines rs

/-- Modelled from the spec: the state file with the header `my-pid <pid>`, the
records `rs` in this order, and the `end` trailer. -/
def stateFile (myPid : Int) (rs : List Record) : List Char :=
  "my-pid ".toList ++ (showInt myPid ++ (endl ++ recordLines rs))

/-- What the branch of the loop of `restoreState` for the keyword of the record does to
the members. -/
def Record.apply (d : Daemon) : Record → Daemon
  | .debugMode b => { d with m_debugMode := b }
  | .child pid => { d with m_children := d.m_children ++ [pid] }
  | .boosterInvokerPid a b =>
    { d with m_boosterPidToInvokerPid := mapSet d.m_boosterPidToInvokerPid a b }
  | .boosterInvokerFd a b =>
    { d with m_boosterPidToInvokerFd := mapSet d.m_boosterPidToInvokerFd a b }
  | .boosterPid pid => { d with m_boosterPid := pid }
  | .launcherSocket a b => { d with m_boosterLauncherSocket := (a, b) }
  | .sigpipeFd a b => { d with m_sigPipeFd := (a, b) }
  | .bootMode b => { d with m_bootMode := b }
  | .socketHash name fd => { d with m_socketManager := d.m_socketManager.addMapping name fd }

/-- Two records do not give different values to the same thing: to the same flag,
pid or descriptor pair, to the same booster pid in the same map, or to the same
booster type. -/
def Record.Agree : Record → Record → Prop
  | .debugMode a, .debugMode b => a = b
  | .boosterInvokerPid k v, .boosterInvokerPid k' v' => k = k' → v = v'
  | .boosterInvokerFd k v, .boosterInvokerFd k' v' => k = k' → v = v'
  | .boosterPid a, .boosterPid b => a = b
  | .launcherSocket a b, .launcherSocket a' b' => a = a' ∧ b = b'
  | .sigpipeFd a b, .sigpipeFd a' b' => a = a' ∧ b = b'
  | .bootMode a, .bootMode b => a = b
  | .socketHash n f, .socketHash n' f' => n = n' → f = f'
  | _, _ => True

instance (r r' : Record) : Decidable (r.Agree r') := by
  cases r <;> cases r' <;> unfold Record.Agree <;> exact inferInstance

/-- Two supervisor states with the same content: the scalar members are equal, the
children are equal up to order, and each of the three mappings gives the same
value for every key. -/
def SameContent (d d' : Daemon) : Prop :=
  d.m_daemon = d'.m_daemon
  ∧ d.m_debugMode = d'.m_debugMode
  ∧ d.m_bootMode = d'.m_bootMode
  ∧ d.m_boosterPid = d'.m_boosterPid
  ∧ d.m_children.Perm d'.m_children
  ∧ (∀ k, mapFind d.m_boosterPidToInvokerPid k = mapFind d'.m_boosterPidToInvokerPid k)
  ∧ (∀ k, mapFind d.m_boosterPidToInvokerFd k = mapFind d'.m_boosterPidToInvokerFd k)
  ∧ d.m_boosterLauncherSocket = d'.m_boosterLauncherSocket
  ∧ d.m_sigPipeFd = d'.m_sigPipeFd
  ∧ (∀ name, d.m_socketManager.findSocket name = d'.m_socketManager.findSocket name)
  ∧ d.m_reExec = d'.m_reExec
  ∧ d.m_notifySystemd = d'.m_notifySystemd
  ∧ d.m_booster = d'.m_booster

/-- Modelled from the spec: the record that the keyword `token` opens, read from the text
`ss` behind the keyword after the record grammar (pids and descriptors as
`int`, the flags as `0` or `1`, the booster type as one token), with the unread
rest; `none` when `token` is no record keyword or the arguments are not there. -/
def readRecord (token : String) (ss : List Char) : Option (Record × List Char) :=
  if token = "child" then
    match readInt ss with
    | none => none
    | some (a, ss) => some (.child a, ss)
  else if token = "booster-invoker-pid" then
    match readInt ss with
    | none => none
    | some (a, ss) =>
      match readInt ss with
      | none => none
      | some (b, ss) => some (.boosterInvokerPid a b, ss)
  else if token = "booster-invoker-fd" then
    match readInt ss with
    | none => none
    | some (a, ss) =>
      match readInt ss with
      | none => none
      | some (b, ss) => some (.boosterInvokerFd a b, ss)
  else if token = "booster-pid" then
    match readInt ss with
    | none => none
    | some (a, ss) => some (.boosterPid a, ss)
  else if token = "launcher-socket" then
    match readInt ss with
    | none => none
    | some (a, ss) =>
      match readInt ss with
      | none => none
      | some (b, ss) => some (.launcherSocket a b, ss)
  else if token = "sigpipe-fd" then
    match readInt ss with
    | none => none
    | some (a, ss) =>
      match readInt ss with
      | none => none
      | some (b, ss) => some (.sigpipeFd a b, ss)
  else if token = "socket-hash" then
    match readToken ss with
    | none => none
    | some (a, ss) =>
      match readInt ss with
      | none => none
      | some (b, ss) => some (.socketHash a b, ss)
  else if token = "debug-mode" then
    match readBool ss with
    | none => none
    | some (a, ss) => some (.debugMode a, ss)
  else if token = "boot-mode" then
    match readBool ss with
    | none => none
    | some (a, ss) => some (.bootMode a, ss)
  else none

/-- Modelled from the spec: the records of a text in the record grammar, up to the
`end` trailer, in the order of the text; `none` when the text is not a sequence
of records closed by `end`. Tokens are taken as the stream takes them, so any
white space may separate them. The first argument bounds the number of
records. -/
def readRecords : Nat → List Char → Option (List Record)
  | 0, _ => none
  | fuel + 1, ss =>
    match readToken ss with
    | none => none
    | some (token, ss) =>
      if token = "end" then some []
      else
        match readRecord token ss with
        | none => none
        | some (r, ss) =>
          match readRecords fuel ss with
          | none => none
          | some rs => some (r :: rs)

/-- Modelled from the spec: the records between the header and the trailer of a state
file that conforms to the record grammar and has the header `my-pid <pid>` with
the pid `myPid`; `none` for any other text. -/
def recordsOf (myPid : Int) (file : List Char) : Option (List Record) :=
  match readToken file with
  | none => none
  | some (token, ss) =>
    if token = "my-pid" then
      match readInt ss with
      | none => none
      | some (pid, ss) => if pid = myPid then readRecords (ss.length + 1) ss else none
    else none

/-- The value that a record gives stands in the members: the flag, pid or descriptor
pair is the one of the record, the map gives the record's value for its key,
the child is among the children. -/
def Record.Holds (d : Daemon) : Record → Prop
  | .debugMode b => d.m_debugMode = b
  | .child pid => pid ∈ d.m_children
  | .boosterInvokerPid k v => mapFind d.m_boosterPidToInvokerPid k = some v
  | .boosterInvokerFd k v => mapFind d.m_boosterPidToInvokerFd k = some v
  | .boosterPid pid => d.m_boosterPid = pid
  | .launcherSocket a b => d.m_boosterLauncherSocket = (a, b)
  | .sigpipeFd a b => d.m_sigPipeFd = (a, b)
  | .bootMode b => d.m_bootMode = b
  | .socketHash name fd => d.m_socketManager.findSocket name = some fd

instance (d : Daemon) (r : Record) : Decidable (Record.Holds d r) := by
  cases r <;> unfold Record.Holds <;> exact inferInstance

/-- Whether a call of the supervisor acts on the descriptor `fd`: a `write` to
it or a `close` of it. -/
def Effect.onFd (fd : Int) : Effect → Bool
  | .write f _ => f = fd
  | .close f => f = fd
  | _ => false

/-- The seconds the forked child spends in `sleep`. -/
def sleptSeconds : List ChildEffect → Nat
  | [] => 0
  | .sleep n :: es => n + sleptSeconds es
  | _ :: es => sleptSeconds es

/-- The options of the command line that set a flag. -/
def isOption (arg : String) : Bool :=
  arg = "-b" || arg = "--boot-mode" || arg = "-d" || arg = "--daemon" || arg = "--debug"
    || arg = "--systemd" || arg = "--re-exec"

/-- The help options. -/
def isHelp (arg : String) : Bool := arg = "-h" || arg = "--help"

/-- An argument made of blanks only (the empty one included). -/
def isBlank (arg : String) : Bool := arg.data.all fun c => c = ' '

/-- An argument at which the command line parse ends the process: a help
option, or one that is neither an option nor blank. -/
def stopsParse (arg : String) : Bool := isHelp arg || !(isOption arg || isBlank arg)

/-- The members after all of `args` were accepted: each flag is set when one of
its options occurs, and nothing else changes. -/
def setFlags (args : List String) (d : Daemon) : Daemon :=
  { d with
    m_bootMode := d.m_bootMode || args.any fun a => a = "-b" || a = "--boot-mode"
    m_daemon := d.m_daemon || args.any fun a => a = "-d" || a = "--daemon"
    m_debugMode := d.m_debugMode || args.any fun a => a = "--debug"
    m_reExec := d.m_reExec || args.any fun a => a = "--re-exec"
    m_notifySystemd := d.m_notifySystemd || args.any fun a => a = "--systemd" }

/-- The command line contract, as amended: the first argument behind `args[0]`
that is a help option or neither an option nor blank ends the process, with
status 0 for help and 1 otherwise; without such an argument the flags of the
options present are set. -/
def parseArgsSpec (d : Daemon) (name : String) (rest : List String) : ParseResult :=
  match rest.find? stopsParse with
  | some arg => .usage name (if isHelp arg then EXIT_SUCCESS else EXIT_FAILURE)
  | none => .returned (setFlags rest d)

/-! ## Lemmas on the stream operations -/

theorem isDigit_digitChar {k : Nat} (h : k < 10) : isDigit (digitChar k) = true := by
  interval_cases k <;> rfl

theorem digitVal_digitChar {k : Nat} (h : k < 10) : digitVal (digitChar k) = k := by
  interval_cases k <;> rfl

theorem isSpace_of_isDigit {c : Char} (h : isDigit c = true) : isSpace c = false := by
  cases hs : isSpace c with
  | false => rfl
  | true =>
    simp only [isSpace, Bool.or_eq_true, decide_eq_true_eq] at hs
    rcases hs with ((((rfl | rfl) | rfl) | rfl) | rfl) | rfl <;> exact absurd h (by decide)

theorem ne_minus_of_isDigit {c : Char} (h : isDigit c = true) : c ≠ '-' := by
  rintro rfl; exact absurd h (by decide)

theorem ne_plus_of_isDigit {c : Char} (h : isDigit c = true) : c ≠ '+' := by
  rintro rfl; exact absurd h (by decide)

theorem natOfDigits_append (ds : List Char) (c : Char) :
    natOfDigits (ds ++ [c]) = 10 * natOfDigits ds + digitVal c := by
  simp [natOfDigits, List.foldl_append]

/-- The digits written for `n`: a non-empty run of digits whose value is `n`. -/
theorem showNatAux_spec : ∀ (fuel n : Nat) (acc : List Char), n < fuel →
    ∃ ds, showNatAux fuel n acc = ds ++ acc ∧ ds ≠ [] ∧ (∀ c ∈ ds, isDigit c = true)
      ∧ natOfDigits ds = n := by
  intro fuel
  induction fuel with
  | zero => intro n acc h; omega
  | succ fuel ih =>
    intro n acc h
    have hmod : n % 10 < 10 := Nat.mod_lt _ (by norm_num)
    by_cases h0 : n / 10 = 0
    · refine ⟨[digitChar (n % 10)], ?_, by simp, ?_, ?_⟩
      · simp [showNatAux, h0]
      · intro c hc
        simp only [List.mem_singleton] at hc
        subst hc
        exact isDigit_digitChar hmod
      · have : natOfDigits [digitChar (n % 10)] = digitVal (digitChar (n % 10)) := by
          simp [natOfDigits]
        rw [this, digitVal_digitChar hmod]
        omega
    · have hlt : n / 10 < fuel := by omega
      obtain ⟨ds, hds, _, hdig, hval⟩ := ih (n / 10) (digitChar (n % 10) :: acc) hlt
      refine ⟨ds ++ [digitChar (n % 10)], ?_, by simp, ?_, ?_⟩
      · simp [showNatAux, h0, hds]
      · intro c hc
        rcases List.mem_append.mp hc with hc | hc
        · exact hdig c hc
        · simp only [List.mem_singleton] at hc
          subst hc
          exact isDigit_digitChar hmod
      · rw [natOfDigits_append, hval, digitVal_digitChar hmod]
        omega

theorem showNat_spec (n : Nat) :
    showNat n ≠ [] ∧ (∀ c ∈ showNat n, isDigit c = true) ∧ natOfDigits (showNat n) = n := by
  obtain ⟨ds, hds, hne, hdig, hval⟩ := showNatAux_spec (n + 1) n [] (Nat.lt_succ_self n)
  have : showNat n = ds := by simp [showNat, hds]
  rw [this]
  exact ⟨hne, hdig, hval⟩

theorem takeWhile_append_stop (p : Char → Bool) (ds : List Char) (c : Char) (r : List Char)
    (h : ∀ x ∈ ds, p x = true) (hc : p c = false) :
    (ds ++ c :: r).takeWhile p = ds ∧ (ds ++ c :: r).dropWhile p = c :: r := by
  induction ds with
  | nil => simp [List.takeWhile, List.dropWhile, hc]
  | cons x xs ih =>
    have hx : p x = true := h x (List.mem_cons_self _ _)
    have ih := ih (fun y hy => h y (List.mem_cons_of_mem _ hy))
    simp [List.takeWhile, List.dropWhile, hx, ih.1, ih.2]

theorem skipWs_of_head {c : Char} (r : List Char) (h : isSpace c = false) :
    skipWs (c :: r) = c :: r := by
  simp [skipWs, List.dropWhile, h]

theorem skipWs_space {w : Char} (s : List Char) (h : isSpace w = true) :
    skipWs (w :: s) = skipWs s := by
  simp [skipWs, List.dropWhile, h]

theorem readToken_space {w : Char} (s : List Char) (h : isSpace w = true) :
    readToken (w :: s) = readToken s := by
  simp [readToken, skipWs_space s h]

theorem readNumber_space {w : Char} (s : List Char) (h : isSpace w = true) :
    readNumber (w :: s) = readNumber s := by
  simp [readNumber, skipWs_space s h]

theorem readInt_space {w : Char} (s : List Char) (h : isSpace w = true) :
    readInt (w :: s) = readInt s := by
  simp [readInt, readNumber_space s h]

theorem readBool_space {w : Char} (s : List Char) (h : isSpace w = true) :
    readBool (w :: s) = readBool s := by
  simp [readBool, readNumber_space s h]

/-- A word followed by white space is read back as one token. -/
theorem readToken_word (tok : List Char) (c : Char) (r : List Char) (hne : tok ≠ [])
    (h : ∀ x ∈ tok, isSpace x = false) (hc : isSpace c = true) :
    readToken (tok ++ c :: r) = some (String.mk tok, c :: r) := by
  obtain ⟨t, ts, rfl⟩ := List.exists_cons_of_ne_nil hne
  have ht : isSpace t = false := h t (List.mem_cons_self _ _)
  have hs : skipWs (t :: ts ++ c :: r) = t :: (ts ++ c :: r) := skipWs_of_head _ ht
  have htw := takeWhile_append_stop (fun x => !isSpace x) (t :: ts) c r
    (fun x hx => by simp [h x hx]) (by simp [hc])
  simp only [readToken, hs]
  rw [show t :: (ts ++ c :: r) = (t :: ts) ++ c :: r from rfl, htw.1, htw.2]

theorem readDigits_run (neg : Bool) (ds : List Char) (c : Char) (r : List Char)
    (hne : ds ≠ []) (h : ∀ x ∈ ds, isDigit x = true) (hc : isDigit c = false) :
    readDigits neg (ds ++ c :: r)
      = some (if neg then -(natOfDigits ds : Int) else (natOfDigits ds : Int), c :: r) := by
  have htw := takeWhile_append_stop isDigit ds c r h hc
  simp [readDigits, htw.1, htw.2, hne]

/-- A written number followed by a character that is no digit is read back. -/
theorem readNumber_showInt (v : Int) (c : Char) (r : List Char) (hc : isDigit c = false) :
    readNumber (showInt v ++ c :: r) = some (v, c :: r) := by
  by_cases hv : v < 0
  · obtain ⟨hne, hdig, hval⟩ := showNat_spec (-v).toNat
    have hs : skipWs ('-' :: (showNat (-v).toNat ++ c :: r))
        = '-' :: (showNat (-v).toNat ++ c :: r) := skipWs_of_head _ (by decide)
    have e : showInt v ++ c :: r = '-' :: (showNat (-v).toNat ++ c :: r) := by
      simp [showInt, hv]
    rw [e]
    simp only [readNumber, hs, if_true]
    rw [readDigits_run true _ c r hne hdig hc, hval]
    simp only [if_true, Option.some.injEq, Prod.mk.injEq, and_true]
    omega
  · obtain ⟨hne, hdig, hval⟩ := showNat_spec v.toNat
    obtain ⟨t, ts, hts⟩ := List.exists_cons_of_ne_nil hne
    have ht : isDigit t = true := hdig t (by rw [hts]; exact List.mem_cons_self _ _)
    have e : showInt v ++ c :: r = t :: (ts ++ c :: r) := by
      simp [showInt, hv, hts]
    have hs : skipWs (t :: (ts ++ c :: r)) = t :: (ts ++ c :: r) :=
      skipWs_of_head _ (isSpace_of_isDigit ht)
    rw [e]
    simp only [readNumber, hs, if_neg (ne_minus_of_isDigit ht), if_neg (ne_plus_of_isDigit ht)]
    rw [show t :: (ts ++ c :: r) = (t :: ts) ++ c :: r from rfl, ← hts,
      readDigits_run false _ c r hne hdig hc, hval]
    simp only [Bool.false_eq_true, if_false, Option.some.injEq, Prod.mk.injEq, and_true]
    omega

theorem readInt_showInt (v : Int) (c : Char) (r : List Char) (hv : IntRange v)
    (hc : isDigit c = false) : readInt (showInt v ++ c :: r) = some (v, c :: r) := by
  have h := hv
  unfold IntRange at h
  simp [readInt, readNumber_showInt v c r hc, h]

theorem readBool_showBool (b : Bool) (c : Char) (r : List Char) (hc : isDigit c = false) :
    readBool (showBool b ++ c :: r) = some (b, c :: r) := by
  have h0 : readNumber (showInt 0 ++ c :: r) = some (0, c :: r) := readNumber_showInt 0 c r hc
  have h1 : readNumber (showInt 1 ++ c :: r) = some (1, c :: r) := readNumber_showInt 1 c r hc
  cases b
  · have e : showBool false ++ c :: r = showInt 0 ++ c :: r := rfl
    rw [e]; simp [readBool, h0]
  · have e : showBool true ++ c :: r = showInt 1 ++ c :: r := rfl
    rw [e]; simp [readBool, h1]

/-! ## Lemmas on the loop of `restoreState` -/

theorem restoreStep_space {w : Char} (ss : List Char) (d : Daemon) (h : isSpace w = true) :
    restoreStep (w :: ss) d = restoreStep ss d := by
  simp [restoreStep, readToken_space ss h]

theorem restoreLoop_space {w : Char} (fuel : Nat) (ss : List Char) (d : Daemon)
    (h : isSpace w = true) : restoreLoop fuel (w :: ss) d = restoreLoop fuel ss d := by
  cases fuel with
  | zero => rfl
  | succ fuel => simp [restoreLoop, restoreStep_space ss d h]

theorem restoreStep_end {ss s1 : List Char} (d : Daemon)
    (h : readToken ss = some ("end", s1)) :
    restoreStep ss d = .leave (.returned d (!d.m_debugMode)) := by
  simp [restoreStep, extract, h]

theorem restoreStep_child {ss s1 s2 : List Char} {v : Int} (d : Daemon)
    (h : readToken ss = some ("child", s1)) (h1 : readInt s1 = some (v, s2)) :
    restoreStep ss d = .next s2 { d with m_children := d.m_children ++ [v] } := by
  simp [restoreStep, extract, h, h1]

theorem restoreStep_invokerPid {ss s1 s2 s3 : List Char} {a b : Int} (d : Daemon)
    (h : readToken ss = some ("booster-invoker-pid", s1))
    (h1 : readInt s1 = some (a, s2)) (h2 : readInt s2 = some (b, s3)) :
    restoreStep ss d = .next s3
      { d with m_boosterPidToInvokerPid := mapSet d.m_boosterPidToInvokerPid a b } := by
  simp [restoreStep, extract, h, h1, h2]

theorem restoreStep_invokerFd {ss s1 s2 s3 : List Char} {a b : Int} (d : Daemon)
    (h : readToken ss = some ("booster-invoker-fd", s1))
    (h1 : readInt s1 = some (a, s2)) (h2 : readInt s2 = some (b, s3)) :
    restoreStep ss d = .next s3
      { d with m_boosterPidToInvokerFd := mapSet d.m_boosterPidToInvokerFd a b } := by
  simp [restoreStep, extract, h, h1, h2]

theorem restoreStep_boosterPid {ss s1 s2 : List Char} {v : Int} (d : Daemon)
    (h : readToken ss = some ("booster-pid", s1)) (h1 : readInt s1 = some (v, s2)) :
    restoreStep ss d = .next s2 { d with m_boosterPid := v } := by
  simp [restoreStep, extract, h, h1]

theorem restoreStep_launcherSocket {ss s1 s2 s3 : List Char} {a b : Int} (d : Daemon)
    (h : readToken ss = some ("launcher-socket", s1))
    (h1 : readInt s1 = some (a, s2)) (h2 : readInt s2 = some (b, s3)) :
    restoreStep ss d = .next s3 { d with m_boosterLauncherSocket := (a, b) } := by
  simp [restoreStep, extract, h, h1, h2]

theorem restoreStep_sigpipe {ss s1 s2 s3 : List Char} {a b : Int} (d : Daemon)
    (h : readToken ss = some ("sigpipe-fd", s1))
    (h1 : readInt s1 = some (a, s2)) (h2 : readInt s2 = some (b, s3)) :
    restoreStep ss d = .next s3 { d with m_sigPipeFd := (a, b) } := by
  simp [restoreStep, extract, h, h1, h2]

theorem restoreStep_socketHash {ss s1 s2 s3 : List Char} {name : String} {fd : Int}
    (d : Daemon) (h : readToken ss = some ("socket-hash", s1))
    (h1 : readToken s1 = some (name, s2)) (h2 : readInt s2 = some (fd, s3)) :
    restoreStep ss d = .next s3
      { d with m_socketManager := d.m_socketManager.addMapping name fd } := by
  simp [restoreStep, extract, h, h1, h2]

theorem restoreStep_debugMode {ss s1 s2 : List Char} {b : Bool} (d : Daemon)
    (h : readToken ss = some ("debug-mode", s1)) (h1 : readBool s1 = some (b, s2)) :
    restoreStep ss d = .next s2 { d with m_debugMode := b } := by
  simp [restoreStep, extract, h, h1]

theorem restoreStep_bootMode {ss s1 s2 : List Char} {b : Bool} (d : Daemon)
    (h : readToken ss = some ("boot-mode", s1)) (h1 : readBool s1 = some (b, s2)) :
    restoreStep ss d = .next s2 { d with m_bootMode := b } := by
  simp [restoreStep, extract, h, h1]

/-- Reading an `int` that was written after a blank, up to the blank or newline
behind it. -/
theorem readInt_arg (v : Int) (c : Char) (r : List Char) (hv : IntRange v)
    (hc : isDigit c = false) : readInt (' ' :: (showInt v ++ c :: r)) = some (v, c :: r) := by
  rw [readInt_space _ (by decide)]
  exact readInt_showInt v c r hv hc

theorem readBool_arg (b : Bool) (c : Char) (r : List Char) (hc : isDigit c = false) :
    readBool (' ' :: (showBool b ++ c :: r)) = some (b, c :: r) := by
  rw [readBool_space _ (by decide)]
  exact readBool_showBool b c r hc

theorem readToken_arg (name : String) (c : Char) (r : List Char) (hn : TokenName name)
    (hc : isSpace c = true) :
    readToken (' ' :: (name.data ++ c :: r)) = some (name, c :: r) := by
  rw [readToken_space _ (by decide)]
  exact readToken_word name.data c r hn.1 hn.2 hc

/-! ### One line of the state file, one pass of the loop -/

theorem restoreLoop_childLine (fuel : Nat) (v : Int) (rest : List Char) (d : Daemon)
    (hv : IntRange v) :
    restoreLoop (fuel + 1) ("child ".toList ++ (showInt v ++ (endl ++ rest))) d
      = restoreLoop fuel rest { d with m_children := d.m_children ++ [v] } := by
  have h : readToken ("child ".toList ++ (showInt v ++ (endl ++ rest)))
      = some ("child", ' ' :: (showInt v ++ '\n' :: rest)) := rfl
  rw [restoreLoop, restoreStep_child d h (readInt_arg v '\n' rest hv (by decide))]
  exact restoreLoop_space fuel rest _ (by decide)

theorem restoreLoop_invokerPidLine (fuel : Nat) (a b : Int) (rest : List Char) (d : Daemon)
    (ha : IntRange a) (hb : IntRange b) :
    restoreLoop (fuel + 1)
        ("booster-invoker-pid ".toList ++ (showInt a ++ (" ".toList ++ (showInt b ++ (endl ++ rest))))) d
      = restoreLoop fuel rest
          { d with m_boosterPidToInvokerPid := mapSet d.m_boosterPidToInvokerPid a b } := by
  have h : readToken
      ("booster-invoker-pid ".toList ++ (showInt a ++ (" ".toList ++ (showInt b ++ (endl ++ rest)))))
      = some ("booster-invoker-pid", ' ' :: (showInt a ++ ' ' :: (showInt b ++ '\n' :: rest))) := rfl
  rw [restoreLoop, restoreStep_invokerPid d h (readInt_arg a ' ' _ ha (by decide))
    (readInt_arg b '\n' rest hb (by decide))]
  exact restoreLoop_space fuel rest _ (by decide)

theorem restoreLoop_invokerFdLine (fuel : Nat) (a b : Int) (rest : List Char) (d : Daemon)
    (ha : IntRange a) (hb : IntRange b) :
    restoreLoop (fuel + 1)
        ("booster-invoker-fd ".toList ++ (showInt a ++ (" ".toList ++ (showInt b ++ (endl ++ rest))))) d
      = restoreLoop fuel rest
          { d with m_boosterPidToInvokerFd := mapSet d.m_boosterPidToInvokerFd a b } := by
  have h : readToken
      ("booster-invoker-fd ".toList ++ (showInt a ++ (" ".toList ++ (showInt b ++ (endl ++ rest)))))
      = some ("booster-invoker-fd", ' ' :: (showInt a ++ ' ' :: (showInt b ++ '\n' :: rest))) := rfl
  rw [restoreLoop, restoreStep_invokerFd d h (readInt_arg a ' ' _ ha (by decide))
    (readInt_arg b '\n' rest hb (by decide))]
  exact restoreLoop_space fuel rest _ (by decide)

theorem restoreLoop_boosterPidLine (fuel : Nat) (v : Int) (rest : List Char) (d : Daemon)
    (hv : IntRange v) :
    restoreLoop (fuel + 1) ("booster-pid ".toList ++ (showInt v ++ (endl ++ rest))) d
      = restoreLoop fuel rest { d with m_boosterPid := v } := by
  have h : readToken ("booster-pid ".toList ++ (showInt v ++ (endl ++ rest)))
      = some ("booster-pid", ' ' :: (showInt v ++ '\n' :: rest)) := rfl
  rw [restoreLoop, restoreStep_boosterPid d h (readInt_arg v '\n' rest hv (by decide))]
  exact restoreLoop_space fuel rest _ (by decide)

theorem restoreLoop_launcherSocketLine (fuel : Nat) (a b : Int) (rest : List Char)
    (d : Daemon) (ha : IntRange a) (hb : IntRange b) :
    restoreLoop (fuel + 1)
        ("launcher-socket ".toList ++ (showInt a ++ (" ".toList ++ (showInt b ++ (endl ++ rest))))) d
      = restoreLoop fuel rest { d with m_boosterLauncherSocket := (a, b) } := by
  have h : readToken
      ("launcher-socket ".toList ++ (showInt a ++ (" ".toList ++ (showInt b ++ (endl ++ rest)))))
      = some ("launcher-socket", ' ' :: (showInt a ++ ' ' :: (showInt b ++ '\n' :: rest))) := rfl
  rw [restoreLoop, restoreStep_launcherSocket d h (readInt_arg a ' ' _ ha (by decide))
    (readInt_arg b '\n' rest hb (by decide))]
  exact restoreLoop_space fuel rest _ (by decide)

theorem restoreLoop_sigpipeLine (fuel : Nat) (a b : Int) (rest : List Char)
    (d : Daemon) (ha : IntRange a) (hb : IntRange b) :
    restoreLoop (fuel + 1)
        ("sigpipe-fd ".toList ++ (showInt a ++ (" ".toList ++ (showInt b ++ (endl ++ rest))))) d
      = restoreLoop fuel rest { d with m_sigPipeFd := (a, b) } := by
  have h : readToken
      ("sigpipe-fd ".toList ++ (showInt a ++ (" ".toList ++ (showInt b ++ (endl ++ rest)))))
      = some ("sigpipe-fd", ' ' :: (showInt a ++ ' ' :: (showInt b ++ '\n' :: rest))) := rfl
  rw [restoreLoop, restoreStep_sigpipe d h (readInt_arg a ' ' _ ha (by decide))
    (readInt_arg b '\n' rest hb (by decide))]
  exact restoreLoop_space fuel rest _ (by decide)

theorem restoreLoop_socketHashLine (fuel : Nat) (name : String) (fd : Int)
    (rest : List Char) (d : Daemon) (hn : TokenName name) (hfd : IntRange fd) :
    restoreLoop (fuel + 1)
        ("socket-hash ".toList ++ (name.data ++ (" ".toList ++ (showInt fd ++ (endl ++ rest))))) d
      = restoreLoop fuel rest
          { d with m_socketManager := d.m_socketManager.addMapping name fd } := by
  have h : readToken
      ("socket-hash ".toList ++ (name.data ++ (" ".toList ++ (showInt fd ++ (endl ++ rest)))))
      = some ("socket-hash", ' ' :: (name.data ++ ' ' :: (showInt fd ++ '\n' :: rest))) := rfl
  rw [restoreLoop, restoreStep_socketHash d h (readToken_arg name ' ' _ hn (by decide))
    (readInt_arg fd '\n' rest hfd (by decide))]
  exact restoreLoop_space fuel rest _ (by decide)

theorem restoreLoop_debugModeLine (fuel : Nat) (b : Bool) (rest : List Char) (d : Daemon) :
    restoreLoop (fuel + 1) ("debug-mode ".toList ++ (showBool b ++ (endl ++ rest))) d
      = restoreLoop fuel rest { d with m_debugMode := b } := by
  have h : readToken ("debug-mode ".toList ++ (showBool b ++ (endl ++ rest)))
      = some ("debug-mode", ' ' :: (showBool b ++ '\n' :: rest)) := rfl
  rw [restoreLoop, restoreStep_debugMode d h (readBool_arg b '\n' rest (by decide))]
  exact restoreLoop_space fuel rest _ (by decide)

theorem restoreLoop_bootModeLine (fuel : Nat) (b : Bool) (rest : List Char) (d : Daemon) :
    restoreLoop (fuel + 1) ("boot-mode ".toList ++ (showBool b ++ (endl ++ rest))) d
      = restoreLoop fuel rest { d with m_bootMode := b } := by
  have h : readToken ("boot-mode ".toList ++ (showBool b ++ (endl ++ rest)))
      = some ("boot-mode", ' ' :: (showBool b ++ '\n' :: rest)) := rfl
  rw [restoreLoop, restoreStep_bootMode d h (readBool_arg b '\n' rest (by decide))]
  exact restoreLoop_space fuel rest _ (by decide)

theorem restoreLoop_endLine (fuel : Nat) (rest : List Char) (d : Daemon) :
    restoreLoop (fuel + 1) ("end".toList ++ (endl ++ rest)) d
      = some (.returned d (!d.m_debugMode)) := by
  have h : readToken ("end".toList ++ (endl ++ rest)) = some ("end", '\n' :: rest) := rfl
  rw [restoreLoop, restoreStep_end d h]

/-! ### The repeated records -/

theorem restoreLoop_childLines (cs : List Int) : ∀ (fuel : Nat) (rest : List Char) (d : Daemon),
    (∀ c ∈ cs, IntRange c) →
    restoreLoop (fuel + cs.length)
        ((cs.map fun c => "child ".toList ++ (showInt c ++ endl)).flatten ++ rest) d
      = restoreLoop fuel rest { d with m_children := d.m_children ++ cs } := by
  induction cs with
  | nil => intro fuel rest d _; simp
  | cons c cs ih =>
    intro fuel rest d h
    have hc : IntRange c := h c (List.mem_cons_self _ _)
    have hcs : ∀ x ∈ cs, IntRange x := fun x hx => h x (List.mem_cons_of_mem _ hx)
    simp only [List.map_cons, List.flatten_cons, List.append_assoc, List.length_cons]
    rw [show fuel + (cs.length + 1) = (fuel + cs.length) + 1 from rfl,
      restoreLoop_childLine _ c _ d hc, ih fuel rest _ hcs]
    simp

theorem restoreLoop_invokerPidLines (m : PidMap) :
    ∀ (fuel : Nat) (rest : List Char) (d : Daemon),
    (∀ e ∈ m, IntRange e.1 ∧ IntRange e.2) →
    restoreLoop (fuel + m.length)
        ((m.map fun e => "booster-invoker-pid ".toList
            ++ (showInt e.1 ++ (" ".toList ++ (showInt e.2 ++ endl)))).flatten ++ rest) d
      = restoreLoop fuel rest
          { d with m_boosterPidToInvokerPid :=
              m.foldl (fun acc e => mapSet acc e.1 e.2) d.m_boosterPidToInvokerPid } := by
  induction m with
  | nil => intro fuel rest d _; simp
  | cons e m ih =>
    intro fuel rest d h
    have he := h e (List.mem_cons_self _ _)
    have hm : ∀ x ∈ m, IntRange x.1 ∧ IntRange x.2 :=
      fun x hx => h x (List.mem_cons_of_mem _ hx)
    simp only [List.map_cons, List.flatten_cons, List.append_assoc, List.length_cons]
    rw [show fuel + (m.length + 1) = (fuel + m.length) + 1 from rfl,
      restoreLoop_invokerPidLine _ e.1 e.2 _ d he.1 he.2, ih fuel rest _ hm]
    simp

theorem restoreLoop_invokerFdLines (m : PidMap) :
    ∀ (fuel : Nat) (rest : List Char) (d : Daemon),
    (∀ e ∈ m, IntRange e.1 ∧ IntRange e.2) →
    restoreLoop (fuel + m.length)
        ((m.map fun e => "booster-invoker-fd ".toList
            ++ (showInt e.1 ++ (" ".toList ++ (showInt e.2 ++ endl)))).flatten ++ rest) d
      = restoreLoop fuel rest
          { d with m_boosterPidToInvokerFd :=
              m.foldl (fun acc e => mapSet acc e.1 e.2) d.m_boosterPidToInvokerFd } := by
  induction m with
  | nil => intro fuel rest d _; simp
  | cons e m ih =>
    intro fuel rest d h
    have he := h e (List.mem_cons_self _ _)
    have hm : ∀ x ∈ m, IntRange x.1 ∧ IntRange x.2 :=
      fun x hx => h x (List.mem_cons_of_mem _ hx)
    simp only [List.map_cons, List.flatten_cons, List.append_assoc, List.length_cons]
    rw [show fuel + (m.length + 1) = (fuel + m.length) + 1 from rfl,
      restoreLoop_invokerFdLine _ e.1 e.2 _ d he.1 he.2, ih fuel rest _ hm]
    simp

theorem restoreLoop_socketHashLines (m : List (String × Int)) :
    ∀ (fuel : Nat) (rest : List Char) (d : Daemon),
    (∀ e ∈ m, TokenName e.1 ∧ IntRange e.2) →
    restoreLoop (fuel + m.length)
        ((m.map fun e => "socket-hash ".toList
            ++ (e.1.data ++ (" ".toList ++ (showInt e.2 ++ endl)))).flatten ++ rest) d
      = restoreLoop fuel rest
          { d with m_socketManager :=
              m.foldl (fun acc e => acc.addMapping e.1 e.2) d.m_socketManager } := by
  induction m with
  | nil => intro fuel rest d _; simp
  | cons e m ih =>
    intro fuel rest d h
    have he := h e (List.mem_cons_self _ _)
    have hm : ∀ x ∈ m, TokenName x.1 ∧ IntRange x.2 :=
      fun x hx => h x (List.mem_cons_of_mem _ hx)
    simp only [List.map_cons, List.flatten_cons, List.append_assoc, List.length_cons]
    rw [show fuel + (m.length + 1) = (fuel + m.length) + 1 from rfl,
      restoreLoop_socketHashLine _ e.1 e.2 _ d he.1 he.2, ih fuel rest _ hm]
    simp

/-! ### Filling a map from its own entries -/

theorem mapSet_last (m : PidMap) (k v : Int) (h : ∀ e ∈ m, e.1 < k) :
    mapSet m k v = m ++ [(k, v)] := by
  induction m with
  | nil => rfl
  | cons e m ih =>
    obtain ⟨k', v'⟩ := e
    have hk : k' < k := h (k', v') (List.mem_cons_self _ _)
    have ih := ih (fun x hx => h x (List.mem_cons_of_mem _ hx))
    have h1 : ¬ k < k' := by omega
    have h2 : ¬ k = k' := by omega
    simp [mapSet, h1, h2, ih]

theorem foldl_mapSet (l : PidMap) : ∀ acc : PidMap, MapOrdered (acc ++ l) →
    l.foldl (fun m e => mapSet m e.1 e.2) acc = acc ++ l := by
  induction l with
  | nil => intro acc _; simp
  | cons e l ih =>
    intro acc h
    have hlast : ∀ x ∈ acc, x.1 < e.1 := by
      intro x hx
      unfold MapOrdered mapKeys at h
      rw [List.map_append, List.pairwise_append] at h
      exact h.2.2 x.1 (List.mem_map_of_mem _ hx) e.1 (by simp)
    have h' : MapOrdered ((acc ++ [e]) ++ l) := by simpa using h
    simp only [List.foldl_cons]
    rw [mapSet_last acc e.1 e.2 hlast, ih (acc ++ [e]) h']
    simp

theorem hashSet_last (m : List (String × Int)) (name : String) (fd : Int)
    (h : ∀ e ∈ m, e.1 ≠ name) : hashSet m name fd = m ++ [(name, fd)] := by
  induction m with
  | nil => rfl
  | cons e m ih =>
    obtain ⟨n', f'⟩ := e
    have hk : n' ≠ name := h (n', f') (List.mem_cons_self _ _)
    have ih := ih (fun x hx => h x (List.mem_cons_of_mem _ hx))
    simp [hashSet, Ne.symm hk, ih]

theorem foldl_addMapping (l : List (String × Int)) : ∀ acc : List (String × Int),
    ((acc ++ l).map Prod.fst).Nodup →
    l.foldl (fun (sm : SocketManager) e => sm.addMapping e.1 e.2) { m_socketHash := acc }
      = { m_socketHash := acc ++ l } := by
  induction l with
  | nil => intro acc _; simp
  | cons e l ih =>
    intro acc h
    have hlast : ∀ x ∈ acc, x.1 ≠ e.1 := by
      intro x hx
      rw [List.map_append, List.nodup_append] at h
      intro heq
      exact h.2.2 (List.mem_map_of_mem _ hx) (by rw [heq]; simp)
    have h' : (((acc ++ [e]) ++ l).map Prod.fst).Nodup := by simpa using h
    have hstep : SocketManager.addMapping { m_socketHash := acc } e.1 e.2
        = { m_socketHash := acc ++ [e] } := by
      simp [SocketManager.addMapping, hashSet_last acc e.1 e.2 hlast]
    simp only [List.foldl_cons]
    rw [hstep, ih (acc ++ [e]) h']
    simp

/-! ### The bound on the iterations is never reached -/

theorem dropWhile_length_le (p : Char → Bool) (s : List Char) :
    (s.dropWhile p).length ≤ s.length := by
  induction s with
  | nil => simp
  | cons c s ih =>
    simp only [List.dropWhile]
    split
    · simp only [List.length_cons]; omega
    · exact le_refl _

theorem skipWs_length_le (s : List Char) : (skipWs s).length ≤ s.length :=
  dropWhile_length_le _ s

theorem skipWs_head {s t : List Char} {c : Char} (h : skipWs s = c :: t) :
    isSpace c = false := by
  induction s with
  | nil => simp [skipWs] at h
  | cons x s ih =>
    by_cases hx : isSpace x = true
    · rw [skipWs_space s hx] at h
      exact ih h
    · have hx' : isSpace x = false := by simpa using hx
      rw [skipWs_of_head s hx'] at h
      simp only [List.cons.injEq] at h
      rw [← h.1]
      exact hx'

theorem readToken_length {s r : List Char} {tok : String}
    (h : readToken s = some (tok, r)) : r.length < s.length := by
  unfold readToken at h
  have hs := skipWs_length_le s
  split at h
  · simp at h
  · rename_i c t hc
    simp only [Option.some.injEq, Prod.mk.injEq] at h
    obtain ⟨_, h2⟩ := h
    rw [← h2]
    rw [hc] at hs
    have hsp : isSpace c = false := skipWs_head hc
    have := dropWhile_length_le (fun x => !isSpace x) t
    simp only [List.dropWhile, hsp, Bool.not_false]
    simp only [List.length_cons] at hs
    omega

theorem readDigits_length {neg : Bool} {t r : List Char} {v : Int}
    (h : readDigits neg t = some (v, r)) : r.length ≤ t.length := by
  unfold readDigits at h
  simp only at h
  split at h
  · simp at h
  · simp only [Option.some.injEq, Prod.mk.injEq] at h
    rw [← h.2]
    exact dropWhile_length_le _ t

theorem readNumber_length {s r : List Char} {v : Int}
    (h : readNumber s = some (v, r)) : r.length ≤ s.length := by
  unfold readNumber at h
  have hs := skipWs_length_le s
  split at h
  · simp at h
  · rename_i c t hc
    rw [hc] at hs
    simp only [List.length_cons] at hs
    split_ifs at h
    · have := readDigits_length h; omega
    · have := readDigits_length h; omega
    · have := readDigits_length h
      simp only [List.length_cons] at this
      omega

theorem readInt_length {s r : List Char} {v : Int}
    (h : readInt s = some (v, r)) : r.length ≤ s.length := by
  unfold readInt at h
  split at h
  · simp at h
  · rename_i v' r' hn
    split_ifs at h
    simp only [Option.some.injEq, Prod.mk.injEq] at h
    rw [← h.2]
    exact readNumber_length hn

theorem readBool_length {s r : List Char} {b : Bool}
    (h : readBool s = some (b, r)) : r.length ≤ s.length := by
  unfold readBool at h
  split at h
  · simp at h
  · rename_i v' r' hn
    have := readNumber_length hn
    split_ifs at h <;> simp only [Option.some.injEq, Prod.mk.injEq] at h <;>
      (rw [← h.2]; exact this)

theorem extract_next {α : Type} {r : Option (α × List Char)} {d d' : Daemon}
    {k : α → List Char → LoopStep} {ss' : List Char}
    (h : extract r d k = .next ss' d') : ∃ a s, r = some (a, s) ∧ k a s = .next ss' d' := by
  cases r with
  | none => simp [extract] at h
  | some p => exact ⟨p.1, p.2, rfl, h⟩

/-- Every pass of the loop that goes on has taken at least one character. -/
theorem restoreStep_length {ss ss' : List Char} {d d' : Daemon}
    (h : restoreStep ss d = .next ss' d') : ss'.length < ss.length := by
  unfold restoreStep at h
  obtain ⟨token, s1, ht, h⟩ := extract_next h
  have l1 := readToken_length ht
  by_cases hk : token = "end"
  · rw [if_pos hk] at h
    cases h
  rw [if_neg hk] at h
  clear hk
  by_cases hk : token = "child"
  · rw [if_pos hk] at h
    obtain ⟨a, s2, h2, h⟩ := extract_next h
    have l2 := readInt_length h2
    injection h with h _; subst h; omega
  rw [if_neg hk] at h
  clear hk
  by_cases hk : token = "booster-invoker-pid"
  · rw [if_pos hk] at h
    obtain ⟨a, s2, h2, h⟩ := extract_next h
    obtain ⟨b, s3, h3, h⟩ := extract_next h
    have l2 := readInt_length h2
    have l3 := readInt_length h3
    injection h with h _; subst h; omega
  rw [if_neg hk] at h
  clear hk
  by_cases hk : token = "booster-invoker-fd"
  · rw [if_pos hk] at h
    obtain ⟨a, s2, h2, h⟩ := extract_next h
    obtain ⟨b, s3, h3, h⟩ := extract_next h
    have l2 := readInt_length h2
    have l3 := readInt_length h3
    injection h with h _; subst h; omega
  rw [if_neg hk] at h
  clear hk
  by_cases hk : token = "booster-pid"
  · rw [if_pos hk] at h
    obtain ⟨a, s2, h2, h⟩ := extract_next h
    have l2 := readInt_length h2
    injection h with h _; subst h; omega
  rw [if_neg hk] at h
  clear hk
  by_cases hk : token = "launcher-socket"
  · rw [if_pos hk] at h
    obtain ⟨a, s2, h2, h⟩ := extract_next h
    obtain ⟨b, s3, h3, h⟩ := extract_next h
    have l2 := readInt_length h2
    have l3 := readInt_length h3
    injection h with h _; subst h; omega
  rw [if_neg hk] at h
  clear hk
  by_cases hk : token = "sigpipe-fd"
  · rw [if_pos hk] at h
    obtain ⟨a, s2, h2, h⟩ := extract_next h
    obtain ⟨b, s3, h3, h⟩ := extract_next h
    have l2 := readInt_length h2
    have l3 := readInt_length h3
    injection h with h _; subst h; omega
  rw [if_neg hk] at h
  clear hk
  by_cases hk : token = "socket-hash"
  · rw [if_pos hk] at h
    obtain ⟨a, s2, h2, h⟩ := extract_next h
    obtain ⟨b, s3, h3, h⟩ := extract_next h
    have l2 := readToken_length h2
    have l3 := readInt_length h3
    injection h with h _; subst h; omega
  rw [if_neg hk] at h
  clear hk
  by_cases hk : token = "debug-mode"
  · rw [if_pos hk] at h
    obtain ⟨a, s2, h2, h⟩ := extract_next h
    have l2 := readBool_length h2
    injection h with h _; subst h; omega
  rw [if_neg hk] at h
  clear hk
  by_cases hk : token = "boot-mode"
  · rw [if_pos hk] at h
    obtain ⟨a, s2, h2, h⟩ := extract_next h
    have l2 := readBool_length h2
    injection h with h _; subst h; omega
  rw [if_neg hk] at h
  clear hk
  injection h with h _; subst h; omega

theorem restoreLoop_total : ∀ (fuel : Nat) (ss : List Char) (d : Daemon),
    ss.length < fuel → ∃ r, restoreLoop fuel ss d = some r := by
  intro fuel
  induction fuel with
  | zero => intro ss d h; omega
  | succ fuel ih =>
    intro ss d h
    rw [restoreLoop]
    cases hs : restoreStep ss d with
    | leave r => exact ⟨r, rfl⟩
    | next ss' d' =>
      have := restoreStep_length hs
      exact ih ss' d' (by omega)

theorem restoreLoop_mono : ∀ (fuel k : Nat) (ss : List Char) (d : Daemon) (r : TryResult),
    restoreLoop fuel ss d = some r → restoreLoop (fuel + k) ss d = some r := by
  intro fuel
  induction fuel with
  | zero => intro k ss d r h; simp [restoreLoop] at h
  | succ fuel ih =>
    intro k ss d r h
    rw [show fuel + 1 + k = (fuel + k) + 1 by omega, restoreLoop]
    rw [restoreLoop] at h
    cases hs : restoreStep ss d with
    | leave r' => rw [hs] at h; exact h
    | next ss' d' =>
      rw [hs] at h
      exact ih k ss' d' r h

/-- The result of the loop does not depend on the bound, once the bound is large
enough for the loop to end. -/
theorem restoreLoop_of_fuel {fuel : Nat} {ss : List Char} {d : Daemon} {r : TryResult}
    (h : restoreLoop fuel ss d = some r) : restoreLoop (ss.length + 1) ss d = some r := by
  obtain ⟨r', hr'⟩ := restoreLoop_total (ss.length + 1) ss d (Nat.lt_succ_self _)
  have h1 := restoreLoop_mono fuel (ss.length + 1) ss d r h
  have h2 := restoreLoop_mono (ss.length + 1) fuel ss d r' hr'
  rw [Nat.add_comm] at h2
  rw [h1] at h2
  rw [hr', ← h2]

/-! ### The whole file -/

theorem saveState_eq (myPid : Int) (d : Daemon) :
    saveState myPid d = "my-pid ".toList ++ (showInt myPid ++ (endl ++ saveStateBody d)) := by
  simp only [saveState, saveStateBody, List.append_assoc, List.append_nil]

/-- The header `my-pid` with the own pid is accepted, and the loop starts behind it. -/
theorem restoreTry_header (myPid : Int) (body : List Char) (d0 : Daemon)
    (hpid : IntRange myPid) :
    restoreTry myPid ("my-pid ".toList ++ (showInt myPid ++ (endl ++ body))) d0
      = restoreLoop (('\n' :: body).length + 1) ('\n' :: body) d0 := by
  have h : readToken ("my-pid ".toList ++ (showInt myPid ++ (endl ++ body)))
      = some ("my-pid", ' ' :: (showInt myPid ++ '\n' :: body)) := rfl
  unfold restoreTry
  rw [h]
  simp only [ne_eq, not_true_eq_false, if_false]
  rw [readInt_arg myPid '\n' body hpid (by decide)]
  simp

/-- The loop on the records written for `d` restores them one by one. -/
theorem restoreLoop_saveStateBody (d d0 : Daemon) (hd : d.WellFormed) (fuel : Nat) :
    restoreLoop
        (fuel + 1 + d.m_socketManager.getState.length + 1 + 1 + 1 + 1
          + d.m_boosterPidToInvokerFd.length + d.m_boosterPidToInvokerPid.length
          + d.m_children.length + 1)
        (saveStateBody d) d0
      = some (.returned
          { d0 with
            m_debugMode := d.m_debugMode
            m_children := d0.m_children ++ d.m_children
            m_boosterPidToInvokerPid :=
              d.m_boosterPidToInvokerPid.foldl (fun acc e => mapSet acc e.1 e.2)
                d0.m_boosterPidToInvokerPid
            m_boosterPidToInvokerFd :=
              d.m_boosterPidToInvokerFd.foldl (fun acc e => mapSet acc e.1 e.2)
                d0.m_boosterPidToInvokerFd
            m_boosterPid := d.m_boosterPid
            m_boosterLauncherSocket := d.m_boosterLauncherSocket
            m_sigPipeFd := d.m_sigPipeFd
            m_bootMode := d.m_bootMode
            m_socketManager :=
              d.m_socketManager.getState.foldl (fun acc e => acc.addMapping e.1 e.2)
                d0.m_socketManager }
          (!d.m_debugMode)) := by
  obtain ⟨hcs, hbp, hpm, _, hfm, _, hls, hsp, hsh, _⟩ := hd
  unfold saveStateBody
  rw [restoreLoop_debugModeLine, restoreLoop_childLines _ _ _ _ hcs,
    restoreLoop_invokerPidLines _ _ _ _ hpm, restoreLoop_invokerFdLines _ _ _ _ hfm,
    restoreLoop_boosterPidLine _ _ _ _ hbp,
    restoreLoop_launcherSocketLine _ _ _ _ _ hls.1 hls.2,
    restoreLoop_sigpipeLine _ _ _ _ _ hsp.1 hsp.2,
    restoreLoop_bootModeLine, restoreLoop_socketHashLines _ _ _ _ hsh,
    restoreLoop_endLine]

/-! ### The loop and the record-keyword positions -/

theorem extract_none {α : Type} (d : Daemon) (k : α → List Char → LoopStep) :
    extract (none : Option (α × List Char)) d k = .leave (.threw .iosFailure "" d) := rfl

theorem extract_some {α : Type} (a : α) (s : List Char) (d : Daemon)
    (k : α → List Char → LoopStep) : extract (some (a, s)) d k = k a s := rfl

/-- One pass of the loop on a token other than `end` follows the record grammar:
it fails where the arguments cannot be read and goes on behind them
otherwise. -/
theorem restoreStep_scan {ss s1 : List Char} {token : String} (d : Daemon)
    (ht : readToken ss = some (token, s1)) (hne : token ≠ "end") :
    (skipRecordArgs token s1 = none
      ∧ restoreStep ss d = .leave (.threw .iosFailure "" d))
    ∨ ∃ s' d', skipRecordArgs token s1 = some s' ∧ restoreStep ss d = .next s' d' := by
  unfold restoreStep skipRecordArgs
  rw [ht, extract_some, if_neg hne]
  by_cases hk : token = "child"
  · subst hk
    rw [if_pos rfl, if_pos (Or.inl rfl)]
    cases h1 : readInt s1 with
    | none => left; exact ⟨rfl, rfl⟩
    | some p => right; exact ⟨p.2, _, rfl, rfl⟩
  rw [if_neg hk]
  by_cases hk2 : token = "booster-invoker-pid"
  · subst hk2
    rw [if_pos rfl, if_neg (by decide), if_pos (Or.inl rfl)]
    cases h1 : readInt s1 with
    | none => left; exact ⟨rfl, rfl⟩
    | some p =>
      obtain ⟨a, s2⟩ := p
      cases h2 : readInt s2 with
      | none => left; simp [extract, h2]
      | some q =>
        obtain ⟨b, s3⟩ := q
        right
        refine ⟨s3, ?_⟩
        apply Exists.intro
        constructor
        · simp [h2]
        · rw [extract_some, h2]
          rfl
  rw [if_neg hk2]
  by_cases hk3 : token = "booster-invoker-fd"
  · subst hk3
    rw [if_pos rfl, if_neg (by decide), if_pos (Or.inr (Or.inl rfl))]
    cases h1 : readInt s1 with
    | none => left; exact ⟨rfl, rfl⟩
    | some p =>
      obtain ⟨a, s2⟩ := p
      cases h2 : readInt s2 with
      | none => left; simp [extract, h2]
      | some q =>
        obtain ⟨b, s3⟩ := q
        right
        refine ⟨s3, ?_⟩
        apply Exists.intro
        constructor
        · simp [h2]
        · rw [extract_some, h2]
          rfl
  rw [if_neg hk3]
  by_cases hk4 : token = "booster-pid"
  · subst hk4
    rw [if_pos rfl, if_pos (Or.inr rfl)]
    cases h1 : readInt s1 with
    | none => left; exact ⟨rfl, rfl⟩
    | some p => right; exact ⟨p.2, _, rfl, rfl⟩
  rw [if_neg hk4, if_neg (by simp [hk, hk4])]
  by_cases hk5 : token = "launcher-socket"
  · subst hk5
    rw [if_pos rfl, if_pos (Or.inr (Or.inr (Or.inl rfl)))]
    cases h1 : readInt s1 with
    | none => left; exact ⟨rfl, rfl⟩
    | some p =>
      obtain ⟨a, s2⟩ := p
      cases h2 : readInt s2 with
      | none => left; simp [extract, h2]
      | some q =>
        obtain ⟨b, s3⟩ := q
        right
        refine ⟨s3, ?_⟩
        apply Exists.intro
        constructor
        · simp [h2]
        · rw [extract_some, h2]
          rfl
  rw [if_neg hk5]
  by_cases hk6 : token = "sigpipe-fd"
  · subst hk6
    rw [if_pos rfl, if_pos (Or.inr (Or.inr (Or.inr rfl)))]
    cases h1 : readInt s1 with
    | none => left; exact ⟨rfl, rfl⟩
    | some p =>
      obtain ⟨a, s2⟩ := p
      cases h2 : readInt s2 with
      | none => left; simp [extract, h2]
      | some q =>
        obtain ⟨b, s3⟩ := q
        right
        refine ⟨s3, ?_⟩
        apply Exists.intro
        constructor
        · simp [h2]
        · rw [extract_some, h2]
          rfl
  rw [if_neg hk6, if_neg (by simp [hk2, hk3, hk5, hk6])]
  by_cases hk7 : token = "socket-hash"
  · subst hk7
    rw [if_pos rfl, if_pos rfl]
    cases h1 : readToken s1 with
    | none => left; exact ⟨rfl, rfl⟩
    | some p =>
      obtain ⟨a, s2⟩ := p
      cases h2 : readInt s2 with
      | none => left; simp [extract, h2]
      | some q =>
        obtain ⟨b, s3⟩ := q
        right
        refine ⟨s3, ?_⟩
        apply Exists.intro
        constructor
        · simp [h2]
        · rw [extract_some, h2]
          rfl
  rw [if_neg hk7, if_neg hk7]
  by_cases hk8 : token = "debug-mode"
  · subst hk8
    rw [if_pos rfl, if_pos (Or.inl rfl)]
    cases h1 : readBool s1 with
    | none => left; exact ⟨rfl, rfl⟩
    | some p => right; exact ⟨p.2, _, rfl, rfl⟩
  rw [if_neg hk8]
  by_cases hk9 : token = "boot-mode"
  · subst hk9
    rw [if_pos rfl, if_pos (Or.inr rfl)]
    cases h1 : readBool s1 with
    | none => left; exact ⟨rfl, rfl⟩
    | some p => right; exact ⟨p.2, _, rfl, rfl⟩
  rw [if_neg hk9, if_neg (by simp [hk8, hk9])]
  right
  exact ⟨s1, d, rfl, rfl⟩

/-- Without `end` at a record-keyword position the loop ends by a stream failure. -/
theorem restoreLoop_no_end : ∀ (fuel : Nat) (ss : List Char) (d : Daemon),
    ss.length < fuel → scanForEnd fuel ss = false →
    ∃ d', restoreLoop fuel ss d = some (.threw .iosFailure "" d') := by
  intro fuel
  induction fuel with
  | zero => intro ss d h; omega
  | succ fuel ih =>
    intro ss d hlen hscan
    rw [restoreLoop]
    rw [scanForEnd] at hscan
    cases ht : readToken ss with
    | none => exact ⟨d, by simp [restoreStep, ht, extract]⟩
    | some p =>
      obtain ⟨token, s1⟩ := p
      rw [ht] at hscan
      simp only at hscan
      by_cases hend : token = "end"
      · simp [hend] at hscan
      · rw [if_neg hend] at hscan
        rcases restoreStep_scan d ht hend with ⟨_, hstep⟩ | ⟨s', d', hargs, hstep⟩
        · exact ⟨d, by rw [hstep]⟩
        · rw [hargs] at hscan
          have hl := restoreStep_length hstep
          rw [hstep]
          exact ih s' d' (by omega) hscan

/-! ### What the loop of `restoreState` leaves alone -/

theorem extract_returned {α : Type} {r : Option (α × List Char)} {d d' : Daemon}
    {k : α → List Char → LoopStep} {removed : Bool}
    (h : extract r d k = .leave (.returned d' removed)) :
    ∃ a s, r = some (a, s) ∧ k a s = .leave (.returned d' removed) := by
  cases r with
  | none => simp [extract] at h
  | some p => exact ⟨p.1, p.2, rfl, h⟩

/-- A pass of the loop that goes on has not touched the flags that have no
record. -/
theorem restoreStep_next_flags {ss ss' : List Char} {d d' : Daemon}
    (h : restoreStep ss d = .next ss' d') : SameFlags d d' := by
  unfold restoreStep at h
  obtain ⟨token, s1, -, h⟩ := extract_next h
  by_cases hk : token = "end"
  · rw [if_pos hk] at h
    cases h
  rw [if_neg hk] at h
  clear hk
  by_cases hk : token = "child"
  · rw [if_pos hk] at h
    obtain ⟨a, s2, -, h⟩ := extract_next h
    injection h with _ h; subst h; exact ⟨rfl, rfl, rfl, rfl⟩
  rw [if_neg hk] at h
  clear hk
  by_cases hk : token = "booster-invoker-pid"
  · rw [if_pos hk] at h
    obtain ⟨a, s2, -, h⟩ := extract_next h
    obtain ⟨b, s3, -, h⟩ := extract_next h
    injection h with _ h; subst h; exact ⟨rfl, rfl, rfl, rfl⟩
  rw [if_neg hk] at h
  clear hk
  by_cases hk : token = "booster-invoker-fd"
  · rw [if_pos hk] at h
    obtain ⟨a, s2, -, h⟩ := extract_next h
    obtain ⟨b, s3, -, h⟩ := extract_next h
    injection h with _ h; subst h; exact ⟨rfl, rfl, rfl, rfl⟩
  rw [if_neg hk] at h
  clear hk
  by_cases hk : token = "booster-pid"
  · rw [if_pos hk] at h
    obtain ⟨a, s2, -, h⟩ := extract_next h
    injection h with _ h; subst h; exact ⟨rfl, rfl, rfl, rfl⟩
  rw [if_neg hk] at h
  clear hk
  by_cases hk : token = "launcher-socket"
  · rw [if_pos hk] at h
    obtain ⟨a, s2, -, h⟩ := extract_next h
    obtain ⟨b, s3, -, h⟩ := extract_next h
    injection h with _ h; subst h; exact ⟨rfl, rfl, rfl, rfl⟩
  rw [if_neg hk] at h
  clear hk
  by_cases hk : token = "sigpipe-fd"
  · rw [if_pos hk] at h
    obtain ⟨a, s2, -, h⟩ := extract_next h
    obtain ⟨b, s3, -, h⟩ := extract_next h
    injection h with _ h; subst h; exact ⟨rfl, rfl, rfl, rfl⟩
  rw [if_neg hk] at h
  clear hk
  by_cases hk : token = "socket-hash"
  · rw [if_pos hk] at h
    obtain ⟨a, s2, -, h⟩ := extract_next h
    obtain ⟨b, s3, -, h⟩ := extract_next h
    injection h with _ h; subst h; exact ⟨rfl, rfl, rfl, rfl⟩
  rw [if_neg hk] at h
  clear hk
  by_cases hk : token = "debug-mode"
  · rw [if_pos hk] at h
    obtain ⟨a, s2, -, h⟩ := extract_next h
    injection h with _ h; subst h; exact ⟨rfl, rfl, rfl, rfl⟩
  rw [if_neg hk] at h
  clear hk
  by_cases hk : token = "boot-mode"
  · rw [if_pos hk] at h
    obtain ⟨a, s2, -, h⟩ := extract_next h
    injection h with _ h; subst h; exact ⟨rfl, rfl, rfl, rfl⟩
  rw [if_neg hk] at h
  clear hk
  injection h with _ h; subst h; exact ⟨rfl, rfl, rfl, rfl⟩

/-- The pass of the loop that returns does so with the members it found. -/
theorem restoreStep_returned {ss : List Char} {d d' : Daemon} {removed : Bool}
    (h : restoreStep ss d = .leave (.returned d' removed)) : d' = d := by
  unfold restoreStep at h
  obtain ⟨token, s1, -, h⟩ := extract_returned h
  by_cases hk : token = "end"
  · rw [if_pos hk] at h
    injection h with h; injection h with h _; exact h.symm
  rw [if_neg hk] at h
  clear hk
  by_cases hk : token = "child"
  · rw [if_pos hk] at h
    obtain ⟨a, s2, -, h⟩ := extract_returned h
    cases h
  rw [if_neg hk] at h
  clear hk
  by_cases hk : token = "booster-invoker-pid"
  · rw [if_pos hk] at h
    obtain ⟨a, s2, -, h⟩ := extract_returned h
    obtain ⟨b, s3, -, h⟩ := extract_returned h
    cases h
  rw [if_neg hk] at h
  clear hk
  by_cases hk : token = "booster-invoker-fd"
  · rw [if_pos hk] at h
    obtain ⟨a, s2, -, h⟩ := extract_returned h
    obtain ⟨b, s3, -, h⟩ := extract_returned h
    cases h
  rw [if_neg hk] at h
  clear hk
  by_cases hk : token = "booster-pid"
  · rw [if_pos hk] at h
    obtain ⟨a, s2, -, h⟩ := extract_returned h
    cases h
  rw [if_neg hk] at h
  clear hk
  by_cases hk : token = "launcher-socket"
  · rw [if_pos hk] at h
    obtain ⟨a, s2, -, h⟩ := extract_returned h
    obtain ⟨b, s3, -, h⟩ := extract_returned h
    cases h
  rw [if_neg hk] at h
  clear hk
  by_cases hk : token = "sigpipe-fd"
  · rw [if_pos hk] at h
    obtain ⟨a, s2, -, h⟩ := extract_returned h
    obtain ⟨b, s3, -, h⟩ := extract_returned h
    cases h
  rw [if_neg hk] at h
  clear hk
  by_cases hk : token = "socket-hash"
  · rw [if_pos hk] at h
    obtain ⟨a, s2, -, h⟩ := extract_returned h
    obtain ⟨b, s3, -, h⟩ := extract_returned h
    cases h
  rw [if_neg hk] at h
  clear hk
  by_cases hk : token = "debug-mode"
  · rw [if_pos hk] at h
    obtain ⟨a, s2, -, h⟩ := extract_returned h
    cases h
  rw [if_neg hk] at h
  clear hk
  by_cases hk : token = "boot-mode"
  · rw [if_pos hk] at h
    obtain ⟨a, s2, -, h⟩ := extract_returned h
    cases h
  rw [if_neg hk] at h
  clear hk
  cases h

theorem restoreLoop_flags : ∀ (fuel : Nat) (ss : List Char) (d d' : Daemon) (removed : Bool),
    restoreLoop fuel ss d = some (.returned d' removed) → SameFlags d d' := by
  intro fuel
  induction fuel with
  | zero => intro ss d d' removed h; simp [restoreLoop] at h
  | succ fuel ih =>
    intro ss d d' removed h
    rw [restoreLoop] at h
    cases hs : restoreStep ss d with
    | leave r =>
      rw [hs] at h
      simp only [Option.some.injEq] at h
      subst h
      rw [restoreStep_returned hs]
      exact ⟨rfl, rfl, rfl, rfl⟩
    | next ss1 d1 =>
      rw [hs] at h
      obtain ⟨a1, a2, a3, a4⟩ := restoreStep_next_flags hs
      obtain ⟨b1, b2, b3, b4⟩ := ih ss1 d1 d' removed h
      exact ⟨b1.trans a1, b2.trans a2, b3.trans a3, b4.trans a4⟩

/-- A returning `restoreState` has not touched the flags that have no record. -/
theorem restoreState_flags {myPid : Int} {file : List Char} {d d' : Daemon} {removed : Bool}
    (h : restoreState myPid file d = some (.returned d' removed)) : SameFlags d d' := by
  unfold restoreState at h
  cases ht : restoreTry myPid file d with
  | none => rw [ht] at h; simp at h
  | some r =>
    rw [ht] at h
    cases r with
    | threw ty msg d1 =>
      simp only at h
      split_ifs at h <;> simp at h
    | returned d1 rm =>
      simp only [Option.some.injEq, RestoreResult.returned.injEq] at h
      obtain ⟨rfl, rfl⟩ := h
      unfold restoreTry at ht
      cases h1 : readToken file with
      | none => rw [h1] at ht; simp at ht
      | some p =>
        obtain ⟨token, s1⟩ := p
        rw [h1] at ht
        simp only at ht
        by_cases hk : token ≠ "my-pid"
        · rw [if_pos hk] at ht; simp at ht
        · rw [if_neg hk] at ht
          cases h2 : readInt s1 with
          | none => rw [h2] at ht; simp at ht
          | some q =>
            obtain ⟨pid, s2⟩ := q
            rw [h2] at ht
            simp only at ht
            by_cases hp : pid ≠ myPid
            · rw [if_pos hp] at ht; simp at ht
            · rw [if_neg hp] at ht
              exact restoreLoop_flags _ _ _ _ _ ht

/-- With `end` at a record-keyword position the loop returns. -/
theorem restoreLoop_with_end : ∀ (fuel : Nat) (ss : List Char) (d : Daemon),
    scanForEnd fuel ss = true →
    ∃ d', restoreLoop fuel ss d = some (.returned d' (!d'.m_debugMode)) := by
  intro fuel
  induction fuel with
  | zero => intro ss d h; simp [scanForEnd] at h
  | succ fuel ih =>
    intro ss d hscan
    rw [restoreLoop]
    rw [scanForEnd] at hscan
    cases ht : readToken ss with
    | none => rw [ht] at hscan; simp at hscan
    | some p =>
      obtain ⟨token, s1⟩ := p
      rw [ht] at hscan
      simp only at hscan
      by_cases hend : token = "end"
      · subst hend
        rw [restoreStep_end d ht]
        exact ⟨d, rfl⟩
      · rw [if_neg hend] at hscan
        rcases restoreStep_scan d ht hend with ⟨hnone, _⟩ | ⟨s', d', hargs, hstep⟩
        · rw [hnone] at hscan; simp at hscan
        · rw [hargs] at hscan
          rw [hstep]
          exact ih s' d' hscan

/-- A token that the loop compares with nothing is passed over: the loop goes on
behind it with the members untouched. -/
theorem restoreStep_unknown {ss rest : List Char} {token : String} (d : Daemon)
    (ht : readToken ss = some (token, rest)) (hk : isKeyword token = false) :
    restoreStep ss d = .next rest d := by
  simp only [isKeyword, Bool.or_eq_false_iff, decide_eq_false_iff_not] at hk
  obtain ⟨⟨⟨⟨⟨⟨⟨⟨⟨k1, k2⟩, k3⟩, k4⟩, k5⟩, k6⟩, k7⟩, k8⟩, k9⟩, k10⟩ := hk
  unfold restoreStep
  rw [ht, extract_some, if_neg k1, if_neg k2, if_neg k3, if_neg k4, if_neg k5, if_neg k6,
    if_neg k7, if_neg k8, if_neg k9, if_neg k10]

/-- The call `restoreState` always ends: the bound on the iterations of the model is
never reached. -/
theorem restoreState_total (myPid : Int) (file : List Char) (d : Daemon) :
    ∃ r, restoreState myPid file d = some r := by
  have htry : ∃ t, restoreTry myPid file d = some t := by
    unfold restoreTry
    cases h1 : readToken file with
    | none => exact ⟨_, rfl⟩
    | some p =>
      obtain ⟨token, s1⟩ := p
      simp only
      by_cases hk : token ≠ "my-pid"
      · rw [if_pos hk]; exact ⟨_, rfl⟩
      · rw [if_neg hk]
        cases h2 : readInt s1 with
        | none => exact ⟨_, rfl⟩
        | some q =>
          obtain ⟨pid, s2⟩ := q
          simp only
          by_cases hp : pid ≠ myPid
          · rw [if_pos hp]; exact ⟨_, rfl⟩
          · rw [if_neg hp]
            exact restoreLoop_total _ _ _ (Nat.lt_succ_self _)
  obtain ⟨t, ht⟩ := htry
  unfold restoreState
  rw [ht]
  cases t with
  | returned d1 rm => exact ⟨_, rfl⟩
  | threw ty msg d1 =>
    simp only
    split_ifs
    · exact ⟨_, rfl⟩
    · exact ⟨_, rfl⟩

/-! ## Lemmas on the maps -/

theorem mapFind_mem {m : PidMap} {k v : Int} (h : mapFind m k = some v) : (k, v) ∈ m := by
  induction m with
  | nil => simp [mapFind] at h
  | cons e m ih =>
    obtain ⟨k', v'⟩ := e
    by_cases hk : k = k'
    · subst hk
      simp only [mapFind, if_true, Option.some.injEq] at h
      subst h
      exact List.mem_cons_self _ _
    · simp only [mapFind, if_neg hk] at h
      exact List.mem_cons_of_mem _ (ih h)

theorem mapFind_mapSet_self (m : PidMap) (k v : Int) : mapFind (mapSet m k v) k = some v := by
  induction m with
  | nil => simp [mapSet, mapFind]
  | cons e m ih =>
    obtain ⟨k', v'⟩ := e
    by_cases h1 : k < k'
    · simp [mapSet, h1, mapFind]
    · by_cases h2 : k = k'
      · simp [mapSet, h2, mapFind]
      · simp [mapSet, h1, h2, mapFind, ih]

theorem mem_mapErase {m : PidMap} {k : Int} {e : Int × Int} (h : e ∈ mapErase m k) :
    e ∈ m := by
  induction m with
  | nil => simp [mapErase] at h
  | cons x m ih =>
    obtain ⟨k', v'⟩ := x
    by_cases hk : k = k'
    · simp only [mapErase, hk, if_true] at h
      exact List.mem_cons_of_mem _ h
    · simp only [mapErase, if_neg hk, List.mem_cons] at h
      rcases h with h | h
      · rw [h]; exact List.mem_cons_self _ _
      · exact List.mem_cons_of_mem _ (ih h)

theorem MapOrdered.tail {e : Int × Int} {m : PidMap} (h : MapOrdered (e :: m)) :
    MapOrdered m := by
  unfold MapOrdered mapKeys at *
  simp only [List.map_cons, List.pairwise_cons] at h
  exact h.2

theorem MapOrdered.head_lt {e x : Int × Int} {m : PidMap} (h : MapOrdered (e :: m))
    (hx : x ∈ m) : e.1 < x.1 := by
  unfold MapOrdered mapKeys at h
  simp only [List.map_cons, List.pairwise_cons] at h
  exact h.1 x.1 (List.mem_map_of_mem _ hx)

/-- In a `std::map`, erasing the entry of `k` leaves no entry with key `k`. -/
theorem key_ne_of_mem_mapErase {m : PidMap} {k : Int} {e : Int × Int} (ho : MapOrdered m)
    (h : e ∈ mapErase m k) : e.1 ≠ k := by
  induction m with
  | nil => simp [mapErase] at h
  | cons x m ih =>
    obtain ⟨k', v'⟩ := x
    by_cases hk : k = k'
    · simp only [mapErase, hk, if_true] at h
      have := ho.head_lt h
      simp only at this
      omega
    · simp only [mapErase, if_neg hk, List.mem_cons] at h
      rcases h with h | h
      · rw [h]; exact fun h' => hk h'.symm
      · exact ih ho.tail h

theorem not_mem_mapKeys_mapErase {m : PidMap} (k : Int) (ho : MapOrdered m) :
    k ∉ mapKeys (mapErase m k) := by
  intro h
  unfold mapKeys at h
  obtain ⟨e, he, hk⟩ := List.mem_map.mp h
  exact key_ne_of_mem_mapErase ho he hk

theorem not_mem_mapKeys_of_subset {m m' : PidMap} {k : Int} (hsub : ∀ e ∈ m', e ∈ m)
    (h : k ∉ mapKeys m) : k ∉ mapKeys m' := by
  intro hk
  unfold mapKeys at hk h
  obtain ⟨e, he, hke⟩ := List.mem_map.mp hk
  exact h (List.mem_map.mpr ⟨e, hsub e he, hke⟩)

theorem mapFind_eq_none_iff (m : PidMap) (k : Int) : mapFind m k = none ↔ k ∉ mapKeys m := by
  induction m with
  | nil => simp [mapFind, mapKeys]
  | cons e m ih =>
    obtain ⟨k', v'⟩ := e
    by_cases hk : k = k'
    · simp [mapFind, mapKeys, hk]
    · simp only [mapFind, if_neg hk, ih]
      simp [mapKeys, hk]

theorem mapErase_of_not_mem {m : PidMap} {k : Int} (h : k ∉ mapKeys m) : mapErase m k = m := by
  induction m with
  | nil => rfl
  | cons e m ih =>
    obtain ⟨k', v'⟩ := e
    have hk : k ≠ k' := by
      intro hk; apply h; simp [mapKeys, hk]
    have hm : k ∉ mapKeys m := by
      intro hm; apply h; simp only [mapKeys, List.map_cons, List.mem_cons]; right; exact hm
    simp [mapErase, hk, ih hm]

theorem mem_mapKeys_mapSet (m : PidMap) (k v k' : Int) :
    k' ∈ mapKeys (mapSet m k v) ↔ k' = k ∨ k' ∈ mapKeys m := by
  induction m with
  | nil => simp [mapSet, mapKeys]
  | cons e m ih =>
    obtain ⟨k0, v0⟩ := e
    by_cases h1 : k < k0
    · simp [mapSet, h1, mapKeys]
    · by_cases h2 : k = k0
      · simp [mapSet, h2, mapKeys]
      · simp only [mapSet, if_neg h1, if_neg h2]
        simp only [mapKeys, List.map_cons, List.mem_cons] at ih ⊢
        rw [ih]
        tauto

theorem mapSet_ordered {m : PidMap} (k v : Int) (h : MapOrdered m) : MapOrdered (mapSet m k v) := by
  induction m with
  | nil => simp [mapSet, MapOrdered, mapKeys]
  | cons e m ih =>
    obtain ⟨k0, v0⟩ := e
    have ht := h.tail
    have hlt : ∀ x ∈ mapKeys m, k0 < x := by
      intro x hx
      obtain ⟨y, hy, rfl⟩ := List.mem_map.mp hx
      exact h.head_lt hy
    by_cases h1 : k < k0
    · simp only [mapSet, if_pos h1]
      unfold MapOrdered mapKeys at h ⊢
      simp only [List.map_cons, List.pairwise_cons] at h ⊢
      refine ⟨?_, h⟩
      intro x hx
      rcases List.mem_cons.mp hx with rfl | hx
      · exact h1
      · have := h.1 x hx; omega
    · by_cases h2 : k = k0
      · subst h2
        simp only [mapSet, lt_self_iff_false, if_false, if_true]
        exact h
      · simp only [mapSet, if_neg h1, if_neg h2]
        have ih := ih ht
        unfold MapOrdered at ih ⊢
        have hk : ∀ x ∈ mapKeys (mapSet m k v), k0 < x := by
          intro x hx
          rcases (mem_mapKeys_mapSet m k v x).mp hx with rfl | hx
          · omega
          · exact hlt x hx
        show List.Pairwise _ (k0 :: mapKeys (mapSet m k v))
        exact List.pairwise_cons.mpr ⟨hk, ih⟩

theorem mapKeys_mapErase_sublist (m : PidMap) (k : Int) :
    (mapKeys (mapErase m k)).Sublist (mapKeys m) := by
  induction m with
  | nil => simp [mapErase, mapKeys]
  | cons e m ih =>
    obtain ⟨k0, v0⟩ := e
    by_cases hk : k = k0
    · simp [mapErase, hk, mapKeys]
    · simp only [mapErase, if_neg hk, mapKeys, List.map_cons]
      exact List.Sublist.cons₂ _ ih

theorem mapErase_ordered {m : PidMap} (k : Int) (h : MapOrdered m) : MapOrdered (mapErase m k) :=
  List.Pairwise.sublist (mapKeys_mapErase_sublist m k) h

theorem mem_mapKeys_mapErase {m : PidMap} (k k' : Int) (h : MapOrdered m) :
    k' ∈ mapKeys (mapErase m k) ↔ k' ∈ mapKeys m ∧ k' ≠ k := by
  constructor
  · intro hk
    refine ⟨(mapKeys_mapErase_sublist m k).subset hk, ?_⟩
    rintro rfl
    exact not_mem_mapKeys_mapErase _ h hk
  · rintro ⟨hk, hne⟩
    induction m with
    | nil => simp [mapKeys] at hk
    | cons e m ih =>
      obtain ⟨k0, v0⟩ := e
      by_cases hk0 : k = k0
      · subst hk0
        simp only [mapErase, if_true]
        simp only [mapKeys, List.map_cons, List.mem_cons] at hk
        rcases hk with hk | hk
        · exact absurd hk hne
        · exact hk
      · simp only [mapErase, if_neg hk0, mapKeys, List.map_cons, List.mem_cons]
        simp only [mapKeys, List.map_cons, List.mem_cons] at hk
        rcases hk with hk | hk
        · left; exact hk
        · right; exact ih h.tail hk

theorem mem_eraseIdx_of_ne {l : List Int} {k : Int} {i : Nat} (hk : k ∈ l)
    (hi : l[i]? ≠ some k) : k ∈ l.eraseIdx i := by
  induction l generalizing i with
  | nil => simp at hk
  | cons x l ih =>
    cases i with
    | zero =>
      simp only [List.getElem?_cons_zero, ne_eq, Option.some.injEq] at hi
      simp only [List.eraseIdx_cons_zero]
      rcases List.mem_cons.mp hk with h | h
      · exact absurd h.symm hi
      · exact h
    | succ i =>
      simp only [List.getElem?_cons_succ] at hi
      simp only [List.eraseIdx_cons_succ, List.mem_cons]
      rcases List.mem_cons.mp hk with h | h
      · left; exact h
      · right; exact ih h hi

theorem getLast?_eraseIdx {l : List Int} {b c : Int} {i : Nat} (hb : l.getLast? = some b)
    (hc : l[i]? = some c) (hne : c ≠ b) : (l.eraseIdx i).getLast? = some b := by
  induction l generalizing i with
  | nil => simp at hb
  | cons x l ih =>
    cases l with
    | nil =>
      cases i with
      | zero =>
        simp at hb hc
        omega
      | succ i => simp at hc
    | cons y l =>
      have hb' : (y :: l).getLast? = some b := by simpa [List.getLast?_cons_cons] using hb
      cases i with
      | zero => simpa using hb'
      | succ i =>
        simp only [List.getElem?_cons_succ] at hc
        have := ih hb' hc
        simp only [List.eraseIdx_cons_succ]
        cases hl : (y :: l).eraseIdx i with
        | nil => rw [hl] at this; simp at this
        | cons z t => rw [hl] at this; simpa [List.getLast?_cons_cons] using this

/-! ## Lemmas on the booster lifecycle -/

theorem reapInvoker_none {d : Daemon} {pid : Int} (st : WaitStatus)
    (h : mapFind d.m_boosterPidToInvokerPid pid = none) : reapInvoker d pid st = (d, []) := by
  simp [reapInvoker, h]

theorem reapInvoker_exited {d : Daemon} {pid q f : Int} (c : Int)
    (hq : mapFind d.m_boosterPidToInvokerPid pid = some q)
    (hf : mapFind d.m_boosterPidToInvokerFd pid = some f) :
    reapInvoker d pid (.exited c)
      = ({ d with
            m_boosterPidToInvokerFd := mapErase d.m_boosterPidToInvokerFd pid
            m_boosterPidToInvokerPid := mapErase d.m_boosterPidToInvokerPid pid },
         [.write f .invokerMsgExit, .write f (.int c), .close f]) := by
  simp [reapInvoker, hq, hf]

theorem reapInvoker_signaled {d : Daemon} {pid q f : Int} (sig : Int)
    (hq : mapFind d.m_boosterPidToInvokerPid pid = some q)
    (hf : mapFind d.m_boosterPidToInvokerFd pid = some f) :
    reapInvoker d pid (.signaled sig)
      = ({ d with
            m_boosterPidToInvokerFd := mapErase d.m_boosterPidToInvokerFd pid
            m_boosterPidToInvokerPid := mapErase d.m_boosterPidToInvokerPid pid },
         .close f :: killProcess q sig) := by
  simp [reapInvoker, hq, hf]

/-- What `reapInvoker` does to the members and which calls it makes, in all cases:
the two maps lose entries at most, the other members stay, and a descriptor
written to or closed is one that the fd map held for the pid. -/
theorem reapInvoker_frame (d : Daemon) (pid : Int) (st : WaitStatus) :
    (∀ e ∈ (reapInvoker d pid st).1.m_boosterPidToInvokerPid, e ∈ d.m_boosterPidToInvokerPid)
    ∧ (∀ e ∈ (reapInvoker d pid st).1.m_boosterPidToInvokerFd, e ∈ d.m_boosterPidToInvokerFd)
    ∧ (reapInvoker d pid st).1.m_children = d.m_children
    ∧ (reapInvoker d pid st).1.m_boosterPid = d.m_boosterPid
    ∧ (reapInvoker d pid st).1.m_bootMode = d.m_bootMode
    ∧ (reapInvoker d pid st).1.m_booster = d.m_booster
    ∧ (∀ e ∈ (reapInvoker d pid st).2, ∀ fd, e.onFd fd = true →
        (pid, fd) ∈ d.m_boosterPidToInvokerFd) := by
  cases hq : mapFind d.m_boosterPidToInvokerPid pid with
  | none =>
    rw [reapInvoker_none st hq]
    simp
  | some q =>
    cases st with
    | exited c =>
      cases hf : mapFind d.m_boosterPidToInvokerFd pid with
      | none =>
        have e : reapInvoker d pid (.exited c)
            = ({ d with m_boosterPidToInvokerPid := mapErase d.m_boosterPidToInvokerPid pid },
               []) := by simp [reapInvoker, hq, hf]
        rw [e]
        refine ⟨fun e he => mem_mapErase he, fun e he => he, rfl, rfl, rfl, rfl, ?_⟩
        simp
      | some f =>
        rw [reapInvoker_exited c hq hf]
        refine ⟨fun e he => mem_mapErase he, fun e he => mem_mapErase he, rfl, rfl, rfl, rfl, ?_⟩
        intro e he fd hfd
        have hmem := mapFind_mem hf
        simp only [List.mem_cons, List.mem_singleton, List.not_mem_nil, or_false] at he
        rcases he with rfl | rfl | rfl <;>
          (simp only [Effect.onFd, decide_eq_true_eq] at hfd; rw [← hfd]; exact hmem)
    | signaled sig =>
      cases hf : mapFind d.m_boosterPidToInvokerFd pid with
      | none =>
        have e : reapInvoker d pid (.signaled sig)
            = ({ d with m_boosterPidToInvokerPid := mapErase d.m_boosterPidToInvokerPid pid },
               killProcess q sig) := by simp [reapInvoker, hq, hf]
        rw [e]
        refine ⟨fun e he => mem_mapErase he, fun e he => he, rfl, rfl, rfl, rfl, ?_⟩
        intro e he fd hfd
        unfold killProcess at he
        split_ifs at he
        · simp only [List.mem_singleton] at he
          rw [he] at hfd
          simp [Effect.onFd] at hfd
        · simp at he
      | some f =>
        rw [reapInvoker_signaled sig hq hf]
        refine ⟨fun e he => mem_mapErase he, fun e he => mem_mapErase he, rfl, rfl, rfl, rfl, ?_⟩
        intro e he fd hfd
        have hmem := mapFind_mem hf
        simp only [List.mem_cons] at he
        rcases he with rfl | he
        · simp only [Effect.onFd, decide_eq_true_eq] at hfd; rw [← hfd]; exact hmem
        · unfold killProcess at he
          split_ifs at he
          · simp only [List.mem_singleton] at he
            rw [he] at hfd
            simp [Effect.onFd] at hfd
          · simp at he
    | other =>
      have e : reapInvoker d pid .other
          = ({ d with m_boosterPidToInvokerPid := mapErase d.m_boosterPidToInvokerPid pid },
             []) := by simp [reapInvoker, hq]
      rw [e]
      refine ⟨fun e he => mem_mapErase he, fun e he => he, rfl, rfl, rfl, rfl, ?_⟩
      simp

/-- The parent's side of `forkBooster`: with a booster object and a `fork()` that
returned the pid of a new child, the pid is appended to the children and
becomes the current booster pid; nothing else changes. -/
theorem forkBooster_parent (d : Daemon) (sleepTime newPid : Int) (hb : d.m_booster = true)
    (h1 : newPid ≠ -1) (h0 : newPid ≠ 0) :
    forkBooster d sleepTime newPid
      = { effects := [.fork newPid (forkBoosterChild { d with m_boosterPid := 0 } sleepTime)]
          result := .returned
            { d with m_children := d.m_children ++ [newPid], m_boosterPid := newPid } } := by
  simp [forkBooster, hb, h1, h0]

/-- Whenever `forkBooster` returns, it has made one call, the `fork()`, and has
changed the children and the current booster pid only. -/
theorem forkBooster_returned {d d' : Daemon} {sleepTime newPid : Int}
    (h : (forkBooster d sleepTime newPid).result = .returned d') :
    d' = { d with m_children := d.m_children ++ [newPid], m_boosterPid := newPid }
    ∧ (forkBooster d sleepTime newPid).effects
        = [.fork newPid (forkBoosterChild { d with m_boosterPid := 0 } sleepTime)] := by
  unfold forkBooster at h ⊢
  by_cases hb : d.m_booster = true
  · by_cases h1 : newPid = -1
    · simp [hb, h1] at h
    · by_cases h0 : newPid = 0
      · simp [hb, h0] at h
      · simp only [hb, h1, h0, Bool.not_true, Bool.false_eq_true, if_false,
          Result.returned.injEq] at h ⊢
        exact ⟨h.symm, trivial⟩
  · simp [hb] at h

theorem Outcome.after_result (es : List Effect) (o : Outcome) :
    (o.after es).result = o.result := rfl

theorem Outcome.after_effects (es : List Effect) (o : Outcome) :
    (o.after es).effects = es ++ o.effects := rfl

/-- Induction over the loop of `reapZombies`: a property `P` of the members that
passes through the handling of a reaped pid and through a returning
`forkBooster`, and a property `Q` that holds of every call made there, hold of
the result of the loop and of all its calls. -/
theorem reapLoop_induct (P : Daemon → Prop) (Q : Effect → Prop)
    (hErase : ∀ d i, P d → P { d with m_children := d.m_children.eraseIdx i })
    (hInv : ∀ d pid st, P d →
      P (reapInvoker d pid st).1 ∧ ∀ e ∈ (reapInvoker d pid st).2, Q e)
    (hFork : ∀ d s newPid, P d →
      (∀ e ∈ (forkBooster d s newPid).effects, Q e)
      ∧ ∀ d', (forkBooster d s newPid).result = .returned d' → P d') :
    ∀ (waits : List WaitResult) (forks : List Int) (i : Nat) (d : Daemon) (o : Outcome),
      P d → reapLoop waits forks i d = some o →
      (∀ e ∈ o.effects, Q e) ∧ ∀ d', o.result = .returned d' → P d' := by
  intro waits
  induction waits with
  | nil =>
    intro forks i d o hP h
    rw [reapLoop] at h
    split_ifs at h
    simp only [Option.some.injEq] at h
    subst h
    exact ⟨by simp, fun d' hd' => by cases hd'; exact hP⟩
  | cons w waits ih =>
    intro forks i d o hP h
    rw [reapLoop] at h
    by_cases hi : i < d.m_children.length
    · rw [if_pos hi] at h
      by_cases hp : w.pid ≠ 0
      · simp only [hp, ne_eq, not_false_eq_true, if_true] at h
        have hP1 := hErase d i hP
        obtain ⟨hP2, hQ2⟩ := hInv { d with m_children := d.m_children.eraseIdx i }
          w.pid w.status hP1
        generalize reapInvoker { d with m_children := d.m_children.eraseIdx i }
          w.pid w.status = r at h hP2 hQ2
        by_cases hb : w.pid = r.1.m_boosterPid
        · rw [if_pos hb] at h
          cases forks with
          | nil => simp at h
          | cons newPid forks =>
            simp only [Option.map_eq_some'] at h
            obtain ⟨o1, ho1, rfl⟩ := h
            obtain ⟨hQ3, hP3⟩ := hFork r.1 m_boosterSleepTime newPid hP2
            unfold Outcome.andThen at ho1
            cases hres : (forkBooster r.1 m_boosterSleepTime newPid).result with
            | returned d2 =>
              rw [hres] at ho1
              simp only [Option.map_eq_some'] at ho1
              obtain ⟨o2, ho2, rfl⟩ := ho1
              obtain ⟨hQ4, hP4⟩ := ih forks i d2 o2 (hP3 d2 hres) ho2
              refine ⟨?_, fun d' hd' => hP4 d' hd'⟩
              intro e he
              simp only [Outcome.after_effects, List.mem_append] at he
              rcases he with he | he | he
              · exact hQ2 e he
              · exact hQ3 e he
              · exact hQ4 e he
            | exited st =>
              rw [hres] at ho1
              simp only [Option.some.injEq] at ho1
              subst ho1
              refine ⟨?_, fun d' hd' => ?_⟩
              · intro e he
                simp only [Outcome.after_effects, List.mem_append] at he
                rcases he with he | he
                · exact hQ2 e he
                · exact hQ3 e he
              · rw [Outcome.after_result, hres] at hd'; cases hd'
            | threw msg =>
              rw [hres] at ho1
              simp only [Option.some.injEq] at ho1
              subst ho1
              refine ⟨?_, fun d' hd' => ?_⟩
              · intro e he
                simp only [Outcome.after_effects, List.mem_append] at he
                rcases he with he | he
                · exact hQ2 e he
                · exact hQ3 e he
              · rw [Outcome.after_result, hres] at hd'; cases hd'
            | booster ch =>
              rw [hres] at ho1
              simp only [Option.some.injEq] at ho1
              subst ho1
              refine ⟨?_, fun d' hd' => ?_⟩
              · intro e he
                simp only [Outcome.after_effects, List.mem_append] at he
                rcases he with he | he
                · exact hQ2 e he
                · exact hQ3 e he
              · rw [Outcome.after_result, hres] at hd'; cases hd'
        · rw [if_neg hb] at h
          simp only [Option.map_eq_some'] at h
          obtain ⟨o1, ho1, rfl⟩ := h
          obtain ⟨hQ4, hP4⟩ := ih forks i r.1 o1 hP2 ho1
          refine ⟨?_, fun d' hd' => hP4 d' hd'⟩
          intro e he
          simp only [Outcome.after_effects, List.mem_append] at he
          rcases he with he | he
          · exact hQ2 e he
          · exact hQ4 e he
      · have hp' : w.pid = 0 := by simpa using hp
        simp only [hp', ne_eq, not_true_eq_false, if_false] at h
        exact ih forks (i + 1) d o hP h
    · rw [if_neg hi] at h
      simp only [Option.some.injEq] at h
      subst h
      exact ⟨by simp, fun d' hd' => by cases hd'; exact hP⟩

theorem forkBooster_effects (d : Daemon) (sleepTime newPid : Int) :
    ∀ e ∈ (forkBooster d sleepTime newPid).effects, ∃ n ch, e = .fork n ch := by
  intro e he
  unfold forkBooster at he
  split_ifs at he
  · simp at he
  · simp at he
  · simp at he
  · simp only [List.mem_singleton] at he
    exact ⟨_, _, he⟩

/-- The pass of the loop that handles a reaped pid: its calls come first, and what
the rest of the loop does is subject to `reapLoop_induct`. -/
theorem reapLoop_first (P : Daemon → Prop) (Q : Effect → Prop)
    (hErase : ∀ d i, P d → P { d with m_children := d.m_children.eraseIdx i })
    (hInv : ∀ d pid st, P d →
      P (reapInvoker d pid st).1 ∧ ∀ e ∈ (reapInvoker d pid st).2, Q e)
    (hFork : ∀ d s newPid, P d →
      (∀ e ∈ (forkBooster d s newPid).effects, Q e)
      ∧ ∀ d', (forkBooster d s newPid).result = .returned d' → P d')
    {w : WaitResult} {waits : List WaitResult} {forks : List Int} {i : Nat} {d : Daemon}
    {o : Outcome} (hi : i < d.m_children.length) (hp : w.pid ≠ 0)
    (h : reapLoop (w :: waits) forks i d = some o)
    (hP : P (reapInvoker { d with m_children := d.m_children.eraseIdx i } w.pid w.status).1) :
    ∃ rest,
      o.effects
        = (reapInvoker { d with m_children := d.m_children.eraseIdx i } w.pid w.status).2
          ++ rest
      ∧ (∀ e ∈ rest, Q e) ∧ ∀ d', o.result = .returned d' → P d' := by
  rw [reapLoop, if_pos hi] at h
  simp only [hp, ne_eq, not_false_eq_true, if_true] at h
  generalize reapInvoker { d with m_children := d.m_children.eraseIdx i }
    w.pid w.status = r at h hP
  by_cases hb : w.pid = r.1.m_boosterPid
  · rw [if_pos hb] at h
    cases forks with
    | nil => simp at h
    | cons newPid forks =>
      simp only [Option.map_eq_some'] at h
      obtain ⟨o1, ho1, rfl⟩ := h
      obtain ⟨hQ3, hP3⟩ := hFork r.1 m_boosterSleepTime newPid hP
      unfold Outcome.andThen at ho1
      cases hres : (forkBooster r.1 m_boosterSleepTime newPid).result with
      | returned d2 =>
        rw [hres] at ho1
        simp only [Option.map_eq_some'] at ho1
        obtain ⟨o2, ho2, rfl⟩ := ho1
        obtain ⟨hQ4, hP4⟩ := reapLoop_induct P Q hErase hInv hFork waits forks i d2 o2
          (hP3 d2 hres) ho2
        refine ⟨(forkBooster r.1 m_boosterSleepTime newPid).effects ++ o2.effects, rfl, ?_,
          fun d' hd' => hP4 d' hd'⟩
        intro e he
        rcases List.mem_append.mp he with he | he
        · exact hQ3 e he
        · exact hQ4 e he
      | exited st =>
        rw [hres] at ho1
        simp only [Option.some.injEq] at ho1
        subst ho1
        refine ⟨(forkBooster r.1 m_boosterSleepTime newPid).effects, rfl, hQ3,
          fun d' hd' => ?_⟩
        rw [Outcome.after_result, hres] at hd'; cases hd'
      | threw msg =>
        rw [hres] at ho1
        simp only [Option.some.injEq] at ho1
        subst ho1
        refine ⟨(forkBooster r.1 m_boosterSleepTime newPid).effects, rfl, hQ3,
          fun d' hd' => ?_⟩
        rw [Outcome.after_result, hres] at hd'; cases hd'
      | booster ch =>
        rw [hres] at ho1
        simp only [Option.some.injEq] at ho1
        subst ho1
        refine ⟨(forkBooster r.1 m_boosterSleepTime newPid).effects, rfl, hQ3,
          fun d' hd' => ?_⟩
        rw [Outcome.after_result, hres] at hd'; cases hd'
  · rw [if_neg hb] at h
    simp only [Option.map_eq_some'] at h
    obtain ⟨o1, ho1, rfl⟩ := h
    obtain ⟨hQ4, hP4⟩ := reapLoop_induct P Q hErase hInv hFork waits forks i r.1 o1 hP ho1
    exact ⟨o1.effects, rfl, hQ4, fun d' hd' => hP4 d' hd'⟩

theorem dropped_erase (U : Prop) (p f : Int) (d : Daemon) (i : Nat) (h : Dropped U p f d) :
    Dropped U p f { d with m_children := d.m_children.eraseIdx i } := h

theorem dropped_reapInvoker (U : Prop) (p f : Int) (d : Daemon) (pid : Int) (st : WaitStatus)
    (h : Dropped U p f d) :
    Dropped U p f (reapInvoker d pid st).1
    ∧ ∀ e ∈ (reapInvoker d pid st).2, U → e.onFd f = false := by
  obtain ⟨hpm, hfm, _, _, _, _, heff⟩ := reapInvoker_frame d pid st
  refine ⟨⟨⟨not_mem_mapKeys_of_subset hpm h.1.1, not_mem_mapKeys_of_subset hfm h.1.2⟩,
    fun hU e he => h.2 hU e (hfm e he)⟩, ?_⟩
  intro e he hU
  cases hon : e.onFd f with
  | false => rfl
  | true => exact absurd rfl (h.2 hU _ (heff e he f hon))

theorem dropped_forkBooster (U : Prop) (p f : Int) (d : Daemon) (s newPid : Int)
    (h : Dropped U p f d) :
    (∀ e ∈ (forkBooster d s newPid).effects, U → e.onFd f = false)
    ∧ ∀ d', (forkBooster d s newPid).result = .returned d' → Dropped U p f d' := by
  refine ⟨?_, ?_⟩
  · intro e he _
    obtain ⟨n, ch, rfl⟩ := forkBooster_effects d s newPid e he
    rfl
  · intro d' hd'
    rw [(forkBooster_returned hd').1]
    exact h

/-- In a `std::map` whose descriptor `f` belongs to the pid `p` alone, the entries
left by erasing `p` miss both the key `p` and the descriptor `f`. -/
theorem dropped_of_erased (p f : Int) (d : Daemon)
    (ho1 : MapOrdered d.m_boosterPidToInvokerPid) (ho2 : MapOrdered d.m_boosterPidToInvokerFd) :
    Dropped (∀ e ∈ d.m_boosterPidToInvokerFd, e.2 = f → e.1 = p) p f
      { d with
        m_boosterPidToInvokerFd := mapErase d.m_boosterPidToInvokerFd p
        m_boosterPidToInvokerPid := mapErase d.m_boosterPidToInvokerPid p } := by
  refine ⟨⟨not_mem_mapKeys_mapErase p ho1, not_mem_mapKeys_mapErase p ho2⟩, ?_⟩
  intro hU e he hef
  exact key_ne_of_mem_mapErase ho2 he (hU e (mem_mapErase he) hef)

theorem filter_onFd_nil {f : Int} {es : List Effect} (h : ∀ e ∈ es, e.onFd f = false) :
    es.filter (Effect.onFd f) = [] := by
  rw [List.filter_eq_nil_iff]
  intro e he
  simp [h e he]

theorem sleptSeconds_append (xs ys : List ChildEffect) :
    sleptSeconds (xs ++ ys) = sleptSeconds xs + sleptSeconds ys := by
  induction xs with
  | nil => simp [sleptSeconds]
  | cons x xs ih =>
    cases x <;> simp [sleptSeconds, ih]
    omega

theorem sleptSeconds_closes (l : List (Int × Int)) :
    sleptSeconds (l.map fun e => ChildEffect.close e.2) = 0 := by
  induction l with
  | nil => rfl
  | cons x xs ih => simpa [sleptSeconds] using ih

theorem sleptSeconds_forkBoosterChild (d : Daemon) (sleepTime : Int) :
    sleptSeconds (forkBoosterChild d sleepTime)
      = if d.m_bootMode then 0 else toUnsigned sleepTime := by
  unfold forkBoosterChild
  simp only [sleptSeconds_append, sleptSeconds_closes]
  cases hm : d.m_bootMode
  · by_cases hs : sleepTime = 0
    · subst hs
      simp [sleptSeconds, toUnsigned]
    · simp [sleptSeconds, hs]
  · simp [sleptSeconds]

/-! ### Invariants of the lifecycle -/

/-- In all cases `reapInvoker` leaves the pid map without the entry of the pid. -/
theorem reapInvoker_pidMap (d : Daemon) (pid : Int) (st : WaitStatus) :
    (reapInvoker d pid st).1.m_boosterPidToInvokerPid
      = mapErase d.m_boosterPidToInvokerPid pid := by
  cases hq : mapFind d.m_boosterPidToInvokerPid pid with
  | none =>
    rw [reapInvoker_none st hq, mapErase_of_not_mem ((mapFind_eq_none_iff _ _).mp hq)]
  | some q =>
    cases st with
    | exited c =>
      cases hf : mapFind d.m_boosterPidToInvokerFd pid <;> simp [reapInvoker, hq, hf]
    | signaled sig =>
      cases hf : mapFind d.m_boosterPidToInvokerFd pid <;> simp [reapInvoker, hq, hf]
    | other => simp [reapInvoker, hq]

/-- For a pid with an entry in the pid map and a status that is exited or
signaled, `reapInvoker` leaves the fd map without the entry of the pid; for a
pid without an entry in the pid map it leaves the fd map alone. -/
theorem reapInvoker_fdMap (d : Daemon) (pid : Int) (st : WaitStatus) (hst : st ≠ .other) :
    (reapInvoker d pid st).1.m_boosterPidToInvokerFd
      = if mapFind d.m_boosterPidToInvokerPid pid = none then d.m_boosterPidToInvokerFd
        else mapErase d.m_boosterPidToInvokerFd pid := by
  cases hq : mapFind d.m_boosterPidToInvokerPid pid with
  | none => rw [reapInvoker_none st hq]; simp
  | some q =>
    cases st with
    | exited c =>
      cases hf : mapFind d.m_boosterPidToInvokerFd pid with
      | none =>
        simp [reapInvoker, hq, hf, mapErase_of_not_mem ((mapFind_eq_none_iff _ _).mp hf)]
      | some f => simp [reapInvoker, hq, hf]
    | signaled sig =>
      cases hf : mapFind d.m_boosterPidToInvokerFd pid with
      | none =>
        simp [reapInvoker, hq, hf, mapErase_of_not_mem ((mapFind_eq_none_iff _ _).mp hf)]
      | some f => simp [reapInvoker, hq, hf]
    | other => exact absurd rfl hst

/-- Induction over the loop of `reapZombies` for a property `P` of the members, where
every `waitpid` result is known to satisfy `W`. -/
theorem reapLoop_induct_waits (P : Daemon → Prop) (W : WaitResult → Prop)
    (hErase : ∀ d i, P d → P { d with m_children := d.m_children.eraseIdx i })
    (hInv : ∀ d w, W w → w.pid ≠ 0 → P d → P (reapInvoker d w.pid w.status).1)
    (hFork : ∀ d s newPid d', P d → (forkBooster d s newPid).result = .returned d' → P d') :
    ∀ (waits : List WaitResult) (forks : List Int) (i : Nat) (d : Daemon) (o : Outcome)
      (d' : Daemon), (∀ w ∈ waits, W w) → P d → reapLoop waits forks i d = some o →
      o.result = .returned d' → P d' := by
  intro waits
  induction waits with
  | nil =>
    intro forks i d o d' _ hP h hd'
    rw [reapLoop] at h
    split_ifs at h
    simp only [Option.some.injEq] at h
    subst h
    cases hd'
    exact hP
  | cons w waits ih =>
    intro forks i d o d' hW hP h hd'
    have hWw : W w := hW w (List.mem_cons_self _ _)
    have hWs : ∀ x ∈ waits, W x := fun x hx => hW x (List.mem_cons_of_mem _ hx)
    rw [reapLoop] at h
    by_cases hi : i < d.m_children.length
    · rw [if_pos hi] at h
      by_cases hp : w.pid ≠ 0
      · simp only [hp, ne_eq, not_false_eq_true, if_true] at h
        have hP2 := hInv { d with m_children := d.m_children.eraseIdx i } w hWw hp
          (hErase d i hP)
        generalize reapInvoker { d with m_children := d.m_children.eraseIdx i }
          w.pid w.status = r at h hP2
        by_cases hb : w.pid = r.1.m_boosterPid
        · rw [if_pos hb] at h
          cases forks with
          | nil => simp at h
          | cons newPid forks =>
            simp only [Option.map_eq_some'] at h
            obtain ⟨o1, ho1, rfl⟩ := h
            rw [Outcome.after_result] at hd'
            unfold Outcome.andThen at ho1
            cases hres : (forkBooster r.1 m_boosterSleepTime newPid).result with
            | returned d2 =>
              rw [hres] at ho1
              simp only [Option.map_eq_some'] at ho1
              obtain ⟨o2, ho2, rfl⟩ := ho1
              rw [Outcome.after_result] at hd'
              exact ih forks i d2 o2 d' hWs (hFork r.1 _ newPid d2 hP2 hres) ho2 hd'
            | exited st =>
              rw [hres] at ho1
              simp only [Option.some.injEq] at ho1
              subst ho1
              rw [hres] at hd'; cases hd'
            | threw msg =>
              rw [hres] at ho1
              simp only [Option.some.injEq] at ho1
              subst ho1
              rw [hres] at hd'; cases hd'
            | booster ch =>
              rw [hres] at ho1
              simp only [Option.some.injEq] at ho1
              subst ho1
              rw [hres] at hd'; cases hd'
        · rw [if_neg hb] at h
          simp only [Option.map_eq_some'] at h
          obtain ⟨o1, ho1, rfl⟩ := h
          rw [Outcome.after_result] at hd'
          exact ih forks i r.1 o1 d' hWs hP2 ho1 hd'
      · have hp' : w.pid = 0 := by simpa using hp
        simp only [hp', ne_eq, not_true_eq_false, if_false] at h
        exact ih forks (i + 1) d o d' hWs hP h hd'
    · rw [if_neg hi] at h
      simp only [Option.some.injEq] at h
      subst h
      cases hd'
      exact hP

/-- The last element of a list is a member of it. -/
theorem mem_of_getLast? {l : List Int} {b : Int} (h : l.getLast? = some b) : b ∈ l := by
  rw [List.getLast?_eq_some_iff] at h
  obtain ⟨ys, rfl⟩ := h
  simp

/-- One pass of the loop of `reapZombies` in which `waitpid` returned the pid `c` of the child
it was called for, and `c` is not the current booster: erasing `c` from the
children and its entry from the pid map keeps the invariants. -/
theorem lifecycleInv_reap {d : Daemon} {i : Nat} {c : Int} (st : WaitStatus)
    (h : LifecycleInv d) (hc : d.m_children[i]? = some c) (hne : c ≠ d.m_boosterPid) :
    LifecycleInv
      (reapInvoker { d with m_children := d.m_children.eraseIdx i } c st).1 := by
  obtain ⟨ho, hk, hb⟩ := h
  have hfr := reapInvoker_frame { d with m_children := d.m_children.eraseIdx i } c st
  have hpm := reapInvoker_pidMap { d with m_children := d.m_children.eraseIdx i } c st
  refine ⟨?_, ?_, ?_⟩
  · rw [hpm]; exact mapErase_ordered c ho
  · intro k hkm
    rw [hpm] at hkm
    have hk2 := (mem_mapKeys_mapErase c k ho).mp hkm
    rw [hfr.2.2.1]
    exact mem_eraseIdx_of_ne (hk k hk2.1) (by rw [hc]; intro e; cases e; exact hk2.2 rfl)
  · unfold BoosterCurrent
    rw [hfr.2.2.1, hfr.2.2.2.1]
    rcases hb with hb | hb
    · exact Or.inl hb
    · exact Or.inr (getLast?_eraseIdx hb hc hne)

/-- When `forkBooster` returns in the parent, the invariants hold again: the new pid is
the last child and the current booster pid. -/
theorem lifecycleInv_forkBooster {d d' : Daemon} {s newPid : Int} (h : LifecycleInv d)
    (hres : (forkBooster d s newPid).result = .returned d') : LifecycleInv d' := by
  obtain ⟨ho, hk, _⟩ := h
  rw [(forkBooster_returned hres).1]
  refine ⟨ho, ?_, ?_⟩
  · intro k hkm
    exact List.mem_append_left _ (hk k hkm)
  · exact Or.inr (by simp)

/-- One pass of the loop of `reapZombies` in which `waitpid` returned the pid `c` of the child
it was called for and `forkBooster` was run and returned: the invariants hold after
it. -/
theorem lifecycleInv_reap_fork {d d2 : Daemon} {i : Nat} {c s newPid : Int} (st : WaitStatus)
    (h : LifecycleInv d) (hc : d.m_children[i]? = some c)
    (hres : (forkBooster (reapInvoker { d with m_children := d.m_children.eraseIdx i } c st).1
      s newPid).result = .returned d2) :
    LifecycleInv d2 := by
  obtain ⟨ho, hk, hb⟩ := h
  have hfr := reapInvoker_frame { d with m_children := d.m_children.eraseIdx i } c st
  have hpm := reapInvoker_pidMap { d with m_children := d.m_children.eraseIdx i } c st
  rw [(forkBooster_returned hres).1]
  refine ⟨?_, ?_, ?_⟩
  · show MapOrdered (reapInvoker _ c st).1.m_boosterPidToInvokerPid
    rw [hpm]; exact mapErase_ordered c ho
  · intro k hkm
    change k ∈ mapKeys (reapInvoker _ c st).1.m_boosterPidToInvokerPid at hkm
    rw [hpm] at hkm
    have hk2 := (mem_mapKeys_mapErase c k ho).mp hkm
    show k ∈ (reapInvoker _ c st).1.m_children ++ [newPid]
    rw [hfr.2.2.1]
    exact List.mem_append_left _
      (mem_eraseIdx_of_ne (hk k hk2.1) (by rw [hc]; intro e; cases e; exact hk2.2 rfl))
  · exact Or.inr (by simp)

/-- When `readFromBoosterSocket` returns, the invariants hold again: the key it inserts is the
current booster pid, which is a child. -/
theorem lifecycleInv_readFromBoosterSocket {d d' : Daemon} {msg : Option Datagram}
    {newPid : Int} (h : LifecycleInv d)
    (hres : (readFromBoosterSocket d msg newPid).result = .returned d') : LifecycleInv d' := by
  cases msg with
  | none => simp [readFromBoosterSocket] at hres
  | some m =>
    unfold readFromBoosterSocket at hres
    simp only at hres
    refine lifecycleInv_forkBooster ?_ hres
    by_cases h1 : m.invokerPid ≠ 0
    · by_cases h2 : d.m_boosterPid ≠ 0
      · rw [if_pos h1, if_pos h2]
        obtain ⟨ho, hk, hb⟩ := h
        refine ⟨mapSet_ordered _ _ ho, ?_, hb⟩
        intro k hkm
        rcases (mem_mapKeys_mapSet _ _ _ _).mp hkm with rfl | hkm
        · rcases hb with hb | hb
          · exact absurd hb h2
          · exact mem_of_getLast? hb
        · exact hk k hkm
      · rw [if_pos h1, if_neg h2]; exact h
    · rw [if_neg h1]; exact h

/-- The loop of `reapZombies` keeps the invariants in every run in which no `waitpid` call
failed. -/
theorem lifecycleInv_reapLoop : ∀ (waits : List WaitResult) (forks : List Int) (i : Nat)
    (d : Daemon) (o : Outcome) (d' : Daemon), WaitsReport waits forks i d → LifecycleInv d →
    reapLoop waits forks i d = some o → o.result = .returned d' → LifecycleInv d' := by
  intro waits
  induction waits with
  | nil =>
    intro forks i d o d' _ hP h hd'
    rw [reapLoop] at h
    split_ifs at h
    simp only [Option.some.injEq] at h
    subst h
    cases hd'
    exact hP
  | cons w waits ih =>
    intro forks i d o d' hW hP h hd'
    rw [reapLoop] at h
    rw [WaitsReport] at hW
    by_cases hi : i < d.m_children.length
    · rw [if_pos hi] at h hW
      obtain ⟨hw, hW⟩ := hW
      by_cases hp : w.pid ≠ 0
      · simp only [hp, ne_eq, not_false_eq_true, if_true] at h hW
        have hc : d.m_children[i]? = some w.pid := hw.resolve_left hp
        by_cases hb : w.pid
            = (reapInvoker { d with m_children := d.m_children.eraseIdx i }
                w.pid w.status).1.m_boosterPid
        · rw [if_pos hb] at h hW
          cases forks with
          | nil => simp at h
          | cons newPid forks =>
            simp only [Option.map_eq_some'] at h
            obtain ⟨o1, ho1, rfl⟩ := h
            rw [Outcome.after_result] at hd'
            unfold Outcome.andThen at ho1
            cases hres : (forkBooster (reapInvoker
                { d with m_children := d.m_children.eraseIdx i } w.pid w.status).1
                m_boosterSleepTime newPid).result with
            | returned d2 =>
              rw [hres] at ho1
              simp only [hres] at hW
              simp only [Option.map_eq_some'] at ho1
              obtain ⟨o2, ho2, rfl⟩ := ho1
              rw [Outcome.after_result] at hd'
              exact ih forks i d2 o2 d' hW (lifecycleInv_reap_fork w.status hP hc hres) ho2 hd'
            | exited st =>
              rw [hres] at ho1
              simp only [Option.some.injEq] at ho1
              subst ho1
              rw [hres] at hd'; cases hd'
            | threw msg =>
              rw [hres] at ho1
              simp only [Option.some.injEq] at ho1
              subst ho1
              rw [hres] at hd'; cases hd'
            | booster ch =>
              rw [hres] at ho1
              simp only [Option.some.injEq] at ho1
              subst ho1
              rw [hres] at hd'; cases hd'
        · rw [if_neg hb] at h hW
          simp only [Option.map_eq_some'] at h
          obtain ⟨o1, ho1, rfl⟩ := h
          rw [Outcome.after_result] at hd'
          have hne : w.pid ≠ d.m_boosterPid := by
            rw [(reapInvoker_frame _ _ _).2.2.2.1] at hb
            exact hb
          exact ih forks i _ o1 d' hW (lifecycleInv_reap w.status hP hc hne) ho1 hd'
      · have hp' : w.pid = 0 := by simpa using hp
        simp only [hp', ne_eq, not_true_eq_false, if_false] at h hW
        exact ih forks (i + 1) d o d' hW hP h hd'
    · rw [if_neg hi] at h
      simp only [Option.some.injEq] at h
      subst h
      cases hd'
      exact hP

/-- For a status that is exited or signaled, `reapInvoker` erases the entries of the pid from
both maps or from neither. -/
theorem sameKeys_reapInvoker (d : Daemon) (w : WaitResult)
    (hw : w.pid ≠ 0 → w.status ≠ .other) (hp : w.pid ≠ 0)
    (h : MapOrdered d.m_boosterPidToInvokerPid ∧ MapOrdered d.m_boosterPidToInvokerFd
      ∧ SameKeys d) :
    MapOrdered (reapInvoker d w.pid w.status).1.m_boosterPidToInvokerPid
    ∧ MapOrdered (reapInvoker d w.pid w.status).1.m_boosterPidToInvokerFd
    ∧ SameKeys (reapInvoker d w.pid w.status).1 := by
  obtain ⟨ho1, ho2, hs⟩ := h
  have hpm := reapInvoker_pidMap d w.pid w.status
  have hfm := reapInvoker_fdMap d w.pid w.status (hw hp)
  unfold SameKeys
  rw [hpm, hfm]
  by_cases hq : mapFind d.m_boosterPidToInvokerPid w.pid = none
  · rw [if_pos hq, mapErase_of_not_mem ((mapFind_eq_none_iff _ _).mp hq)]
    exact ⟨ho1, ho2, hs⟩
  · rw [if_neg hq]
    refine ⟨mapErase_ordered _ ho1, mapErase_ordered _ ho2, ?_⟩
    intro k
    rw [mem_mapKeys_mapErase _ _ ho1, mem_mapKeys_mapErase _ _ ho2, hs k]

/-- When `forkBooster` returns, both maps are as before. -/
theorem sameKeys_forkBooster (d : Daemon) (s newPid : Int) (d' : Daemon)
    (h : MapOrdered d.m_boosterPidToInvokerPid ∧ MapOrdered d.m_boosterPidToInvokerFd
      ∧ SameKeys d)
    (hres : (forkBooster d s newPid).result = .returned d') :
    MapOrdered d'.m_boosterPidToInvokerPid ∧ MapOrdered d'.m_boosterPidToInvokerFd
      ∧ SameKeys d' := by
  rw [(forkBooster_returned hres).1]
  exact h

/-! ### The records of a state file in another order -/

theorem mapFind_mapSet (m : PidMap) (k v k' : Int) :
    mapFind (mapSet m k v) k' = if k' = k then some v else mapFind m k' := by
  induction m with
  | nil => simp [mapSet, mapFind]
  | cons e m ih =>
    obtain ⟨k0, v0⟩ := e
    unfold mapSet
    by_cases h1 : k < k0
    · rw [if_pos h1]
      by_cases hk : k' = k
      · simp [mapFind, hk]
      · simp [mapFind, hk]
    · rw [if_neg h1]
      by_cases h2 : k = k0
      · rw [if_pos h2]
        subst h2
        by_cases hk : k' = k
        · simp [mapFind, hk]
        · simp [mapFind, hk]
      · rw [if_neg h2]
        by_cases hk : k' = k
        · subst hk
          simp [mapFind, h2, ih]
        · by_cases hk0 : k' = k0
          · simp [mapFind, hk0, Ne.symm h2]
          · simp [mapFind, hk0, hk, ih]

theorem find?_hashSet (m : List (String × Int)) (n : String) (f : Int) (name : String) :
    ((hashSet m n f).find? (fun e => e.1 = name)).map Prod.snd
      = if name = n then some f else (m.find? (fun e => e.1 = name)).map Prod.snd := by
  induction m with
  | nil =>
    by_cases hk : name = n
    · simp [hashSet, hk]
    · simp [hashSet, hk, Ne.symm hk]
  | cons e m ih =>
    obtain ⟨n0, f0⟩ := e
    unfold hashSet
    by_cases h2 : n = n0
    · rw [if_pos h2]
      subst h2
      by_cases hk : name = n
      · simp [hk]
      · simp [hk, Ne.symm hk]
    · rw [if_neg h2]
      by_cases hk0 : n0 = name
      · subst hk0
        simp [Ne.symm h2]
      · simp only [List.find?_cons, hk0, decide_False]
        exact ih

theorem findSocket_addMapping (sm : SocketManager) (n : String) (f : Int) (name : String) :
    (sm.addMapping n f).findSocket name
      = if name = n then some f else sm.findSocket name :=
  find?_hashSet sm.m_socketHash n f name

theorem mapOrdered_ext : ∀ (m1 m2 : PidMap), MapOrdered m1 → MapOrdered m2 →
    (∀ k, mapFind m1 k = mapFind m2 k) → m1 = m2 := by
  intro m1
  induction m1 with
  | nil =>
    intro m2 _ _ h
    cases m2 with
    | nil => rfl
    | cons e m2 =>
      have := h e.1
      simp [mapFind] at this
  | cons e1 t1 ih =>
    intro m2 h1 h2 h
    cases m2 with
    | nil =>
      have := h e1.1
      simp [mapFind] at this
    | cons e2 t2 =>
      obtain ⟨a, x⟩ := e1
      obtain ⟨b, y⟩ := e2
      have hlt1 : ∀ e ∈ t1, a < e.1 := fun e he => MapOrdered.head_lt h1 he
      have hlt2 : ∀ e ∈ t2, b < e.1 := fun e he => MapOrdered.head_lt h2 he
      have hab : a = b := by
        by_contra hne
        have ha := h a
        have hb := h b
        simp only [mapFind, if_true, if_neg hne, if_neg (Ne.symm hne)] at ha hb
        have ha' := hlt2 _ (mapFind_mem ha.symm)
        have hb' := hlt1 _ (mapFind_mem hb)
        simp only at ha' hb'
        omega
      subst hab
      have hxy : x = y := by
        have ha := h a
        simpa [mapFind] using ha
      subst hxy
      have hn1 : mapFind t1 a = none := by
        rw [mapFind_eq_none_iff]
        intro hm
        obtain ⟨e, he, hea⟩ := List.mem_map.mp hm
        have := hlt1 e he
        omega
      have hn2 : mapFind t2 a = none := by
        rw [mapFind_eq_none_iff]
        intro hm
        obtain ⟨e, he, hea⟩ := List.mem_map.mp hm
        have := hlt2 e he
        omega
      have ht : t1 = t2 := by
        apply ih t2 (MapOrdered.tail h1) (MapOrdered.tail h2)
        intro k
        by_cases hk : k = a
        · rw [hk, hn1, hn2]
        · have hk' := h k
          simpa [mapFind, hk] using hk'
      rw [ht]

theorem SameContent.refl (d : Daemon) : SameContent d d :=
  ⟨rfl, rfl, rfl, rfl, List.Perm.refl _, fun _ => rfl, fun _ => rfl, rfl, rfl, fun _ => rfl,
    rfl, rfl, rfl⟩

theorem SameContent.trans {a b c : Daemon} (h1 : SameContent a b) (h2 : SameContent b c) :
    SameContent a c := by
  obtain ⟨a1, a2, a3, a4, a5, a6, a7, a8, a9, a10, a11, a12, a13⟩ := h1
  obtain ⟨b1, b2, b3, b4, b5, b6, b7, b8, b9, b10, b11, b12, b13⟩ := h2
  exact ⟨a1.trans b1, a2.trans b2, a3.trans b3, a4.trans b4, a5.trans b5,
    fun k => (a6 k).trans (b6 k), fun k => (a7 k).trans (b7 k), a8.trans b8, a9.trans b9,
    fun n => (a10 n).trans (b10 n), a11.trans b11, a12.trans b12, a13.trans b13⟩

theorem SameContent.apply {d d' : Daemon} (r : Record) (h : SameContent d d') :
    SameContent (Record.apply d r) (Record.apply d' r) := by
  obtain ⟨a1, a2, a3, a4, a5, a6, a7, a8, a9, a10, a11, a12, a13⟩ := h
  cases r with
  | debugMode b => exact ⟨a1, rfl, a3, a4, a5, a6, a7, a8, a9, a10, a11, a12, a13⟩
  | child pid =>
    exact ⟨a1, a2, a3, a4, List.Perm.append_right _ a5, a6, a7, a8, a9, a10, a11, a12, a13⟩
  | boosterInvokerPid a b =>
    refine ⟨a1, a2, a3, a4, a5, ?_, a7, a8, a9, a10, a11, a12, a13⟩
    intro k
    show mapFind (mapSet _ a b) k = mapFind (mapSet _ a b) k
    rw [mapFind_mapSet, mapFind_mapSet, a6 k]
  | boosterInvokerFd a b =>
    refine ⟨a1, a2, a3, a4, a5, a6, ?_, a8, a9, a10, a11, a12, a13⟩
    intro k
    show mapFind (mapSet _ a b) k = mapFind (mapSet _ a b) k
    rw [mapFind_mapSet, mapFind_mapSet, a7 k]
  | boosterPid pid => exact ⟨a1, a2, a3, rfl, a5, a6, a7, a8, a9, a10, a11, a12, a13⟩
  | launcherSocket a b => exact ⟨a1, a2, a3, a4, a5, a6, a7, rfl, a9, a10, a11, a12, a13⟩
  | sigpipeFd a b => exact ⟨a1, a2, a3, a4, a5, a6, a7, a8, rfl, a10, a11, a12, a13⟩
  | bootMode b => exact ⟨a1, a2, rfl, a4, a5, a6, a7, a8, a9, a10, a11, a12, a13⟩
  | socketHash name fd =>
    refine ⟨a1, a2, a3, a4, a5, a6, a7, a8, a9, ?_, a11, a12, a13⟩
    intro n
    show (SocketManager.addMapping _ name fd).findSocket n
      = (SocketManager.addMapping _ name fd).findSocket n
    rw [findSocket_addMapping, findSocket_addMapping, a10 n]

theorem SameContent.foldl (rs : List Record) : ∀ {d d' : Daemon}, SameContent d d' →
    SameContent (rs.foldl Record.apply d) (rs.foldl Record.apply d') := by
  induction rs with
  | nil => intro d d' h; exact h
  | cons r rs ih => intro d d' h; exact ih (SameContent.apply r h)

theorem Record.Agree.symm {a b : Record} (h : a.Agree b) : b.Agree a := by
  cases a <;> cases b <;> simp only [Record.Agree] at h ⊢
  · exact h.symm
  · exact fun e => (h e.symm).symm
  · exact fun e => (h e.symm).symm
  · exact h.symm
  · exact ⟨h.1.symm, h.2.symm⟩
  · exact ⟨h.1.symm, h.2.symm⟩
  · exact h.symm
  · exact fun e => (h e.symm).symm

theorem SameContent.swap (d : Daemon) {a b : Record} (h : a.Agree b) :
    SameContent (Record.apply (Record.apply d b) a) (Record.apply (Record.apply d a) b) := by
  cases a <;> cases b <;> first
    | exact SameContent.refl _
    | (simp only [Record.Agree] at h; obtain ⟨rfl, rfl⟩ := h; exact SameContent.refl _)
    | skip
  · exact ⟨rfl, rfl, rfl, rfl, by
      show ((d.m_children ++ [_]) ++ [_]).Perm ((d.m_children ++ [_]) ++ [_])
      rw [List.append_assoc, List.append_assoc]
      exact List.Perm.append_left _ (List.Perm.swap _ _ _), fun _ => rfl, fun _ => rfl, rfl,
      rfl, fun _ => rfl, rfl, rfl, rfl⟩
  · rename_i k v k' v'
    simp only [Record.Agree] at h
    refine ⟨rfl, rfl, rfl, rfl, List.Perm.refl _, ?_, fun _ => rfl, rfl, rfl, fun _ => rfl,
      rfl, rfl, rfl⟩
    intro x
    show mapFind (mapSet (mapSet _ k' v') k v) x = mapFind (mapSet (mapSet _ k v) k' v') x
    simp only [mapFind_mapSet]
    by_cases h1 : x = k
    · by_cases h2 : x = k'
      · rw [if_pos h1, if_pos h2, h (h1.symm.trans h2)]
      · rw [if_pos h1, if_neg h2, if_pos h1]
    · rw [if_neg h1, if_neg h1]
  · rename_i k v k' v'
    simp only [Record.Agree] at h
    refine ⟨rfl, rfl, rfl, rfl, List.Perm.refl _, fun _ => rfl, ?_, rfl, rfl, fun _ => rfl,
      rfl, rfl, rfl⟩
    intro x
    show mapFind (mapSet (mapSet _ k' v') k v) x = mapFind (mapSet (mapSet _ k v) k' v') x
    simp only [mapFind_mapSet]
    by_cases h1 : x = k
    · by_cases h2 : x = k'
      · rw [if_pos h1, if_pos h2, h (h1.symm.trans h2)]
      · rw [if_pos h1, if_neg h2, if_pos h1]
    · rw [if_neg h1, if_neg h1]
  · rename_i k v k' v'
    simp only [Record.Agree] at h
    refine ⟨rfl, rfl, rfl, rfl, List.Perm.refl _, fun _ => rfl, fun _ => rfl, rfl, rfl, ?_,
      rfl, rfl, rfl⟩
    intro x
    show ((d.m_socketManager.addMapping k' v').addMapping k v).findSocket x
      = ((d.m_socketManager.addMapping k v).addMapping k' v').findSocket x
    simp only [findSocket_addMapping]
    by_cases h1 : x = k
    · by_cases h2 : x = k'
      · rw [if_pos h1, if_pos h2, h (h1.symm.trans h2)]
      · rw [if_pos h1, if_neg h2, if_pos h1]
    · rw [if_neg h1, if_neg h1]

theorem SameContent.perm {rs rs' : List Record} (hp : rs.Perm rs') :
    ∀ {d d' : Daemon}, rs.Pairwise Record.Agree → SameContent d d' →
    SameContent (rs.foldl Record.apply d) (rs'.foldl Record.apply d') := by
  induction hp with
  | nil => intro d d' _ h; exact h
  | cons r _ ih =>
    intro d d' hpw h
    exact ih (List.Pairwise.of_cons hpw) (SameContent.apply r h)
  | swap a b l =>
    intro d d' hpw h
    have hba : b.Agree a := (List.pairwise_cons.mp hpw).1 a (List.mem_cons_self _ _)
    show SameContent (l.foldl Record.apply (Record.apply (Record.apply d b) a))
      (l.foldl Record.apply (Record.apply (Record.apply d' a) b))
    exact SameContent.foldl l
      ((SameContent.swap d hba.symm).trans (SameContent.apply b (SameContent.apply a h)))
  | trans h1 _ ih1 ih2 =>
    intro d d' hpw h
    exact (ih1 hpw (SameContent.refl d)).trans
      (ih2 (h1.pairwise hpw (fun hab => Record.Agree.symm hab)) h)

theorem Record.apply_ordered (d : Daemon) (r : Record)
    (h : MapOrdered d.m_boosterPidToInvokerPid ∧ MapOrdered d.m_boosterPidToInvokerFd) :
    MapOrdered (Record.apply d r).m_boosterPidToInvokerPid
    ∧ MapOrdered (Record.apply d r).m_boosterPidToInvokerFd := by
  cases r with
  | boosterInvokerPid a b => exact ⟨mapSet_ordered a b h.1, h.2⟩
  | boosterInvokerFd a b => exact ⟨h.1, mapSet_ordered a b h.2⟩
  | debugMode b => exact h
  | child pid => exact h
  | boosterPid pid => exact h
  | launcherSocket a b => exact h
  | sigpipeFd a b => exact h
  | bootMode b => exact h
  | socketHash name fd => exact h

theorem Record.foldl_ordered (rs : List Record) : ∀ (d : Daemon),
    MapOrdered d.m_boosterPidToInvokerPid ∧ MapOrdered d.m_boosterPidToInvokerFd →
    MapOrdered (rs.foldl Record.apply d).m_boosterPidToInvokerPid
    ∧ MapOrdered (rs.foldl Record.apply d).m_boosterPidToInvokerFd := by
  induction rs with
  | nil => intro d h; exact h
  | cons r rs ih => intro d h; exact ih _ (Record.apply_ordered d r h)

theorem restoreLoop_recordLine (fuel : Nat) (r : Record) (rest : List Char) (d : Daemon)
    (hr : r.Conforms) :
    restoreLoop (fuel + 1) (r.line ++ rest) d = restoreLoop fuel rest (Record.apply d r) := by
  cases r with
  | debugMode b =>
    simp only [Record.line, List.append_assoc]
    exact restoreLoop_debugModeLine fuel b rest d
  | child pid =>
    simp only [Record.line, List.append_assoc]
    exact restoreLoop_childLine fuel pid rest d hr
  | boosterInvokerPid a b =>
    simp only [Record.line, List.append_assoc]
    exact restoreLoop_invokerPidLine fuel a b rest d hr.1 hr.2
  | boosterInvokerFd a b =>
    simp only [Record.line, List.append_assoc]
    exact restoreLoop_invokerFdLine fuel a b rest d hr.1 hr.2
  | boosterPid pid =>
    simp only [Record.line, List.append_assoc]
    exact restoreLoop_boosterPidLine fuel pid rest d hr
  | launcherSocket a b =>
    simp only [Record.line, List.append_assoc]
    exact restoreLoop_launcherSocketLine fuel a b rest d hr.1 hr.2
  | sigpipeFd a b =>
    simp only [Record.line, List.append_assoc]
    exact restoreLoop_sigpipeLine fuel a b rest d hr.1 hr.2
  | bootMode b =>
    simp only [Record.line, List.append_assoc]
    exact restoreLoop_bootModeLine fuel b rest d
  | socketHash name fd =>
    simp only [Record.line, List.append_assoc]
    exact restoreLoop_socketHashLine fuel name fd rest d hr.1 hr.2

theorem restoreLoop_recordLines (rs : List Record) : ∀ (d : Daemon),
    (∀ r ∈ rs, r.Conforms) →
    restoreLoop (rs.length + 1) (recordLines rs) d
      = some (.returned (rs.foldl Record.apply d) (!(rs.foldl Record.apply d).m_debugMode)) := by
  induction rs with
  | nil =>
    intro d _
    show restoreLoop (0 + 1) ("end".toList ++ endl) d = _
    have := restoreLoop_endLine 0 [] d
    rw [List.append_nil] at this
    exact this
  | cons r rs ih =>
    intro d h
    show restoreLoop ((rs.length + 1) + 1) (r.line ++ recordLines rs) d = _
    rw [restoreLoop_recordLine _ r _ d (h r (List.mem_cons_self _ _))]
    exact ih _ (fun x hx => h x (List.mem_cons_of_mem _ hx))

/-- On a state file whose records conform to the grammar, `restoreState` returns with the
members that the records leave, applied in the order of the file. -/
theorem restoreState_stateFile (myPid : Int) (rs : List Record) (d : Daemon)
    (hpid : IntRange myPid) (hrs : ∀ r ∈ rs, r.Conforms) :
    restoreState myPid (stateFile myPid rs) d
      = some (.returned (rs.foldl Record.apply d) (!(rs.foldl Record.apply d).m_debugMode)) := by
  have hloop := restoreLoop_of_fuel
    ((restoreLoop_space _ (recordLines rs) d (w := '\n') (by decide)).trans
      (restoreLoop_recordLines rs d hrs))
  rw [stateFile, restoreState, restoreTry_header myPid _ d hpid, hloop]

/-- The members that `restoreState` leaves when it reads, with fresh containers, the text
that `reExec` wrote for a well-formed state `d` under the same pid. -/
theorem restoreState_saveState_members (myPid : Int) (d d0 : Daemon) (hpid : IntRange myPid)
    (hd : d.WellFormed) (h0 : d0.Fresh) :
    restoreState myPid (saveState myPid d) d0
      = some (.returned
          { d0 with
            m_debugMode := d.m_debugMode
            m_children := d.m_children
            m_boosterPidToInvokerPid := d.m_boosterPidToInvokerPid
            m_boosterPidToInvokerFd := d.m_boosterPidToInvokerFd
            m_boosterPid := d.m_boosterPid
            m_boosterLauncherSocket := d.m_boosterLauncherSocket
            m_sigPipeFd := d.m_sigPipeFd
            m_bootMode := d.m_bootMode
            m_socketManager := d.m_socketManager }
          (!d.m_debugMode)) := by
  have hbody := restoreLoop_saveStateBody d d0 hd 0
  have hloop := restoreLoop_of_fuel
    ((restoreLoop_space _ (saveStateBody d) d0 (w := '\n') (by decide)).trans hbody)
  obtain ⟨hc0, hp0, hf0, hs0⟩ := h0
  obtain ⟨_, _, _, hpo, _, hfo, _, _, _, hnd⟩ := hd
  have e1 : d0.m_children ++ d.m_children = d.m_children := by simp [hc0]
  have e2 : d.m_boosterPidToInvokerPid.foldl (fun acc e => mapSet acc e.1 e.2)
      d0.m_boosterPidToInvokerPid = d.m_boosterPidToInvokerPid := by
    rw [hp0, foldl_mapSet _ [] (by simpa using hpo)]
    simp
  have e3 : d.m_boosterPidToInvokerFd.foldl (fun acc e => mapSet acc e.1 e.2)
      d0.m_boosterPidToInvokerFd = d.m_boosterPidToInvokerFd := by
    rw [hf0, foldl_mapSet _ [] (by simpa using hfo)]
    simp
  have e4 : d.m_socketManager.getState.foldl
      (fun (acc : SocketManager) e => acc.addMapping e.1 e.2) d0.m_socketManager
      = d.m_socketManager := by
    have e0 : d0.m_socketManager = { m_socketHash := [] } := by
      cases hsm : d0.m_socketManager with
      | mk l =>
        have : l = [] := by simpa [SocketManager.getState, hsm] using hs0
        rw [this]
    rw [e0, foldl_addMapping _ [] (by simpa using hnd)]
    simp [SocketManager.getState]
  rw [e1, e2, e3, e4] at hloop
  rw [saveState_eq, restoreState, restoreTry_header myPid _ d0 hpid, hloop]

/-! ### State files in any layout -/

/-- A record read after the grammar is what one pass of the loop of `restoreState` reads,
and the pass does to the members what the record says. -/
theorem readRecord_step {ss s1 s2 : List Char} {token : String} {r : Record} (d : Daemon)
    (ht : readToken ss = some (token, s1)) (h : readRecord token s1 = some (r, s2)) :
    restoreStep ss d = .next s2 (Record.apply d r) := by
  unfold readRecord at h
  by_cases hk0 : token = "child"
  · subst hk0
    rw [if_pos rfl] at h
    cases h1 : readInt s1 with
    | none => rw [h1] at h; cases h
    | some p =>
      obtain ⟨a, s'⟩ := p
      rw [h1] at h
      simp only [Option.some.injEq, Prod.mk.injEq] at h
      obtain ⟨rfl, rfl⟩ := h
      exact restoreStep_child d ht h1
  rw [if_neg hk0] at h
  by_cases hk1 : token = "booster-invoker-pid"
  · subst hk1
    rw [if_pos rfl] at h
    cases h1 : readInt s1 with
    | none => rw [h1] at h; cases h
    | some p =>
      obtain ⟨a, s'⟩ := p
      rw [h1] at h
      simp only at h
      cases h2 : readInt s' with
      | none => rw [h2] at h; cases h
      | some q =>
        obtain ⟨b, s''⟩ := q
        rw [h2] at h
        simp only [Option.some.injEq, Prod.mk.injEq] at h
        obtain ⟨rfl, rfl⟩ := h
        exact restoreStep_invokerPid d ht h1 h2
  rw [if_neg hk1] at h
  by_cases hk2 : token = "booster-invoker-fd"
  · subst hk2
    rw [if_pos rfl] at h
    cases h1 : readInt s1 with
    | none => rw [h1] at h; cases h
    | some p =>
      obtain ⟨a, s'⟩ := p
      rw [h1] at h
      simp only at h
      cases h2 : readInt s' with
      | none => rw [h2] at h; cases h
      | some q =>
        obtain ⟨b, s''⟩ := q
        rw [h2] at h
        simp only [Option.some.injEq, Prod.mk.injEq] at h
        obtain ⟨rfl, rfl⟩ := h
        exact restoreStep_invokerFd d ht h1 h2
  rw [if_neg hk2] at h
  by_cases hk3 : token = "booster-pid"
  · subst hk3
    rw [if_pos rfl] at h
    cases h1 : readInt s1 with
    | none => rw [h1] at h; cases h
    | some p =>
      obtain ⟨a, s'⟩ := p
      rw [h1] at h
      simp only [Option.some.injEq, Prod.mk.injEq] at h
      obtain ⟨rfl, rfl⟩ := h
      exact restoreStep_boosterPid d ht h1
  rw [if_neg hk3] at h
  by_cases hk4 : token = "launcher-socket"
  · subst hk4
    rw [if_pos rfl] at h
    cases h1 : readInt s1 with
    | none => rw [h1] at h; cases h
    | some p =>
      obtain ⟨a, s'⟩ := p
      rw [h1] at h
      simp only at h
      cases h2 : readInt s' with
      | none => rw [h2] at h; cases h
      | some q =>
        obtain ⟨b, s''⟩ := q
        rw [h2] at h
        simp only [Option.some.injEq, Prod.mk.injEq] at h
        obtain ⟨rfl, rfl⟩ := h
        exact restoreStep_launcherSocket d ht h1 h2
  rw [if_neg hk4] at h
  by_cases hk5 : token = "sigpipe-fd"
  · subst hk5
    rw [if_pos rfl] at h
    cases h1 : readInt s1 with
    | none => rw [h1] at h; cases h
    | some p =>
      obtain ⟨a, s'⟩ := p
      rw [h1] at h
      simp only at h
      cases h2 : readInt s' with
      | none => rw [h2] at h; cases h
      | some q =>
        obtain ⟨b, s''⟩ := q
        rw [h2] at h
        simp only [Option.some.injEq, Prod.mk.injEq] at h
        obtain ⟨rfl, rfl⟩ := h
        exact restoreStep_sigpipe d ht h1 h2
  rw [if_neg hk5] at h
  by_cases hk6 : token = "socket-hash"
  · subst hk6
    rw [if_pos rfl] at h
    cases h1 : readToken s1 with
    | none => rw [h1] at h; cases h
    | some p =>
      obtain ⟨a, s'⟩ := p
      rw [h1] at h
      simp only at h
      cases h2 : readInt s' with
      | none => rw [h2] at h; cases h
      | some q =>
        obtain ⟨b, s''⟩ := q
        rw [h2] at h
        simp only [Option.some.injEq, Prod.mk.injEq] at h
        obtain ⟨rfl, rfl⟩ := h
        exact restoreStep_socketHash d ht h1 h2
  rw [if_neg hk6] at h
  by_cases hk7 : token = "debug-mode"
  · subst hk7
    rw [if_pos rfl] at h
    cases h1 : readBool s1 with
    | none => rw [h1] at h; cases h
    | some p =>
      obtain ⟨a, s'⟩ := p
      rw [h1] at h
      simp only [Option.some.injEq, Prod.mk.injEq] at h
      obtain ⟨rfl, rfl⟩ := h
      exact restoreStep_debugMode d ht h1
  rw [if_neg hk7] at h
  by_cases hk8 : token = "boot-mode"
  · subst hk8
    rw [if_pos rfl] at h
    cases h1 : readBool s1 with
    | none => rw [h1] at h; cases h
    | some p =>
      obtain ⟨a, s'⟩ := p
      rw [h1] at h
      simp only [Option.some.injEq, Prod.mk.injEq] at h
      obtain ⟨rfl, rfl⟩ := h
      exact restoreStep_bootMode d ht h1
  rw [if_neg hk8] at h
  cases h

/-- On a text that consists of the records `rs` and the `end` trailer, the loop of
`restoreState` returns, having applied the records in the order of the text. -/
theorem restoreLoop_of_records : ∀ (fuel : Nat) (ss : List Char) (rs : List Record)
    (d : Daemon), readRecords fuel ss = some rs →
    restoreLoop fuel ss d
      = some (.returned (rs.foldl Record.apply d) (!(rs.foldl Record.apply d).m_debugMode)) := by
  intro fuel
  induction fuel with
  | zero => intro ss rs d h; cases h
  | succ fuel ih =>
    intro ss rs d h
    rw [readRecords] at h
    rw [restoreLoop]
    cases ht : readToken ss with
    | none => rw [ht] at h; cases h
    | some p =>
      obtain ⟨token, s1⟩ := p
      rw [ht] at h
      simp only at h
      by_cases hend : token = "end"
      · subst hend
        rw [if_pos rfl] at h
        cases h
        rw [restoreStep_end d ht]
        rfl
      · rw [if_neg hend] at h
        cases hr : readRecord token s1 with
        | none => rw [hr] at h; cases h
        | some q =>
          obtain ⟨r, s2⟩ := q
          rw [hr] at h
          simp only at h
          cases hrest : readRecords fuel s2 with
          | none => rw [hrest] at h; cases h
          | some rs2 =>
            rw [hrest] at h
            cases h
            rw [readRecord_step d ht hr]
            exact ih s2 rs2 (Record.apply d r) hrest

/-- On a state file that consists of the header of the own pid, the records `rs` and the
`end` trailer, `restoreState` returns, having applied the records in the order of the
file. -/
theorem restoreState_of_records (myPid : Int) (file : List Char) (rs : List Record)
    (d : Daemon) (h : recordsOf myPid file = some rs) :
    restoreState myPid file d
      = some (.returned (rs.foldl Record.apply d) (!(rs.foldl Record.apply d).m_debugMode)) := by
  unfold recordsOf at h
  unfold restoreState restoreTry
  cases ht : readToken file with
  | none => rw [ht] at h; cases h
  | some p =>
    obtain ⟨token, s1⟩ := p
    rw [ht] at h
    simp only at h ⊢
    by_cases hk : token = "my-pid"
    · rw [if_pos hk] at h
      rw [if_neg (not_not.mpr hk)]
      cases hi : readInt s1 with
      | none => rw [hi] at h; cases h
      | some q =>
        obtain ⟨pid, s2⟩ := q
        rw [hi] at h
        simp only at h ⊢
        by_cases hp : pid = myPid
        · rw [if_pos hp] at h
          rw [if_neg (not_not.mpr hp), restoreLoop_of_records _ _ _ d h]
        · rw [if_neg hp] at h; cases h
    · rw [if_neg hk] at h; cases h

theorem readRecords_space {w : Char} (fuel : Nat) (ss : List Char) (h : isSpace w = true) :
    readRecords fuel (w :: ss) = readRecords fuel ss := by
  cases fuel with
  | zero => rfl
  | succ fuel => rw [readRecords, readRecords, readToken_space ss h]

theorem readRecords_recordLine (fuel : Nat) (r : Record) (rest : List Char)
    (hr : r.Conforms) :
    readRecords (fuel + 1) (r.line ++ rest)
      = match readRecords fuel rest with
        | none => none
        | some rs => some (r :: rs) := by
  cases r with
  | child a =>
    have h : readToken ("child ".toList ++ (showInt a ++ (endl ++ rest)))
        = some ("child", ' ' :: (showInt a ++ '\n' :: rest)) := rfl
    have hrec : readRecord "child" (' ' :: (showInt a ++ '\n' :: rest))
        = some (.child a, '\n' :: rest) := by
      unfold readRecord
      rw [if_pos rfl, readInt_arg a '\n' rest hr (by decide)]
    simp only [Record.line, List.append_assoc]
    rw [readRecords, h]
    simp only
    rw [if_neg (by decide), hrec]
    simp only
    rw [readRecords_space fuel rest (by decide)]
  | boosterInvokerPid a b =>
    have h : readToken ("booster-invoker-pid ".toList ++ (showInt a ++ (" ".toList ++ (showInt b ++ (endl ++ rest)))))
        = some ("booster-invoker-pid", ' ' :: (showInt a ++ ' ' :: (showInt b ++ '\n' :: rest))) := rfl
    have hrec : readRecord "booster-invoker-pid" (' ' :: (showInt a ++ ' ' :: (showInt b ++ '\n' :: rest)))
        = some (.boosterInvokerPid a b, '\n' :: rest) := by
      unfold readRecord
      rw [if_neg (by decide), if_pos rfl, readInt_arg a ' ' _ hr.1 (by decide)]
      simp only
      rw [readInt_arg b '\n' rest hr.2 (by decide)]
    simp only [Record.line, List.append_assoc]
    rw [readRecords, h]
    simp only
    rw [if_neg (by decide), hrec]
    simp only
    rw [readRecords_space fuel rest (by decide)]
  | boosterInvokerFd a b =>
    have h : readToken ("booster-invoker-fd ".toList ++ (showInt a ++ (" ".toList ++ (showInt b ++ (endl ++ rest)))))
        = some ("booster-invoker-fd", ' ' :: (showInt a ++ ' ' :: (showInt b ++ '\n' :: rest))) := rfl
    have hrec : readRecord "booster-invoker-fd" (' ' :: (showInt a ++ ' ' :: (showInt b ++ '\n' :: rest)))
        = some (.boosterInvokerFd a b, '\n' :: rest) := by
      unfold readRecord
      rw [if_neg (by decide), if_neg (by decide), if_pos rfl, readInt_arg a ' ' _ hr.1 (by decide)]
      simp only
      rw [readInt_arg b '\n' rest hr.2 (by decide)]
    simp only [Record.line, List.append_assoc]
    rw [readRecords, h]
    simp only
    rw [if_neg (by decide), hrec]
    simp only
    rw [readRecords_space fuel rest (by decide)]
  | boosterPid a =>
    have h : readToken ("booster-pid ".toList ++ (showInt a ++ (endl ++ rest)))
        = some ("booster-pid", ' ' :: (showInt a ++ '\n' :: rest)) := rfl
    have hrec : readRecord "booster-pid" (' ' :: (showInt a ++ '\n' :: rest))
        = some (.boosterPid a, '\n' :: rest) := by
      unfold readRecord
      rw [if_neg (by decide), if_neg (by decide), if_neg (by decide), if_pos rfl, readInt_arg a '\n' rest hr (by decide)]
    simp only [Record.line, List.append_assoc]
    rw [readRecords, h]
    simp only
    rw [if_neg (by decide), hrec]
    simp only
    rw [readRecords_space fuel rest (by decide)]
  | launcherSocket a b =>
    have h : readToken ("launcher-socket ".toList ++ (showInt a ++ (" ".toList ++ (showInt b ++ (endl ++ rest)))))
        = some ("launcher-socket", ' ' :: (showInt a ++ ' ' :: (showInt b ++ '\n' :: rest))) := rfl
    have hrec : readRecord "launcher-socket" (' ' :: (showInt a ++ ' ' :: (showInt b ++ '\n' :: rest)))
        = some (.launcherSocket a b, '\n' :: rest) := by
      unfold readRecord
      rw [if_neg (by decide), if_neg (by decide), if_neg (by decide), if_neg (by decide), if_pos rfl, readInt_arg a ' ' _ hr.1 (by decide)]
      simp only
      rw [readInt_arg b '\n' rest hr.2 (by decide)]
    simp only [Record.line, List.append_assoc]
    rw [readRecords, h]
    simp only
    rw [if_neg (by decide), hrec]
    simp only
    rw [readRecords_space fuel rest (by decide)]
  | sigpipeFd a b =>
    have h : readToken ("sigpipe-fd ".toList ++ (showInt a ++ (" ".toList ++ (showInt b ++ (endl ++ rest)))))
        = some ("sigpipe-fd", ' ' :: (showInt a ++ ' ' :: (showInt b ++ '\n' :: rest))) := rfl
    have hrec : readRecord "sigpipe-fd" (' ' :: (showInt a ++ ' ' :: (showInt b ++ '\n' :: rest)))
        = some (.sigpipeFd a b, '\n' :: rest) := by
      unfold readRecord
      rw [if_neg (by decide), if_neg (by decide), if_neg (by decide), if_neg (by decide), if_neg (by decide), if_pos rfl, readInt_arg a ' ' _ hr.1 (by decide)]
      simp only
      rw [readInt_arg b '\n' rest hr.2 (by decide)]
    simp only [Record.line, List.append_assoc]
    rw [readRecords, h]
    simp only
    rw [if_neg (by decide), hrec]
    simp only
    rw [readRecords_space fuel rest (by decide)]
  | socketHash a b =>
    have h : readToken ("socket-hash ".toList ++ (a.data ++ (" ".toList ++ (showInt b ++ (endl ++ rest)))))
        = some ("socket-hash", ' ' :: (a.data ++ ' ' :: (showInt b ++ '\n' :: rest))) := rfl
    have hrec : readRecord "socket-hash" (' ' :: (a.data ++ ' ' :: (showInt b ++ '\n' :: rest)))
        = some (.socketHash a b, '\n' :: rest) := by
      unfold readRecord
      rw [if_neg (by decide), if_neg (by decide), if_neg (by decide), if_neg (by decide), if_neg (by decide), if_neg (by decide), if_pos rfl, readToken_arg a ' ' _ hr.1 (by decide)]
      simp only
      rw [readInt_arg b '\n' rest hr.2 (by decide)]
    simp only [Record.line, List.append_assoc]
    rw [readRecords, h]
    simp only
    rw [if_neg (by decide), hrec]
    simp only
    rw [readRecords_space fuel rest (by decide)]
  | debugMode a =>
    have h : readToken ("debug-mode ".toList ++ (showBool a ++ (endl ++ rest)))
        = some ("debug-mode", ' ' :: (showBool a ++ '\n' :: rest)) := rfl
    have hrec : readRecord "debug-mode" (' ' :: (showBool a ++ '\n' :: rest))
        = some (.debugMode a, '\n' :: rest) := by
      unfold readRecord
      rw [if_neg (by decide), if_neg (by decide), if_neg (by decide), if_neg (by decide), if_neg (by decide), if_neg (by decide), if_neg (by decide), if_pos rfl, readBool_arg a '\n' rest (by decide)]
    simp only [Record.line, List.append_assoc]
    rw [readRecords, h]
    simp only
    rw [if_neg (by decide), hrec]
    simp only
    rw [readRecords_space fuel rest (by decide)]
  | bootMode a =>
    have h : readToken ("boot-mode ".toList ++ (showBool a ++ (endl ++ rest)))
        = some ("boot-mode", ' ' :: (showBool a ++ '\n' :: rest)) := rfl
    have hrec : readRecord "boot-mode" (' ' :: (showBool a ++ '\n' :: rest))
        = some (.bootMode a, '\n' :: rest) := by
      unfold readRecord
      rw [if_neg (by decide), if_neg (by decide), if_neg (by decide), if_neg (by decide), if_neg (by decide), if_neg (by decide), if_neg (by decide), if_neg (by decide), if_pos rfl, readBool_arg a '\n' rest (by decide)]
    simp only [Record.line, List.append_assoc]
    rw [readRecords, h]
    simp only
    rw [if_neg (by decide), hrec]
    simp only
    rw [readRecords_space fuel rest (by decide)]

theorem readRecords_recordLines (rs : List Record) : ∀ (fuel : Nat), rs.length < fuel →
    (∀ r ∈ rs, r.Conforms) → readRecords fuel (recordLines rs) = some rs := by
  induction rs with
  | nil =>
    intro fuel hlt _
    obtain ⟨k, rfl⟩ : ∃ k, fuel = k + 1 := ⟨fuel - 1, by simp at hlt; omega⟩
    have h : readToken ("end".toList ++ endl) = some ("end", ['\n']) := rfl
    show readRecords (k + 1) ("end".toList ++ endl) = some []
    rw [readRecords, h]
    rfl
  | cons r rs ih =>
    intro fuel hlt h
    obtain ⟨k, rfl⟩ : ∃ k, fuel = k + 1 := ⟨fuel - 1, by simp at hlt; omega⟩
    show readRecords (k + 1) (r.line ++ recordLines rs) = some (r :: rs)
    rw [readRecords_recordLine k r _ (h r (List.mem_cons_self _ _)),
      ih k (by simp at hlt; omega) (fun x hx => h x (List.mem_cons_of_mem _ hx))]

theorem Record.line_length (r : Record) : 1 ≤ r.line.length := by
  cases r <;> exact Nat.succ_le_of_lt (Nat.succ_pos _)

theorem recordLines_length (rs : List Record) : rs.length < (recordLines rs).length := by
  induction rs with
  | nil => exact Nat.succ_pos _
  | cons r rs ih =>
    show rs.length + 1 < (r.line ++ recordLines rs).length
    rw [List.length_append]
    have := Record.line_length r
    omega

/-- The state file written in the layout of the grammar, one record per line, consists
of its records. -/
theorem recordsOf_stateFile (myPid : Int) (rs : List Record) (hpid : IntRange myPid)
    (hrs : ∀ r ∈ rs, r.Conforms) : recordsOf myPid (stateFile myPid rs) = some rs := by
  have h : readToken ("my-pid ".toList ++ (showInt myPid ++ (endl ++ recordLines rs)))
      = some ("my-pid", ' ' :: (showInt myPid ++ '\n' :: recordLines rs)) := rfl
  unfold recordsOf stateFile
  rw [h]
  simp only [if_true]
  rw [readInt_arg myPid '\n' _ hpid (by decide)]
  simp only [if_true]
  rw [readRecords_space _ _ (by decide)]
  exact readRecords_recordLines rs _
    (by have := recordLines_length rs; simp only [List.length_cons]; omega) hrs

theorem Record.holds_apply (d : Daemon) (r : Record) : Record.Holds (Record.apply d r) r := by
  cases r with
  | debugMode b => rfl
  | child pid => exact List.mem_append_right _ (List.mem_singleton_self _)
  | boosterInvokerPid k v => exact mapFind_mapSet_self _ k v
  | boosterInvokerFd k v => exact mapFind_mapSet_self _ k v
  | boosterPid pid => rfl
  | launcherSocket a b => rfl
  | sigpipeFd a b => rfl
  | bootMode b => rfl
  | socketHash name fd =>
    show (d.m_socketManager.addMapping name fd).findSocket name = some fd
    rw [findSocket_addMapping, if_pos rfl]

theorem Record.holds_apply_of_agree {d : Daemon} {r x : Record} (h : Record.Holds d r)
    (ha : r.Agree x) : Record.Holds (Record.apply d x) r := by
  cases r <;> cases x <;> first
    | exact h
    | skip
  · exact ha.symm
  · exact List.mem_append_left _ h
  · rename_i k v k' v'
    show mapFind (mapSet _ k' v') k = some v
    rw [mapFind_mapSet]
    by_cases hk : k = k'
    · rw [if_pos hk, ha hk]
    · rw [if_neg hk]; exact h
  · rename_i k v k' v'
    show mapFind (mapSet _ k' v') k = some v
    rw [mapFind_mapSet]
    by_cases hk : k = k'
    · rw [if_pos hk, ha hk]
    · rw [if_neg hk]; exact h
  · exact ha.symm
  · rename_i a b a' b'
    show (a', b') = (a, b)
    rw [ha.1, ha.2]
  · rename_i a b a' b'
    show (a', b') = (a, b)
    rw [ha.1, ha.2]
  · exact ha.symm
  · rename_i k v k' v'
    show (d.m_socketManager.addMapping k' v').findSocket k = some v
    rw [findSocket_addMapping]
    by_cases hk : k = k'
    · rw [if_pos hk, ha hk]
    · rw [if_neg hk]; exact h

theorem Record.holds_foldl (post : List Record) : ∀ {d : Daemon} {r : Record},
    Record.Holds d r → (∀ x ∈ post, r.Agree x) →
    Record.Holds (post.foldl Record.apply d) r := by
  induction post with
  | nil => intro d r h _; exact h
  | cons x post ih =>
    intro d r h ha
    exact ih (Record.holds_apply_of_agree h (ha x (List.mem_cons_self _ _)))
      (fun y hy => ha y (List.mem_cons_of_mem _ hy))

/-- The value of a record stands in the members left by the records of a file when no
later record of the file gives another value to the same thing. -/
theorem Record.holds_last (pre post : List Record) (r : Record) (d : Daemon)
    (ha : ∀ x ∈ post, r.Agree x) :
    Record.Holds ((pre ++ r :: post).foldl Record.apply d) r := by
  rw [List.foldl_append, List.foldl_cons]
  exact Record.holds_foldl post (Record.holds_apply _ r) ha

/-! ## The claims -/

/-- C1 (re-exec round trip). For every well-formed supervisor state `d` and every
process id, `restoreState` run by a supervisor with fresh containers (and the
same pid) on the text that `reExec` wrote for `d` returns normally, and the
restored members equal those of `d`: the children in the same order, both
invoker maps, the current booster pid, the launcher socket pair, the signal
pipe, the boot and debug flags, and the name→fd mapping of the socket
manager. The state file is removed unless `d` was in debug mode. -/
theorem restoreState_saveState (myPid : Int) (d d0 : Daemon) (hpid : IntRange myPid)
    (hd : d.WellFormed) (h0 : d0.Fresh) :
    ∃ d', restoreState myPid (saveState myPid d) d0 = some (.returned d' (!d.m_debugMode))
      ∧ d'.m_children = d.m_children
      ∧ d'.m_boosterPidToInvokerPid = d.m_boosterPidToInvokerPid
      ∧ d'.m_boosterPidToInvokerFd = d.m_boosterPidToInvokerFd
      ∧ d'.m_boosterPid = d.m_boosterPid
      ∧ d'.m_boosterLauncherSocket = d.m_boosterLauncherSocket
      ∧ d'.m_sigPipeFd = d.m_sigPipeFd
      ∧ d'.m_bootMode = d.m_bootMode
      ∧ d'.m_debugMode = d.m_debugMode
      ∧ d'.m_socketManager = d.m_socketManager := by
  have hbody := restoreLoop_saveStateBody d d0 hd 0
  have hloop := restoreLoop_of_fuel
    ((restoreLoop_space _ (saveStateBody d) d0 (w := '\n') (by decide)).trans hbody)
  obtain ⟨hc0, hp0, hf0, hs0⟩ := h0
  obtain ⟨_, _, _, hpo, _, hfo, _, _, _, hnd⟩ := hd
  have e1 : d0.m_children ++ d.m_children = d.m_children := by simp [hc0]
  have e2 : d.m_boosterPidToInvokerPid.foldl (fun acc e => mapSet acc e.1 e.2)
      d0.m_boosterPidToInvokerPid = d.m_boosterPidToInvokerPid := by
    rw [hp0, foldl_mapSet _ [] (by simpa using hpo)]
    simp
  have e3 : d.m_boosterPidToInvokerFd.foldl (fun acc e => mapSet acc e.1 e.2)
      d0.m_boosterPidToInvokerFd = d.m_boosterPidToInvokerFd := by
    rw [hf0, foldl_mapSet _ [] (by simpa using hfo)]
    simp
  have e4 : d.m_socketManager.getState.foldl
      (fun (acc : SocketManager) e => acc.addMapping e.1 e.2) d0.m_socketManager
      = d.m_socketManager := by
    have e0 : d0.m_socketManager = { m_socketHash := [] } := by
      cases hsm : d0.m_socketManager with
      | mk l =>
        have : l = [] := by simpa [SocketManager.getState, hsm] using hs0
        rw [this]
    rw [e0, foldl_addMapping _ [] (by simpa using hnd)]
    simp [SocketManager.getState]
  rw [e1, e2, e3, e4] at hloop
  refine ⟨{ d0 with
            m_debugMode := d.m_debugMode
            m_children := d.m_children
            m_boosterPidToInvokerPid := d.m_boosterPidToInvokerPid
            m_boosterPidToInvokerFd := d.m_boosterPidToInvokerFd
            m_boosterPid := d.m_boosterPid
            m_boosterLauncherSocket := d.m_boosterLauncherSocket
            m_sigPipeFd := d.m_sigPipeFd
            m_bootMode := d.m_bootMode
            m_socketManager := d.m_socketManager }, ?_,
          rfl, rfl, rfl, rfl, rfl, rfl, rfl, rfl, rfl⟩
  rw [saveState_eq, restoreState, restoreTry_header myPid _ d0 hpid, hloop]

/-- Witness of C1: the state of scenario 4, saved by process 4242 and restored by
a freshly constructed supervisor. -/
theorem restoreState_saveState_witness :
    IntRange 4242 ∧ scenarioState.WellFormed ∧ (Daemon.init (0, 0) (0, 0)).Fresh
    ∧ ∃ d', restoreState 4242 (saveState 4242 scenarioState) (Daemon.init (0, 0) (0, 0))
          = some (.returned d' (!scenarioState.m_debugMode))
      ∧ d'.m_children = scenarioState.m_children
      ∧ d'.m_boosterPidToInvokerPid = scenarioState.m_boosterPidToInvokerPid
      ∧ d'.m_boosterPidToInvokerFd = scenarioState.m_boosterPidToInvokerFd
      ∧ d'.m_boosterPid = scenarioState.m_boosterPid
      ∧ d'.m_boosterLauncherSocket = scenarioState.m_boosterLauncherSocket
      ∧ d'.m_sigPipeFd = scenarioState.m_sigPipeFd
      ∧ d'.m_bootMode = scenarioState.m_bootMode
      ∧ d'.m_debugMode = scenarioState.m_debugMode
      ∧ d'.m_socketManager = scenarioState.m_socketManager :=
  ⟨by decide, by decide, by decide,
    restoreState_saveState 4242 scenarioState (Daemon.init (0, 0) (0, 0))
      (by decide) (by decide) (by decide)⟩

/-- C2 (missing sentinel). For every state file whose first record is `my-pid`
with the own pid and whose text behind it never presents the token `end` at a
record-keyword position, `restoreState` does not return: it ends the process
by `_exit(1)`. -/
theorem restoreState_missing_end (myPid : Int) (file s1 s2 : List Char) (d : Daemon)
    (h1 : readToken file = some ("my-pid", s1)) (h2 : readInt s1 = some (myPid, s2))
    (hend : presentsEnd s2 = false) :
    ∃ removed, restoreState myPid file d = some (.exited 1 removed) := by
  obtain ⟨d', hloop⟩ := restoreLoop_no_end (s2.length + 1) s2 d (Nat.lt_succ_self _) hend
  refine ⟨!d'.m_debugMode, ?_⟩
  unfold restoreState restoreTry
  rw [h1]
  simp only [ne_eq, not_true_eq_false, if_false]
  rw [h2]
  simp only [ne_eq, not_true_eq_false, if_false]
  rw [hloop]
  rfl

/-- Witness of C2: a file with the header of process 42, a `child` record, a socket
named `end` and no `end` record. -/
theorem restoreState_missing_end_witness :
    readToken "my-pid 42\nchild 3\nsocket-hash end 5\n".toList
        = some ("my-pid", " 42\nchild 3\nsocket-hash end 5\n".toList)
    ∧ readInt " 42\nchild 3\nsocket-hash end 5\n".toList
        = some (42, "\nchild 3\nsocket-hash end 5\n".toList)
    ∧ presentsEnd "\nchild 3\nsocket-hash end 5\n".toList = false
    ∧ ∃ removed, restoreState 42 "my-pid 42\nchild 3\nsocket-hash end 5\n".toList
          (Daemon.init (0, 0) (0, 0)) = some (.exited 1 removed) :=
  ⟨by decide, by decide, by decide,
    restoreState_missing_end 42 "my-pid 42\nchild 3\nsocket-hash end 5\n".toList
      " 42\nchild 3\nsocket-hash end 5\n".toList "\nchild 3\nsocket-hash end 5\n".toList
      (Daemon.init (0, 0) (0, 0)) (by decide) (by decide) (by decide)⟩

/-- C3 (stale state guard), the code at a failing input: the state file
`my-pid 41`, `end` read by process 42, not in debug mode. The string literal
thrown for the stale file has type `const char *`, which the handler
`catch (char *err)` does not catch: the exception leaves `restoreState`, and
neither `remove(m_stateFile)` nor `_exit(1)` is reached. -/
theorem restoreState_stale_uncaught :
    restoreState 42 "my-pid 41\nend\n".toList (Daemon.init (0, 0) (0, 0))
      = some (.uncaught .constCharPtr "Daemon: stale state file, exiting.") := by
  decide

/-- The same for every state file with the header of another process and every
supervisor state: the exception for the stale file is not caught. -/
theorem restoreState_stale (myPid p : Int) (file s1 s2 : List Char) (d : Daemon)
    (h1 : readToken file = some ("my-pid", s1)) (h2 : readInt s1 = some (p, s2))
    (hp : p ≠ myPid) :
    restoreState myPid file d
      = some (.uncaught .constCharPtr "Daemon: stale state file, exiting.") := by
  unfold restoreState restoreTry
  rw [h1]
  simp only [ne_eq, not_true_eq_false, if_false]
  rw [h2]
  simp only [ne_eq, hp, not_false_eq_true, if_true]
  rfl

/-- C6 (accept-report). For every datagram `(invokerPid, delay, newFd)` received
while the current booster pid is `B = d.m_boosterPid`, with a booster object
and a `fork()` that returns the pid `newPid` of the new child,
`readFromBoosterSocket` returns; it has recorded `B → invokerPid` and `B → newFd`
exactly when `invokerPid ≠ 0` and `B ≠ 0`, and left both maps as they were
otherwise; its one call is the `fork()`, whose child is started with the
reported delay; `newPid` is appended to the children and is the current
booster pid. -/
theorem readFromBoosterSocket_accept (d : Daemon) (m : Datagram) (newPid : Int)
    (hb : d.m_booster = true) (h1 : newPid ≠ -1) (h0 : newPid ≠ 0) :
    ∃ d', (readFromBoosterSocket d (some m) newPid).result = .returned d'
      ∧ d'.m_children = d.m_children ++ [newPid]
      ∧ d'.m_boosterPid = newPid
      ∧ (m.invokerPid ≠ 0 ∧ d.m_boosterPid ≠ 0 →
          d'.m_boosterPidToInvokerPid
              = mapSet d.m_boosterPidToInvokerPid d.m_boosterPid m.invokerPid
          ∧ d'.m_boosterPidToInvokerFd
              = mapSet d.m_boosterPidToInvokerFd d.m_boosterPid m.newFd
          ∧ mapFind d'.m_boosterPidToInvokerPid d.m_boosterPid = some m.invokerPid
          ∧ mapFind d'.m_boosterPidToInvokerFd d.m_boosterPid = some m.newFd)
      ∧ (¬ (m.invokerPid ≠ 0 ∧ d.m_boosterPid ≠ 0) →
          d'.m_boosterPidToInvokerPid = d.m_boosterPidToInvokerPid
          ∧ d'.m_boosterPidToInvokerFd = d.m_boosterPidToInvokerFd)
      ∧ (readFromBoosterSocket d (some m) newPid).effects
          = [.fork newPid (forkBoosterChild { d' with m_boosterPid := 0, m_children := d.m_children }
              m.delay)] := by
  by_cases hi : m.invokerPid = 0
  · refine ⟨{ d with m_children := d.m_children ++ [newPid], m_boosterPid := newPid },
      ?_, rfl, rfl, ?_, ?_, ?_⟩
    · simp [readFromBoosterSocket, hi, forkBooster_parent, hb, h1, h0]
    · intro h; exact absurd hi h.1
    · intro _; exact ⟨rfl, rfl⟩
    · simp [readFromBoosterSocket, hi, forkBooster_parent, hb, h1, h0]
  · by_cases hB : d.m_boosterPid = 0
    · refine ⟨{ d with m_children := d.m_children ++ [newPid], m_boosterPid := newPid },
        ?_, rfl, rfl, ?_, ?_, ?_⟩
      · simp [readFromBoosterSocket, hi, hB, forkBooster_parent, hb, h1, h0]
      · intro h; exact absurd hB h.2
      · intro _; exact ⟨rfl, rfl⟩
      · simp [readFromBoosterSocket, hi, hB, forkBooster_parent, hb, h1, h0]
    · refine ⟨{ d with
                m_boosterPidToInvokerPid :=
                  mapSet d.m_boosterPidToInvokerPid d.m_boosterPid m.invokerPid
                m_boosterPidToInvokerFd :=
                  mapSet d.m_boosterPidToInvokerFd d.m_boosterPid m.newFd
                m_children := d.m_children ++ [newPid], m_boosterPid := newPid },
        ?_, rfl, rfl, ?_, ?_, ?_⟩
      · simp [readFromBoosterSocket, hi, hB, forkBooster_parent, hb, h1, h0]
      · intro _
        exact ⟨rfl, rfl, mapFind_mapSet_self _ _ _, mapFind_mapSet_self _ _ _⟩
      · intro h; exact absurd ⟨hi, hB⟩ h
      · simp [readFromBoosterSocket, hi, hB, forkBooster_parent, hb, h1, h0]

/-- Witness of C6: scenario 1, the booster 11 reports the invoker 1000 with the
descriptor 9 and no delay, and the replacement gets the pid 12. -/
theorem readFromBoosterSocket_accept_witness :
    scenarioState.m_booster = true ∧ (12 : Int) ≠ -1 ∧ (12 : Int) ≠ 0
    ∧ ∃ d', (readFromBoosterSocket scenarioState
          (some { invokerPid := 1000, delay := 0, newFd := 9 }) 12).result = .returned d'
      ∧ d'.m_children = scenarioState.m_children ++ [12]
      ∧ d'.m_boosterPid = 12
      ∧ ((1000 : Int) ≠ 0 ∧ scenarioState.m_boosterPid ≠ 0 →
          d'.m_boosterPidToInvokerPid
              = mapSet scenarioState.m_boosterPidToInvokerPid scenarioState.m_boosterPid 1000
          ∧ d'.m_boosterPidToInvokerFd
              = mapSet scenarioState.m_boosterPidToInvokerFd scenarioState.m_boosterPid 9
          ∧ mapFind d'.m_boosterPidToInvokerPid scenarioState.m_boosterPid = some 1000
          ∧ mapFind d'.m_boosterPidToInvokerFd scenarioState.m_boosterPid = some 9)
      ∧ (¬ ((1000 : Int) ≠ 0 ∧ scenarioState.m_boosterPid ≠ 0) →
          d'.m_boosterPidToInvokerPid = scenarioState.m_boosterPidToInvokerPid
          ∧ d'.m_boosterPidToInvokerFd = scenarioState.m_boosterPidToInvokerFd)
      ∧ (readFromBoosterSocket scenarioState
          (some { invokerPid := 1000, delay := 0, newFd := 9 }) 12).effects
          = [.fork 12 (forkBoosterChild
              { d' with m_boosterPid := 0, m_children := scenarioState.m_children } 0)] :=
  ⟨by decide, by decide, by decide,
    readFromBoosterSocket_accept scenarioState { invokerPid := 1000, delay := 0, newFd := 9 } 12
      (by decide) (by decide) (by decide)⟩

/-- C9 as stated fails: in normal mode with the current booster pid -1, which is
non-zero, `enterBootMode` flips the flag and sends no signal, because
`killProcess` calls `kill` for a positive pid only. -/
theorem enterBootMode_negative_pid :
    ({ scenarioState with m_boosterPid := -1 } : Daemon).m_bootMode = false
    ∧ ({ scenarioState with m_boosterPid := -1 } : Daemon).m_boosterPid ≠ 0
    ∧ enterBootMode { scenarioState with m_boosterPid := -1 }
        = ({ scenarioState with m_boosterPid := -1, m_bootMode := true }, []) := by
  decide

/-- C9 (mode controller), amended. `enterBootMode` (resp. `enterNormalMode`) leaves
the whole state unchanged and makes no call when already in boot (resp.
normal) mode; otherwise it flips the boot flag only, and its calls are the
one `kill(m_boosterPid, SIGTERM)` when the current booster pid is positive,
none when it is zero or negative. Applying a command twice gives the state
of applying it once, with no further call. -/
theorem modeCommands_spec (d : Daemon) :
    enterBootMode d
        = (if d.m_bootMode then (d, [])
           else ({ d with m_bootMode := true },
                 if 0 < d.m_boosterPid then [.kill d.m_boosterPid SIGTERM] else []))
    ∧ enterNormalMode d
        = (if d.m_bootMode then
             ({ d with m_bootMode := false },
              if 0 < d.m_boosterPid then [.kill d.m_boosterPid SIGTERM] else [])
           else (d, []))
    ∧ enterBootMode (enterBootMode d).1 = ((enterBootMode d).1, [])
    ∧ enterNormalMode (enterNormalMode d).1 = ((enterNormalMode d).1, []) := by
  refine ⟨?_, ?_, ?_, ?_⟩
  · cases hm : d.m_bootMode
    · by_cases hp : 0 < d.m_boosterPid
      · have hne : d.m_boosterPid ≠ 0 := by omega
        simp [enterBootMode, hm, killBoosters, killProcess, hp, hne]
      · by_cases hz : d.m_boosterPid = 0
        · simp [enterBootMode, hm, killBoosters, killProcess, hz]
        · simp [enterBootMode, hm, killBoosters, killProcess, hp, hz]
    · simp [enterBootMode, hm]
  · cases hm : d.m_bootMode
    · simp [enterNormalMode, hm]
    · by_cases hp : 0 < d.m_boosterPid
      · have hne : d.m_boosterPid ≠ 0 := by omega
        simp [enterNormalMode, hm, killBoosters, killProcess, hp, hne]
      · by_cases hz : d.m_boosterPid = 0
        · simp [enterNormalMode, hm, killBoosters, killProcess, hz]
        · simp [enterNormalMode, hm, killBoosters, killProcess, hp, hz]
  · cases hm : d.m_bootMode <;> simp [enterBootMode, hm]
  · cases hm : d.m_bootMode <;> simp [enterNormalMode, hm]

/-- C10 as stated fails: an argument of one blank is none of the listed options,
yet `parseArgs` neither prints the usage nor exits; it returns with the flags
untouched. -/
theorem parseArgs_blank_accepted :
    parseArgs (Daemon.init (0, 0) (0, 0)) ["applauncherd", " "]
      = some (.returned (Daemon.init (0, 0) (0, 0))) := by
  decide

theorem setFlags_nil (d : Daemon) : setFlags [] d = d := by
  simp [setFlags]

/-- C10 (command line), amended. For every argument vector `name :: rest`, `parseArgs`
ends at the first argument behind `args[0]` that is a help option or that is
neither a listed option nor made of blanks only: it prints the usage and
exits, with status 0 for `-h` and `--help` and with status 1 otherwise.
Arguments made of blanks only are passed over. Without such an argument it
returns, and each of the five flags is set exactly when one of its options
occurs; every other member is unchanged. -/
theorem parseArgs_spec (d : Daemon) (name : String) (rest : List String) :
    parseArgs d (name :: rest) = some (parseArgsSpec d name rest) := by
  have loop : ∀ (rest : List String) (d : Daemon),
      parseArgsLoop name rest d = parseArgsSpec d name rest := by
    intro rest
    induction rest with
    | nil => intro d; simp [parseArgsLoop, parseArgsSpec, setFlags_nil]
    | cons arg rest ih =>
      intro d
      rw [parseArgsLoop]
      by_cases h1 : arg = "--boot-mode" ∨ arg = "-b"
      · have hs : stopsParse arg = false := by
          rcases h1 with h | h <;> (subst h; decide)
        have hset : setFlags (arg :: rest) d = setFlags rest { d with m_bootMode := true } := by
          rcases h1 with h | h <;> (subst h; simp [setFlags])
        simp only [h1, Bool.or_eq_true, decide_eq_true_eq, if_true, ih]
        simp [parseArgsSpec, List.find?, hs, hset]
      have h1a : arg ≠ "--boot-mode" := fun h => h1 (Or.inl h)
      have h1b : arg ≠ "-b" := fun h => h1 (Or.inr h)
      by_cases h2 : arg = "--daemon" ∨ arg = "-d"
      · have hs : stopsParse arg = false := by
          rcases h2 with h | h <;> (subst h; decide)
        have hset : setFlags (arg :: rest) d = setFlags rest { d with m_daemon := true } := by
          rcases h2 with h | h <;> (subst h; simp [setFlags])
        simp only [h1, h2, Bool.or_eq_true, decide_eq_true_eq, if_true, if_false, ih]
        simp [parseArgsSpec, List.find?, hs, hset]
      have h2a : arg ≠ "--daemon" := fun h => h2 (Or.inl h)
      have h2b : arg ≠ "-d" := fun h => h2 (Or.inr h)
      by_cases h3 : arg = "--debug"
      · subst h3
        have hs : stopsParse "--debug" = false := by decide
        have hset : setFlags ("--debug" :: rest) d
            = setFlags rest { d with m_debugMode := true } := by
          simp [setFlags]
        show parseArgsLoop name rest { d with m_debugMode := true } = _
        rw [ih]
        simp [parseArgsSpec, List.find?, hs, hset]
      by_cases h4 : arg = "--help" ∨ arg = "-h"
      · have hs : stopsParse arg = true := by
          rcases h4 with h | h <;> (subst h; decide)
        have hh : isHelp arg = true := by
          rcases h4 with h | h <;> (subst h; decide)
        simp only [h1, h2, h3, h4, Bool.or_eq_true, decide_eq_true_eq, if_true, if_false]
        simp [parseArgsSpec, List.find?, hs, hh]
      have h4a : arg ≠ "--help" := fun h => h4 (Or.inl h)
      have h4b : arg ≠ "-h" := fun h => h4 (Or.inr h)
      have hh : isHelp arg = false := by simp [isHelp, h4a, h4b]
      by_cases h5 : arg = "--re-exec"
      · subst h5
        have hs : stopsParse "--re-exec" = false := by decide
        have hset : setFlags ("--re-exec" :: rest) d
            = setFlags rest { d with m_reExec := true } := by
          simp [setFlags]
        show parseArgsLoop name rest { d with m_reExec := true } = _
        rw [ih]
        simp [parseArgsSpec, List.find?, hs, hset]
      by_cases h6 : arg = "--systemd"
      · subst h6
        have hs : stopsParse "--systemd" = false := by decide
        have hset : setFlags ("--systemd" :: rest) d
            = setFlags rest { d with m_notifySystemd := true } := by
          simp [setFlags]
        show parseArgsLoop name rest { d with m_notifySystemd := true } = _
        rw [ih]
        simp [parseArgsSpec, List.find?, hs, hset]
      have ho : isOption arg = false := by
        simp [isOption, h1a, h1b, h2a, h2b, h3, h5, h6]
      by_cases h7 : arg.data.any (fun c => c ≠ ' ') = true
      · have hb : isBlank arg = false := by
          simp only [isBlank, Bool.eq_false_iff]
          intro hall
          simp only [List.any_eq_true, List.all_eq_true, decide_eq_true_eq] at h7 hall
          obtain ⟨c, hc, hne⟩ := h7
          exact hne (hall c hc)
        have hs : stopsParse arg = true := by simp [stopsParse, hh, ho, hb]
        simp only [h1, h2, h3, h4, h5, h6, h7, Bool.or_eq_true, decide_eq_true_eq, if_true,
          if_false]
        simp [parseArgsSpec, List.find?, hs, hh]
      · have hb : isBlank arg = true := by
          simp only [isBlank, List.all_eq_true, decide_eq_true_eq]
          intro c hc
          by_contra hne
          exact h7 (by simp only [List.any_eq_true, decide_eq_true_eq]; exact ⟨c, hc, hne⟩)
        have hs : stopsParse arg = false := by simp [stopsParse, hh, ho, hb]
        have hset : setFlags (arg :: rest) d = setFlags rest d := by
          simp [setFlags, h1a, h1b, h2a, h2b, h3, h5, h6]
        simp only [h1, h2, h3, h4, h5, h6, h7, Bool.or_eq_true, decide_eq_true_eq, if_true,
          if_false, ih]
        simp [parseArgsSpec, List.find?, hs, hset]
  show some (parseArgsLoop name rest d) = _
  rw [loop rest d]

/-- C4 (reap, normal exit). Let `p ≠ 0` have the invoker pid mapping `p → q` and the
fd mapping `p → f` in well-formed maps. The handling of `p` reaped as exited
with code `c` makes exactly the calls write of `INVOKER_MSG_EXIT` to `f`,
write of `c` to `f`, close of `f`, in this order, and erases both entries.
In every run of the loop of `reapZombies` from the pass in which `waitpid`
returns `p` with that status, these three calls come first; where `f` is the
descriptor of `p` alone, they are all the calls on `f`; and when the loop
returns, `p` is a key of neither map. -/
theorem reapZombies_exited (d : Daemon) (p c q f : Int) (hp : p ≠ 0)
    (hq : mapFind d.m_boosterPidToInvokerPid p = some q)
    (hf : mapFind d.m_boosterPidToInvokerFd p = some f)
    (ho1 : MapOrdered d.m_boosterPidToInvokerPid)
    (ho2 : MapOrdered d.m_boosterPidToInvokerFd) :
    (reapInvoker d p (.exited c)).2
        = [.write f .invokerMsgExit, .write f (.int c), .close f]
    ∧ p ∉ mapKeys (reapInvoker d p (.exited c)).1.m_boosterPidToInvokerPid
    ∧ p ∉ mapKeys (reapInvoker d p (.exited c)).1.m_boosterPidToInvokerFd
    ∧ ∀ (waits : List WaitResult) (forks : List Int) (i : Nat) (o : Outcome),
        i < d.m_children.length →
        reapLoop ({ pid := p, status := .exited c } :: waits) forks i d = some o →
        (∃ rest, o.effects
            = [.write f .invokerMsgExit, .write f (.int c), .close f] ++ rest)
        ∧ ((∀ e ∈ d.m_boosterPidToInvokerFd, e.2 = f → e.1 = p) →
            o.effects.filter (Effect.onFd f)
              = [.write f .invokerMsgExit, .write f (.int c), .close f])
        ∧ ∀ d', o.result = .returned d' →
            p ∉ mapKeys d'.m_boosterPidToInvokerPid
            ∧ p ∉ mapKeys d'.m_boosterPidToInvokerFd := by
  have hblock := reapInvoker_exited (d := d) c hq hf
  refine ⟨by rw [hblock], ?_, ?_, ?_⟩
  · rw [hblock]; exact not_mem_mapKeys_mapErase p ho1
  · rw [hblock]; exact not_mem_mapKeys_mapErase p ho2
  · intro waits forks i o hi hrun
    have hblock' := reapInvoker_exited
      (d := { d with m_children := d.m_children.eraseIdx i }) c hq hf
    obtain ⟨rest, heff, hQ, hP⟩ :=
      reapLoop_first (Dropped (∀ e ∈ d.m_boosterPidToInvokerFd, e.2 = f → e.1 = p) p f)
        (fun e => (∀ e ∈ d.m_boosterPidToInvokerFd, e.2 = f → e.1 = p) → e.onFd f = false)
        (dropped_erase _ p f) (dropped_reapInvoker _ p f) (dropped_forkBooster _ p f)
        hi hp hrun
        (by
          show Dropped _ p f
            (reapInvoker { d with m_children := d.m_children.eraseIdx i } p (.exited c)).1
          rw [hblock']
          exact dropped_of_erased p f { d with m_children := d.m_children.eraseIdx i } ho1 ho2)
    have heff' : o.effects
        = [.write f .invokerMsgExit, .write f (.int c), .close f] ++ rest := by
      rw [heff]
      show (reapInvoker { d with m_children := d.m_children.eraseIdx i } p (.exited c)).2
        ++ rest = _
      rw [hblock']
    refine ⟨⟨rest, heff'⟩, ?_, fun d' hd' => (hP d' hd').1⟩
    intro hU
    rw [heff', List.filter_append, filter_onFd_nil (fun e he => hQ e he hU)]
    simp [Effect.onFd]

/-- Witness of C4: scenario 1, the booster 11 exits with code 7 while the replacement 12
is still running. -/
theorem reapZombies_exited_witness :
    (11 : Int) ≠ 0
    ∧ mapFind launchedState.m_boosterPidToInvokerPid 11 = some 1000
    ∧ mapFind launchedState.m_boosterPidToInvokerFd 11 = some 9
    ∧ MapOrdered launchedState.m_boosterPidToInvokerPid
    ∧ MapOrdered launchedState.m_boosterPidToInvokerFd
    ∧ reapZombies launchedState
          [{ pid := 11, status := .exited 7 }, { pid := 0, status := .other }] []
        = some { effects := [.write 9 .invokerMsgExit, .write 9 (.int 7), .close 9]
                 result := .returned
                   { launchedState with
                     m_children := [12]
                     m_boosterPidToInvokerPid := []
                     m_boosterPidToInvokerFd := [] } }
    ∧ ((∀ e ∈ launchedState.m_boosterPidToInvokerFd, e.2 = 9 → e.1 = 11) →
        [Effect.write 9 .invokerMsgExit, .write 9 (.int 7), .close 9].filter (Effect.onFd 9)
          = [.write 9 .invokerMsgExit, .write 9 (.int 7), .close 9]) :=
  ⟨by decide, by decide, by decide, by decide, by decide, by decide,
    ((reapZombies_exited launchedState 11 7 1000 9 (by decide) (by decide) (by decide)
        (by decide) (by decide)).2.2.2
      [{ pid := 0, status := .other }] [] 0
      { effects := [.write 9 .invokerMsgExit, .write 9 (.int 7), .close 9]
        result := .returned
          { launchedState with
            m_children := [12]
            m_boosterPidToInvokerPid := []
            m_boosterPidToInvokerFd := [] } }
      (by decide) (by decide)).2.1⟩

/-- C5 as stated fails: the booster 11, mapped to the invoker pid -1 and the
descriptor 9, is reaped as killed by signal 11. The descriptor is closed and
both entries are dropped, but no signal is sent, because `killProcess` calls
`kill` for a positive pid only. -/
theorem reapZombies_signaled_no_kill :
    mapFind ({ launchedState with m_boosterPidToInvokerPid := [(11, -1)] } : Daemon).m_boosterPidToInvokerPid
        11 = some (-1)
    ∧ reapZombies { launchedState with m_boosterPidToInvokerPid := [(11, -1)] }
          [{ pid := 11, status := .signaled 11 }, { pid := 0, status := .other }] []
        = some { effects := [.close 9]
                 result := .returned
                   { launchedState with
                     m_children := [12]
                     m_boosterPidToInvokerPid := []
                     m_boosterPidToInvokerFd := [] } } := by
  decide

/-- C5 (reap, signal death), amended. Let `p ≠ 0` have the invoker pid mapping
`p → q` and the fd mapping `p → f` in well-formed maps. The handling of `p`
reaped as terminated by signal `s` closes `f` without writing to it, then
sends `s` to the process `q` when `q` is positive (and sends nothing when
`q ≤ 0`), and erases both entries. In every run of the loop of `reapZombies`
from the pass in which `waitpid` returns `p` with that status, these calls
come first; where `f` is the descriptor of `p` alone, the close is the only
call on `f`; and when the loop returns, `p` is a key of neither map. -/
theorem reapZombies_signaled (d : Daemon) (p s q f : Int) (hp : p ≠ 0)
    (hq : mapFind d.m_boosterPidToInvokerPid p = some q)
    (hf : mapFind d.m_boosterPidToInvokerFd p = some f)
    (ho1 : MapOrdered d.m_boosterPidToInvokerPid)
    (ho2 : MapOrdered d.m_boosterPidToInvokerFd) :
    (reapInvoker d p (.signaled s)).2
        = .close f :: (if q > 0 then [.kill q s] else [])
    ∧ p ∉ mapKeys (reapInvoker d p (.signaled s)).1.m_boosterPidToInvokerPid
    ∧ p ∉ mapKeys (reapInvoker d p (.signaled s)).1.m_boosterPidToInvokerFd
    ∧ ∀ (waits : List WaitResult) (forks : List Int) (i : Nat) (o : Outcome),
        i < d.m_children.length →
        reapLoop ({ pid := p, status := .signaled s } :: waits) forks i d = some o →
        (∃ rest, o.effects
            = .close f :: (if q > 0 then [.kill q s] else []) ++ rest)
        ∧ ((∀ e ∈ d.m_boosterPidToInvokerFd, e.2 = f → e.1 = p) →
            o.effects.filter (Effect.onFd f) = [.close f])
        ∧ ∀ d', o.result = .returned d' →
            p ∉ mapKeys d'.m_boosterPidToInvokerPid
            ∧ p ∉ mapKeys d'.m_boosterPidToInvokerFd := by
  have hblock := reapInvoker_signaled (d := d) s hq hf
  refine ⟨by rw [hblock]; rfl, ?_, ?_, ?_⟩
  · rw [hblock]; exact not_mem_mapKeys_mapErase p ho1
  · rw [hblock]; exact not_mem_mapKeys_mapErase p ho2
  · intro waits forks i o hi hrun
    have hblock' := reapInvoker_signaled
      (d := { d with m_children := d.m_children.eraseIdx i }) s hq hf
    obtain ⟨rest, heff, hQ, hP⟩ :=
      reapLoop_first (Dropped (∀ e ∈ d.m_boosterPidToInvokerFd, e.2 = f → e.1 = p) p f)
        (fun e => (∀ e ∈ d.m_boosterPidToInvokerFd, e.2 = f → e.1 = p) → e.onFd f = false)
        (dropped_erase _ p f) (dropped_reapInvoker _ p f) (dropped_forkBooster _ p f)
        hi hp hrun
        (by
          show Dropped _ p f
            (reapInvoker { d with m_children := d.m_children.eraseIdx i } p (.signaled s)).1
          rw [hblock']
          exact dropped_of_erased p f { d with m_children := d.m_children.eraseIdx i } ho1 ho2)
    have heff' : o.effects
        = .close f :: (if q > 0 then [.kill q s] else []) ++ rest := by
      rw [heff]
      show (reapInvoker { d with m_children := d.m_children.eraseIdx i } p (.signaled s)).2
        ++ rest = _
      rw [hblock']
      rfl
    refine ⟨⟨rest, heff'⟩, ?_, fun d' hd' => (hP d' hd').1⟩
    intro hU
    rw [heff', List.cons_append, List.filter_cons, List.filter_append,
      filter_onFd_nil (fun e he => hQ e he hU)]
    by_cases hq0 : q > 0 <;> simp [Effect.onFd, hq0]

/-- Witness of C5: scenario 2, the booster 11 dies by SIGSEGV (signal 11) while the
replacement 12 is still running; the invoker 1000 gets the same signal. -/
theorem reapZombies_signaled_witness :
    (11 : Int) ≠ 0
    ∧ mapFind launchedState.m_boosterPidToInvokerPid 11 = some 1000
    ∧ mapFind launchedState.m_boosterPidToInvokerFd 11 = some 9
    ∧ MapOrdered launchedState.m_boosterPidToInvokerPid
    ∧ MapOrdered launchedState.m_boosterPidToInvokerFd
    ∧ reapZombies launchedState
          [{ pid := 11, status := .signaled 11 }, { pid := 0, status := .other }] []
        = some { effects := [.close 9, .kill 1000 11]
                 result := .returned
                   { launchedState with
                     m_children := [12]
                     m_boosterPidToInvokerPid := []
                     m_boosterPidToInvokerFd := [] } }
    ∧ ((∀ e ∈ launchedState.m_boosterPidToInvokerFd, e.2 = 9 → e.1 = 11) →
        [Effect.close 9, .kill 1000 11].filter (Effect.onFd 9) = [.close 9]) :=
  ⟨by decide, by decide, by decide, by decide, by decide, by decide,
    ((reapZombies_signaled launchedState 11 11 1000 9 (by decide) (by decide) (by decide)
        (by decide) (by decide)).2.2.2
      [{ pid := 0, status := .other }] [] 0
      { effects := [.close 9, .kill 1000 11]
        result := .returned
          { launchedState with
            m_children := [12]
            m_boosterPidToInvokerPid := []
            m_boosterPidToInvokerFd := [] } }
      (by decide) (by decide)).2.1⟩

/-- C7 (removal only on a successful reap), the code at a failing input: the
children are 11 and 12, `waitpid` on 11 fails (returns -1) and 12 is not
ready. The test `if (pid)` takes -1 for a reaped pid: 11 is erased from the
children although it was not reaped, and its invoker entries stay behind. -/
theorem reapZombies_failed_wait_removes :
    reapZombies launchedState
        [{ pid := -1, status := .other }, { pid := 0, status := .other }] []
      = some { effects := []
               result := .returned { launchedState with m_children := [12] } } := by
  decide

/-- C8 as stated fails: in normal mode a requested delay of -1 is not the time the
child sleeps. The `int` is converted to the `unsigned int` parameter of
`sleep`, and the child sleeps 4294967295 seconds. -/
theorem forkBooster_negative_delay :
    launchedState.m_bootMode = false
    ∧ forkBooster launchedState (-1) 13
        = { effects := [.fork 13 (forkBoosterChild { launchedState with m_boosterPid := 0 } (-1))]
            result := .returned
              { launchedState with m_children := [11, 12, 13], m_boosterPid := 13 } }
    ∧ sleptSeconds (forkBoosterChild { launchedState with m_boosterPid := 0 } (-1))
        = 4294967295
    ∧ ((sleptSeconds (forkBoosterChild { launchedState with m_boosterPid := 0 } (-1)) : Nat)
        : Int) ≠ -1 := by
  decide

/-- C8 (respawn delay), amended. The forked child sleeps 0 seconds in boot mode
and otherwise the requested `sleepTime` converted to `unsigned int`: that is
`sleepTime` itself for every `sleepTime ≥ 0`. When the loop of `reapZombies`
reaps the pid equal to the current booster pid (with a booster object and a
`fork()` that returns the pid of a new child), it forks a replacement that
sleeps 2 seconds in normal mode and 0 in boot mode. -/
theorem respawn_delay (d : Daemon) :
    (∀ sleepTime : Int,
      sleptSeconds (forkBoosterChild d sleepTime)
        = if d.m_bootMode then 0 else toUnsigned sleepTime)
    ∧ (∀ sleepTime : Int, 0 ≤ sleepTime → sleepTime ≤ INT_MAX →
        ((sleptSeconds (forkBoosterChild d sleepTime) : Nat) : Int)
          = if d.m_bootMode then 0 else sleepTime)
    ∧ (∀ (w : WaitResult) (waits : List WaitResult) (forks : List Int) (newPid : Int)
        (i : Nat) (o : Outcome),
        i < d.m_children.length → w.pid ≠ 0 → w.pid = d.m_boosterPid →
        d.m_booster = true → newPid ≠ -1 → newPid ≠ 0 →
        reapLoop (w :: waits) (newPid :: forks) i d = some o →
        ∃ pre child post, o.effects = pre ++ .fork newPid child :: post
          ∧ sleptSeconds child = if d.m_bootMode then 0 else 2) := by
  refine ⟨sleptSeconds_forkBoosterChild d, ?_, ?_⟩
  · intro sleepTime h0 hmax
    rw [sleptSeconds_forkBoosterChild]
    cases d.m_bootMode
    · simp only [Bool.false_eq_true, if_false, toUnsigned]
      unfold INT_MAX at hmax
      omega
    · simp
  · intro w waits forks newPid i o hi hp hb hbo h1 h0 hrun
    obtain ⟨_, _, _, hbp, hbm, hbs, _⟩ :=
      reapInvoker_frame { d with m_children := d.m_children.eraseIdx i } w.pid w.status
    rw [reapLoop, if_pos hi] at hrun
    simp only [hp, ne_eq, not_false_eq_true, if_true] at hrun
    generalize reapInvoker { d with m_children := d.m_children.eraseIdx i }
      w.pid w.status = r at hrun hbp hbm hbs
    have hb' : w.pid = r.1.m_boosterPid := by rw [hbp]; exact hb
    have hbo' : r.1.m_booster = true := by rw [hbs]; exact hbo
    rw [if_pos hb'] at hrun
    simp only [forkBooster_parent r.1 m_boosterSleepTime newPid hbo' h1 h0, Outcome.andThen,
      Option.map_eq_some'] at hrun
    obtain ⟨o1, ⟨o2, _, rfl⟩, rfl⟩ := hrun
    refine ⟨r.2, forkBoosterChild { r.1 with m_boosterPid := 0 } m_boosterSleepTime,
      o2.effects, ?_, ?_⟩
    · simp [Outcome.after]
    · rw [sleptSeconds_forkBoosterChild]
      show (if r.1.m_bootMode = true then 0 else toUnsigned m_boosterSleepTime) = _
      rw [hbm]
      rfl

/-- Witness of C8: a requested delay of 2 seconds in normal mode, and scenario 3
without the mode flip: the current booster 12 exits, and the replacement 13
sleeps 2 seconds. -/
theorem respawn_delay_witness :
    (0 : Int) ≤ 2 ∧ (2 : Int) ≤ INT_MAX
    ∧ ((sleptSeconds (forkBoosterChild launchedState 2) : Nat) : Int)
        = (if launchedState.m_bootMode then 0 else 2)
    ∧ 1 < launchedState.m_children.length
    ∧ (12 : Int) ≠ 0 ∧ (12 : Int) = launchedState.m_boosterPid
    ∧ launchedState.m_booster = true ∧ (13 : Int) ≠ -1 ∧ (13 : Int) ≠ 0
    ∧ reapLoop [{ pid := 12, status := .exited 0 }, { pid := 0, status := .other }] [13] 1
          launchedState
        = some
          { effects :=
              [.fork 13 (forkBoosterChild
                { launchedState with m_children := [11], m_boosterPid := 0 } 2)]
            result := .returned
              { launchedState with m_children := [11, 13], m_boosterPid := 13 } }
    ∧ ∃ pre child post,
        [Effect.fork 13 (forkBoosterChild
            { launchedState with m_children := [11], m_boosterPid := 0 } 2)]
          = pre ++ .fork 13 child :: post
        ∧ sleptSeconds child = if launchedState.m_bootMode then 0 else 2 :=
  ⟨by decide, by decide,
    (respawn_delay launchedState).2.1 2 (by decide) (by decide),
    by decide, by decide, by decide, by decide, by decide, by decide, by decide,
    (respawn_delay launchedState).2.2 { pid := 12, status := .exited 0 }
      [{ pid := 0, status := .other }] [] 13 1
      { effects :=
          [.fork 13 (forkBoosterChild
            { launchedState with m_children := [11], m_boosterPid := 0 } 2)]
        result := .returned
          { launchedState with m_children := [11, 13], m_boosterPid := 13 } }
      (by decide) (by decide) (by decide) (by decide) (by decide) (by decide) (by decide)⟩

/-- C14 as stated fails: in the state file `my-pid 42`, `foo`, `end` read by process
42 the token `foo` stands at a record-keyword position and is none of the
keywords, yet `restoreState` returns successfully. -/
theorem restoreState_unknown_token_accepted :
    isKeyword "foo" = false
    ∧ restoreState 42 "my-pid 42\nfoo\nend\n".toList (Daemon.init (0, 0) (0, 0))
        = some (.returned (Daemon.init (0, 0) (0, 0)) true) := by
  decide

/-- C14 (unknown tokens), amended. For every state file with a `my-pid` header of
the own pid: a token at a record-keyword position that is none of the
keywords is passed over, the members being untouched, and the loop goes on
with the next token. `restoreState` returns successfully when the text behind
the header presents `end` at a record-keyword position, with the file removed
unless the restored members are in debug mode. When the text does not
present `end` there, the `try` block is left by a stream failure and `restoreState` ends
the process by `_exit(1)`, with the file removed unless the members, as they
are when the stream fails, are in debug mode. -/
theorem restoreState_unknown_tokens (myPid : Int) (file s1 s2 : List Char) (d : Daemon)
    (h1 : readToken file = some ("my-pid", s1)) (h2 : readInt s1 = some (myPid, s2)) :
    (∀ (ss rest : List Char) (token : String) (d1 : Daemon),
        readToken ss = some (token, rest) → isKeyword token = false →
        restoreStep ss d1 = .next rest d1)
    ∧ (presentsEnd s2 = true →
        ∃ d', restoreState myPid file d = some (.returned d' (!d'.m_debugMode)))
    ∧ (presentsEnd s2 = false →
        ∃ d', restoreTry myPid file d = some (.threw .iosFailure "" d')
          ∧ restoreState myPid file d = some (.exited 1 (!d'.m_debugMode))) := by
  have htry : restoreTry myPid file d = restoreLoop (s2.length + 1) s2 d := by
    unfold restoreTry
    rw [h1]
    simp only [ne_eq, not_true_eq_false, if_false]
    rw [h2]
    simp only [ne_eq, not_true_eq_false, if_false]
  refine ⟨fun ss rest token d1 ht hk => restoreStep_unknown d1 ht hk, ?_, ?_⟩
  · intro hend
    obtain ⟨d', hloop⟩ := restoreLoop_with_end (s2.length + 1) s2 d hend
    refine ⟨d', ?_⟩
    unfold restoreState
    rw [htry, hloop]
  · intro hend
    obtain ⟨d', hloop⟩ := restoreLoop_no_end (s2.length + 1) s2 d (Nat.lt_succ_self _) hend
    refine ⟨d', by rw [htry, hloop], ?_⟩
    unfold restoreState
    rw [htry, hloop]
    rfl

/-- Witness of C14: the header of process 42 and the unknown token `foo`, followed by a
`child` record and the `end` record in one file, by the record `debug-mode 1` and no
`end` in another. The first file is restored and removed; on the second the
process exits with status 1 and the file stays, the debug flag having been
read. Without the `debug-mode` record the file is removed. -/
theorem restoreState_unknown_tokens_witness :
    readToken "my-pid 42\nfoo\nchild 3\nend\n".toList
        = some ("my-pid", " 42\nfoo\nchild 3\nend\n".toList)
    ∧ readInt " 42\nfoo\nchild 3\nend\n".toList
        = some (42, "\nfoo\nchild 3\nend\n".toList)
    ∧ presentsEnd "\nfoo\nchild 3\nend\n".toList = true
    ∧ restoreStep "\nfoo\nchild 3\nend\n".toList (Daemon.init (0, 0) (0, 0))
        = .next "\nchild 3\nend\n".toList (Daemon.init (0, 0) (0, 0))
    ∧ (∃ d', restoreState 42 "my-pid 42\nfoo\nchild 3\nend\n".toList
          (Daemon.init (0, 0) (0, 0)) = some (.returned d' (!d'.m_debugMode)))
    ∧ restoreState 42 "my-pid 42\nfoo\nchild 3\nend\n".toList (Daemon.init (0, 0) (0, 0))
        = some (.returned { Daemon.init (0, 0) (0, 0) with m_children := [3] } true)
    ∧ readToken "my-pid 42\nfoo\ndebug-mode 1\n".toList
        = some ("my-pid", " 42\nfoo\ndebug-mode 1\n".toList)
    ∧ readInt " 42\nfoo\ndebug-mode 1\n".toList = some (42, "\nfoo\ndebug-mode 1\n".toList)
    ∧ presentsEnd "\nfoo\ndebug-mode 1\n".toList = false
    ∧ (∃ d', restoreTry 42 "my-pid 42\nfoo\ndebug-mode 1\n".toList (Daemon.init (0, 0) (0, 0))
          = some (.threw .iosFailure "" d')
        ∧ restoreState 42 "my-pid 42\nfoo\ndebug-mode 1\n".toList (Daemon.init (0, 0) (0, 0))
          = some (.exited 1 (!d'.m_debugMode)))
    ∧ restoreState 42 "my-pid 42\nfoo\ndebug-mode 1\n".toList (Daemon.init (0, 0) (0, 0))
        = some (.exited 1 false)
    ∧ restoreState 42 "my-pid 42\nfoo\n".toList (Daemon.init (0, 0) (0, 0))
        = some (.exited 1 true) :=
  ⟨by decide, by decide, by decide,
    (restoreState_unknown_tokens 42 "my-pid 42\nfoo\nchild 3\nend\n".toList
      " 42\nfoo\nchild 3\nend\n".toList "\nfoo\nchild 3\nend\n".toList
      (Daemon.init (0, 0) (0, 0)) (by decide) (by decide)).1
      "\nfoo\nchild 3\nend\n".toList "\nchild 3\nend\n".toList "foo"
      (Daemon.init (0, 0) (0, 0)) (by decide) (by decide),
    (restoreState_unknown_tokens 42 "my-pid 42\nfoo\nchild 3\nend\n".toList
      " 42\nfoo\nchild 3\nend\n".toList "\nfoo\nchild 3\nend\n".toList
      (Daemon.init (0, 0) (0, 0)) (by decide) (by decide)).2.1 (by decide),
    by decide, by decide, by decide, by decide,
    (restoreState_unknown_tokens 42 "my-pid 42\nfoo\ndebug-mode 1\n".toList
      " 42\nfoo\ndebug-mode 1\n".toList "\nfoo\ndebug-mode 1\n".toList
      (Daemon.init (0, 0) (0, 0)) (by decide) (by decide)).2.2 (by decide),
    by decide, by decide⟩

/-- C15 (re-exec argument vector). The vector that `reExec` hands to `execve` is the
own path, `--re-exec` and a padding of 50 blanks. `parseArgs` on it, from the
members as the constructor initializes them, returns without a usage exit,
with the re-exec flag set and the daemon, boot mode, debug and notify flags
false. The constructor of the successor then calls `restoreState` and, when
that returns, is done after this one step: no socket pair, no pipe and no
`daemonize()`. On the state file that `reExec` wrote for a well-formed state under
the same pid, `restoreState` does return, and the successor is constructed with the
saved members. -/
theorem reExec_argv_accepted (myPid otherPid : Int) (old : Daemon) (file : List Char)
    (launcherSocket sigPipe : Int × Int) (newSocket newPipe : Option (Int × Int)) :
    (reExec otherPid old true true).effects
        = [.writeStateFile (saveState otherPid old)] ++ killBoosters old
          ++ [.ignoreSighup, .execve reExecArgv]
    ∧ reExecArgv
        = ["/usr/bin/applauncherd.bin", "--re-exec", String.mk (List.replicate 50 ' ')]
    ∧ parseArgs (Daemon.init launcherSocket sigPipe) reExecArgv
        = some (.returned { Daemon.init launcherSocket sigPipe with m_reExec := true })
    ∧ (∃ r, restoreState myPid file { Daemon.init launcherSocket sigPipe with m_reExec := true }
          = some r
        ∧ construct myPid reExecArgv file launcherSocket sigPipe newSocket newPipe
          = some (match r with
              | .returned d _ => .constructed d [.restoreState]
              | .exited status _ => .exited status
              | .uncaught _ msg => .threw msg))
    ∧ (IntRange otherPid → old.WellFormed →
        construct otherPid reExecArgv (saveState otherPid old) launcherSocket sigPipe
            newSocket newPipe
          = some (.constructed
              { Daemon.init launcherSocket sigPipe with
                m_reExec := true
                m_debugMode := old.m_debugMode
                m_children := old.m_children
                m_boosterPidToInvokerPid := old.m_boosterPidToInvokerPid
                m_boosterPidToInvokerFd := old.m_boosterPidToInvokerFd
                m_boosterPid := old.m_boosterPid
                m_boosterLauncherSocket := old.m_boosterLauncherSocket
                m_sigPipeFd := old.m_sigPipeFd
                m_bootMode := old.m_bootMode
                m_socketManager := old.m_socketManager }
              [.restoreState])) := by
  have hparse : parseArgs (Daemon.init launcherSocket sigPipe) reExecArgv
      = some (.returned { Daemon.init launcherSocket sigPipe with m_reExec := true }) := rfl
  have key : ∀ (pid : Int) (file : List Char) (r : RestoreResult),
      restoreState pid file { Daemon.init launcherSocket sigPipe with m_reExec := true }
        = some r →
      construct pid reExecArgv file launcherSocket sigPipe newSocket newPipe
        = some (match r with
            | .returned d _ => .constructed d [.restoreState]
            | .exited status _ => .exited status
            | .uncaught _ msg => .threw msg) := by
    intro pid file r hr
    unfold construct
    rw [hparse]
    simp only [if_true]
    rw [hr]
    cases r with
    | returned d removed =>
      obtain ⟨hd, hre, _, _⟩ := restoreState_flags hr
      have hre' : d.m_reExec = true := hre
      have hd' : d.m_daemon = false := hd
      simp [constructRest, hre', hd']
    | exited status removed => rfl
    | uncaught ty msg => rfl
  refine ⟨rfl, by decide, hparse, ?_, ?_⟩
  · obtain ⟨r, hr⟩ := restoreState_total myPid file
      { Daemon.init launcherSocket sigPipe with m_reExec := true }
    exact ⟨r, hr, key myPid file r hr⟩
  · intro hpid hold
    exact key otherPid _ _ (restoreState_saveState_members otherPid old
      { Daemon.init launcherSocket sigPipe with m_reExec := true } hpid hold
      ⟨rfl, rfl, rfl, rfl⟩)

/-- Witness of C15: the successor of the process 4242 that saved the state of scenario 4. -/
theorem reExec_argv_accepted_witness :
    IntRange 4242 ∧ scenarioState.WellFormed
    ∧ construct 4242 reExecArgv (saveState 4242 scenarioState) (0, 0) (0, 0) none none
        = some (.constructed
            { Daemon.init (0, 0) (0, 0) with
              m_reExec := true
              m_debugMode := false
              m_children := [10, 11]
              m_boosterPidToInvokerPid := [(11, 2000)]
              m_boosterPidToInvokerFd := [(11, 7)]
              m_boosterPid := 11
              m_boosterLauncherSocket := (3, 4)
              m_sigPipeFd := (5, 6)
              m_bootMode := false
              m_socketManager := { m_socketHash := [("generic", 8)] } }
            [.restoreState]) :=
  ⟨by decide, by decide,
    (reExec_argv_accepted 4242 4242 scenarioState [] (0, 0) (0, 0) none none).2.2.2.2
      (by decide) (by decide)⟩

/-- C16 (the two invoker maps have the same key set). Both maps are empty
after construction. From a state in which the key sets of
`m_boosterPidToInvokerPid` and `m_boosterPidToInvokerFd` agree (both being maps, with ascending
keys), they agree again: whenever `readFromBoosterSocket` returns; whenever `reapZombies`
returns from a run in which every `waitpid` call that returned a non-zero
value left a status that is exited or signaled; after `enterNormalMode` and
`enterBootMode`, which leave both maps as they are; and whenever `forkBooster` returns in
the parent. -/
theorem invokerMaps_sameKeys (d : Daemon)
    (ho1 : MapOrdered d.m_boosterPidToInvokerPid)
    (ho2 : MapOrdered d.m_boosterPidToInvokerFd) (h : SameKeys d) :
    (∀ launcherSocket sigPipe : Int × Int, SameKeys (Daemon.init launcherSocket sigPipe))
    ∧ (∀ (msg : Option Datagram) (newPid : Int) (d' : Daemon),
        (readFromBoosterSocket d msg newPid).result = .returned d' →
        MapOrdered d'.m_boosterPidToInvokerPid ∧ MapOrdered d'.m_boosterPidToInvokerFd
          ∧ SameKeys d')
    ∧ (∀ (waits : List WaitResult) (forks : List Int) (o : Outcome) (d' : Daemon),
        (∀ w ∈ waits, w.pid ≠ 0 → w.status ≠ .other) →
        reapZombies d waits forks = some o → o.result = .returned d' →
        MapOrdered d'.m_boosterPidToInvokerPid ∧ MapOrdered d'.m_boosterPidToInvokerFd
          ∧ SameKeys d')
    ∧ (enterNormalMode d).1.m_boosterPidToInvokerPid = d.m_boosterPidToInvokerPid
    ∧ (enterNormalMode d).1.m_boosterPidToInvokerFd = d.m_boosterPidToInvokerFd
    ∧ SameKeys (enterNormalMode d).1
    ∧ (enterBootMode d).1.m_boosterPidToInvokerPid = d.m_boosterPidToInvokerPid
    ∧ (enterBootMode d).1.m_boosterPidToInvokerFd = d.m_boosterPidToInvokerFd
    ∧ SameKeys (enterBootMode d).1
    ∧ (∀ (s newPid : Int) (d' : Daemon), (forkBooster d s newPid).result = .returned d' →
        MapOrdered d'.m_boosterPidToInvokerPid ∧ MapOrdered d'.m_boosterPidToInvokerFd
          ∧ SameKeys d') := by
  have hn : (enterNormalMode d).1.m_boosterPidToInvokerPid = d.m_boosterPidToInvokerPid
      ∧ (enterNormalMode d).1.m_boosterPidToInvokerFd = d.m_boosterPidToInvokerFd := by
    unfold enterNormalMode; split_ifs <;> exact ⟨rfl, rfl⟩
  have hb : (enterBootMode d).1.m_boosterPidToInvokerPid = d.m_boosterPidToInvokerPid
      ∧ (enterBootMode d).1.m_boosterPidToInvokerFd = d.m_boosterPidToInvokerFd := by
    unfold enterBootMode; split_ifs <;> exact ⟨rfl, rfl⟩
  refine ⟨fun _ _ k => Iff.rfl, ?_, ?_, hn.1, hn.2, ?_, hb.1, hb.2, ?_, ?_⟩
  · intro msg newPid d' hres
    cases msg with
    | none => simp [readFromBoosterSocket] at hres
    | some m =>
      unfold readFromBoosterSocket at hres
      simp only at hres
      refine sameKeys_forkBooster _ _ _ _ ?_ hres
      by_cases h1 : m.invokerPid ≠ 0
      · by_cases h2 : d.m_boosterPid ≠ 0
        · rw [if_pos h1, if_pos h2]
          refine ⟨mapSet_ordered _ _ ho1, mapSet_ordered _ _ ho2, ?_⟩
          intro k
          show k ∈ mapKeys (mapSet _ _ _) ↔ k ∈ mapKeys (mapSet _ _ _)
          rw [mem_mapKeys_mapSet, mem_mapKeys_mapSet, h k]
        · rw [if_pos h1, if_neg h2]; exact ⟨ho1, ho2, h⟩
      · rw [if_neg h1]; exact ⟨ho1, ho2, h⟩
  · intro waits forks o d' hW hrun hres
    exact reapLoop_induct_waits
      (fun d => MapOrdered d.m_boosterPidToInvokerPid ∧ MapOrdered d.m_boosterPidToInvokerFd
        ∧ SameKeys d)
      (fun w => w.pid ≠ 0 → w.status ≠ .other)
      (fun _ _ hd => hd)
      (fun d w hw hp hd => sameKeys_reapInvoker d w hw hp hd)
      (fun d s newPid d' hd hr => sameKeys_forkBooster d s newPid d' hd hr)
      waits forks 0 d o d' hW ⟨ho1, ho2, h⟩ hrun hres
  · intro k; rw [hn.1, hn.2]; exact h k
  · intro k; rw [hb.1, hb.2]; exact h k
  · intro s newPid d' hres
    exact sameKeys_forkBooster d s newPid d' ⟨ho1, ho2, h⟩ hres

/-- Witness of C16: scenario 1 after the launch; the booster 11 is reaped as killed by
signal 9, the current booster 12 as exited, and the replacement 13 is forked. -/
theorem invokerMaps_sameKeys_witness :
    MapOrdered launchedState.m_boosterPidToInvokerPid
    ∧ MapOrdered launchedState.m_boosterPidToInvokerFd
    ∧ SameKeys launchedState
    ∧ reapZombies launchedState
          [{ pid := 11, status := .signaled 9 }, { pid := 12, status := .exited 0 },
           { pid := 0, status := .other }] [13]
        = some { effects := [.close 9, .kill 1000 9,
                             .fork 13 (forkBoosterChild
                               { launchedState with
                                 m_children := []
                                 m_boosterPid := 0
                                 m_boosterPidToInvokerPid := []
                                 m_boosterPidToInvokerFd := [] } 2)]
                 result := .returned
                   { launchedState with
                     m_children := [13]
                     m_boosterPid := 13
                     m_boosterPidToInvokerPid := []
                     m_boosterPidToInvokerFd := [] } }
    ∧ SameKeys { launchedState with
                 m_children := [13]
                 m_boosterPid := 13
                 m_boosterPidToInvokerPid := []
                 m_boosterPidToInvokerFd := [] } :=
  ⟨by decide, by decide, fun _ => Iff.rfl, by decide,
    ((invokerMaps_sameKeys launchedState (by decide) (by decide) (fun _ => Iff.rfl)).2.2.1
      [{ pid := 11, status := .signaled 9 }, { pid := 12, status := .exited 0 },
           { pid := 0, status := .other }] [13]
      _ _ (by decide) (by decide : reapZombies launchedState
          [{ pid := 11, status := .signaled 9 }, { pid := 12, status := .exited 0 },
           { pid := 0, status := .other }] [13]
        = some { effects := [.close 9, .kill 1000 9,
                             .fork 13 (forkBoosterChild
                               { launchedState with
                                 m_children := []
                                 m_boosterPid := 0
                                 m_boosterPidToInvokerPid := []
                                 m_boosterPidToInvokerFd := [] } 2)]
                 result := .returned
                   { launchedState with
                     m_children := [13]
                     m_boosterPid := 13
                     m_boosterPidToInvokerPid := []
                     m_boosterPidToInvokerFd := [] } }) rfl).2.2⟩

/-- C11 (every key of the pid map is a child), the code at a failing input: in the state
of scenario 1 after the launch the invariant holds (the key 11 is a child)
and the current booster 12 is the last child. `waitpid` on 11 fails (returns -1)
and 12 is not ready. `reapZombies` returns with 11 erased from the children and
still a key of `m_boosterPidToInvokerPid`. -/
theorem reapZombies_failed_wait_orphans_key :
    KeysInChildren launchedState ∧ BoosterCurrent launchedState
    ∧ reapZombies launchedState
          [{ pid := -1, status := .other }, { pid := 0, status := .other }] []
        = some { effects := []
                 result := .returned { launchedState with m_children := [12] } }
    ∧ 11 ∈ mapKeys ({ launchedState with m_children := [12] } : Daemon).m_boosterPidToInvokerPid
    ∧ 11 ∉ ({ launchedState with m_children := [12] } : Daemon).m_children
    ∧ ¬ KeysInChildren { launchedState with m_children := [12] } := by
  decide

/-- C12 (the current booster pid is 0 or a child), the code at a failing input: in the
state of scenario 1 after the launch the current booster 12 is the child
forked last. The child 11 is not ready and `waitpid` on 12 fails (returns -1).
`reapZombies` returns with 12 erased from the children, no replacement forked (the
value compared with `m_boosterPid` is -1), and `m_boosterPid` still 12. -/
theorem reapZombies_failed_wait_loses_booster :
    KeysInChildren launchedState ∧ BoosterCurrent launchedState
    ∧ reapZombies launchedState
          [{ pid := 0, status := .other }, { pid := -1, status := .other }] []
        = some { effects := []
                 result := .returned { launchedState with m_children := [11] } }
    ∧ ({ launchedState with m_children := [11] } : Daemon).m_boosterPid = 12
    ∧ (12 : Int) ∉ ({ launchedState with m_children := [11] } : Daemon).m_children
    ∧ ¬ BoosterCurrent { launchedState with m_children := [11] } := by
  decide

/-- C13 as stated fails: two state files with the same header and trailer whose
records are permutations of each other, both conforming to the grammar
(`booster-invoker-pid` is repeatable). The later record for the booster pid 5
overwrites the earlier one, so the restored maps differ: `5 → 2` from the first file,
`5 → 1` from the second. -/
theorem restoreState_order_significant :
    stateFile 42 [.boosterInvokerPid 5 1, .boosterInvokerPid 5 2]
        = "my-pid 42\nbooster-invoker-pid 5 1\nbooster-invoker-pid 5 2\nend\n".toList
    ∧ stateFile 42 [.boosterInvokerPid 5 2, .boosterInvokerPid 5 1]
        = "my-pid 42\nbooster-invoker-pid 5 2\nbooster-invoker-pid 5 1\nend\n".toList
    ∧ [Record.boosterInvokerPid 5 1, .boosterInvokerPid 5 2].Perm
        [.boosterInvokerPid 5 2, .boosterInvokerPid 5 1]
    ∧ (∀ r ∈ [Record.boosterInvokerPid 5 1, .boosterInvokerPid 5 2], r.Conforms)
    ∧ restoreState 42
          "my-pid 42\nbooster-invoker-pid 5 1\nbooster-invoker-pid 5 2\nend\n".toList
          (Daemon.init (0, 0) (0, 0))
        = some (.returned
            { Daemon.init (0, 0) (0, 0) with m_boosterPidToInvokerPid := [(5, 2)] } true)
    ∧ restoreState 42
          "my-pid 42\nbooster-invoker-pid 5 2\nbooster-invoker-pid 5 1\nend\n".toList
          (Daemon.init (0, 0) (0, 0))
        = some (.returned
            { Daemon.init (0, 0) (0, 0) with m_boosterPidToInvokerPid := [(5, 1)] } true) := by
  refine ⟨by decide, by decide, List.Perm.swap _ _ _, by decide, by decide, by decide⟩

/-- C13 (record order), amended. For every state file that consists of the `my-pid`
header of the own pid, records of the grammar in any white-space layout, and
the `end` trailer, `restoreState` returns with the members that the records leave
when they are applied in the order of the file, each record assigning its
flag, pid, descriptor pair or map entry and each `child` record appending a
child; the file is removed unless the restored debug flag is set. The value
that a record gives stands in the restored members whenever no later record
of the file gives another value to the same thing, so that of two
conflicting records the later one wins. For two such files whose records are
permutations of each other, and of which no two records give different
values to the same thing, the restored states have the same scalar members,
the same two invoker maps, the same descriptor for every booster type, and
the same children up to order. The file that holds one record per line, as the
grammar lays it out, is such a file for every list of records with 32-bit
arguments. -/
theorem restoreState_record_order (myPid : Int) (file file' : List Char)
    (rs rs' : List Record) (d : Daemon)
    (hf : recordsOf myPid file = some rs) (hf' : recordsOf myPid file' = some rs')
    (ho1 : MapOrdered d.m_boosterPidToInvokerPid)
    (ho2 : MapOrdered d.m_boosterPidToInvokerFd) :
    restoreState myPid file d
        = some (.returned (rs.foldl Record.apply d) (!(rs.foldl Record.apply d).m_debugMode))
    ∧ restoreState myPid file' d
        = some (.returned (rs'.foldl Record.apply d) (!(rs'.foldl Record.apply d).m_debugMode))
    ∧ (∀ (pre post : List Record) (r : Record), rs = pre ++ r :: post →
        (∀ x ∈ post, r.Agree x) → Record.Holds (rs.foldl Record.apply d) r)
    ∧ (rs.Perm rs' → rs.Pairwise Record.Agree →
        SameContent (rs.foldl Record.apply d) (rs'.foldl Record.apply d)
        ∧ (rs.foldl Record.apply d).m_boosterPidToInvokerPid
            = (rs'.foldl Record.apply d).m_boosterPidToInvokerPid
        ∧ (rs.foldl Record.apply d).m_boosterPidToInvokerFd
            = (rs'.foldl Record.apply d).m_boosterPidToInvokerFd)
    ∧ (∀ (pid : Int) (rs0 : List Record), IntRange pid → (∀ r ∈ rs0, r.Conforms) →
        recordsOf pid (stateFile pid rs0) = some rs0) := by
  refine ⟨restoreState_of_records myPid file rs d hf,
    restoreState_of_records myPid file' rs' d hf', ?_, ?_,
    fun pid rs0 hpid hrs0 => recordsOf_stateFile pid rs0 hpid hrs0⟩
  · intro pre post r hrs ha
    rw [hrs]
    exact Record.holds_last pre post r d ha
  · intro hperm hagree
    have hsame := SameContent.perm hperm hagree (SameContent.refl d)
    have hord := Record.foldl_ordered rs d ⟨ho1, ho2⟩
    have hord' := Record.foldl_ordered rs' d ⟨ho1, ho2⟩
    exact ⟨hsame, mapOrdered_ext _ _ hord.1 hord'.1 hsame.2.2.2.2.2.1,
      mapOrdered_ext _ _ hord.2 hord'.2 hsame.2.2.2.2.2.2.1⟩

/-- Witness of C13: four records of scenario 4 in two orders and two layouts (one
record per line; several records per line, separated by blanks and tabs),
read by the process 42 into a freshly constructed supervisor. Both files
restore the children 10 and 11 (in the order of the file), the booster pid 11
and the map `11 → 2000`. Of the two records for the booster pid 5 in a third
file, the value of the later one stands. -/
theorem restoreState_record_order_witness :
    recordsOf 42
        "my-pid 42\nchild 10\nbooster-pid 11\nchild 11\nbooster-invoker-pid 11 2000\nend\n".toList
      = some [.child 10, .boosterPid 11, .child 11, .boosterInvokerPid 11 2000]
    ∧ recordsOf 42
        "my-pid 42 booster-invoker-pid 11  2000\n\tchild 11\nchild 10   booster-pid 11 end".toList
      = some [.boosterInvokerPid 11 2000, .child 11, .child 10, .boosterPid 11]
    ∧ MapOrdered (Daemon.init (0, 0) (0, 0)).m_boosterPidToInvokerPid
    ∧ MapOrdered (Daemon.init (0, 0) (0, 0)).m_boosterPidToInvokerFd
    ∧ [Record.child 10, .boosterPid 11, .child 11, .boosterInvokerPid 11 2000].Perm
        [.boosterInvokerPid 11 2000, .child 11, .child 10, .boosterPid 11]
    ∧ [Record.child 10, .boosterPid 11, .child 11, .boosterInvokerPid 11 2000].Pairwise
        Record.Agree
    ∧ restoreState 42
        "my-pid 42\nchild 10\nbooster-pid 11\nchild 11\nbooster-invoker-pid 11 2000\nend\n".toList
        (Daemon.init (0, 0) (0, 0))
      = some (.returned
          { Daemon.init (0, 0) (0, 0) with
            m_children := [10, 11]
            m_boosterPid := 11
            m_boosterPidToInvokerPid := [(11, 2000)] } true)
    ∧ restoreState 42
        "my-pid 42 booster-invoker-pid 11  2000\n\tchild 11\nchild 10   booster-pid 11 end".toList
        (Daemon.init (0, 0) (0, 0))
      = some (.returned
          { Daemon.init (0, 0) (0, 0) with
            m_children := [11, 10]
            m_boosterPid := 11
            m_boosterPidToInvokerPid := [(11, 2000)] } true)
    ∧ SameContent
        ([Record.child 10, .boosterPid 11, .child 11, .boosterInvokerPid 11 2000].foldl
          Record.apply (Daemon.init (0, 0) (0, 0)))
        ([Record.boosterInvokerPid 11 2000, .child 11, .child 10, .boosterPid 11].foldl
          Record.apply (Daemon.init (0, 0) (0, 0)))
    ∧ recordsOf 42
        "my-pid 42\nbooster-invoker-pid 5 1\nbooster-invoker-pid 5 2\nend\n".toList
      = some [.boosterInvokerPid 5 1, .boosterInvokerPid 5 2]
    ∧ Record.Holds
        ([Record.boosterInvokerPid 5 1, .boosterInvokerPid 5 2].foldl Record.apply
          (Daemon.init (0, 0) (0, 0)))
        (.boosterInvokerPid 5 2)
    ∧ recordsOf 42 (stateFile 42 [.socketHash "generic" 8, .debugMode true])
      = some [.socketHash "generic" 8, .debugMode true] :=
  ⟨by decide, by decide, by decide, by decide, by decide, by decide,
    (restoreState_record_order 42
      "my-pid 42\nchild 10\nbooster-pid 11\nchild 11\nbooster-invoker-pid 11 2000\nend\n".toList
      "my-pid 42 booster-invoker-pid 11  2000\n\tchild 11\nchild 10   booster-pid 11 end".toList
      [.child 10, .boosterPid 11, .child 11, .boosterInvokerPid 11 2000]
      [.boosterInvokerPid 11 2000, .child 11, .child 10, .boosterPid 11]
      (Daemon.init (0, 0) (0, 0)) (by decide) (by decide) (by decide) (by decide)).1,
    (restoreState_record_order 42
      "my-pid 42\nchild 10\nbooster-pid 11\nchild 11\nbooster-invoker-pid 11 2000\nend\n".toList
      "my-pid 42 booster-invoker-pid 11  2000\n\tchild 11\nchild 10   booster-pid 11 end".toList
      [.child 10, .boosterPid 11, .child 11, .boosterInvokerPid 11 2000]
      [.boosterInvokerPid 11 2000, .child 11, .child 10, .boosterPid 11]
      (Daemon.init (0, 0) (0, 0)) (by decide) (by decide) (by decide) (by decide)).2.1,
    ((restoreState_record_order 42
      "my-pid 42\nchild 10\nbooster-pid 11\nchild 11\nbooster-invoker-pid 11 2000\nend\n".toList
      "my-pid 42 booster-invoker-pid 11  2000\n\tchild 11\nchild 10   booster-pid 11 end".toList
      [.child 10, .boosterPid 11, .child 11, .boosterInvokerPid 11 2000]
      [.boosterInvokerPid 11 2000, .child 11, .child 10, .boosterPid 11]
      (Daemon.init (0, 0) (0, 0)) (by decide) (by decide) (by decide) (by decide)).2.2.2.1
      (by decide) (by decide)).1,
    by decide,
    (restoreState_record_order 42
      "my-pid 42\nbooster-invoker-pid 5 1\nbooster-invoker-pid 5 2\nend\n".toList
      "my-pid 42\nbooster-invoker-pid 5 1\nbooster-invoker-pid 5 2\nend\n".toList
      [.boosterInvokerPid 5 1, .boosterInvokerPid 5 2]
      [.boosterInvokerPid 5 1, .boosterInvokerPid 5 2]
      (Daemon.init (0, 0) (0, 0)) (by decide) (by decide) (by decide) (by decide)).2.2.1
      [.boosterInvokerPid 5 1] [] (.boosterInvokerPid 5 2) rfl (by decide),
    (restoreState_record_order 42
      "my-pid 42\nbooster-invoker-pid 5 1\nbooster-invoker-pid 5 2\nend\n".toList
      "my-pid 42\nbooster-invoker-pid 5 1\nbooster-invoker-pid 5 2\nend\n".toList
      [.boosterInvokerPid 5 1, .boosterInvokerPid 5 2]
      [.boosterInvokerPid 5 1, .boosterInvokerPid 5 2]
      (Daemon.init (0, 0) (0, 0)) (by decide) (by decide) (by decide) (by decide)).2.2.2.2
      42 [.socketHash "generic" 8, .debugMode true] (by decide) (by decide)⟩

end Applauncherd
